import Mathlib

/-! # STOCKMAINTAIN: the inventory computation core

A shallow embedding of the pure computations and of the handlers of the
stock and sales pages (`src/utils/stockUtils.js`, `src/pages/InventoryPage.jsx`,
`src/pages/AnalyticsPage.jsx`, `src/pages/StockSalesPage.jsx`,
`src/pages/StockEntryPage.jsx`, `src/pages/Dashboard.jsx`) together with the
properties the specification states about them.

Conventions of the embedding.

* A JavaScript number is an exact rational or `NaN` (`JsNum`).  IEEE rounding,
  overflow, the infinities and the sign of zero are not represented, except in
  the namespace `IEEE`, which restates the sums of `AnalyticsPage.jsx` with
  every addition rounded to a double: there the order of the additions matters.
* A value read from a decoded log (`JsVal`) is `undefined`, `null`, a boolean,
  a number or a string; `parseFloat`, `parseInt`, truthiness and `||` follow
  ECMAScript on these.
* A JavaScript string is a Lean `String`, one `Char` per code unit.
* `String.prototype.localeCompare` is taken to be the lexicographic order on
  characters (the specification says dates are "compared lexically"); it is
  the engine's order on zero-padded dates, not on names of mixed case.
* `String.prototype.toLowerCase` maps the letters `A` to `Z`; the case mapping
  of the other characters is not represented.
-/

set_option autoImplicit false

namespace StockMaintain

/-! ## Numbers -/

/-- A JavaScript number: `NaN` or an exact rational. -/
inductive JsNum where
  | nan : JsNum
  | fin (q : ℚ) : JsNum
  deriving DecidableEq, Repr

namespace JsNum

/-- The number `0`. -/
def zero : JsNum := fin 0

/-- JavaScript `a + b` on numbers. -/
def add : JsNum → JsNum → JsNum
  | fin a, fin b => fin (a + b)
  | _, _ => nan

/-- JavaScript `a - b` on numbers. -/
def sub : JsNum → JsNum → JsNum
  | fin a, fin b => fin (a - b)
  | _, _ => nan

/-- JavaScript `a * b` on numbers. -/
def mul : JsNum → JsNum → JsNum
  | fin a, fin b => fin (a * b)
  | _, _ => nan

/-- JavaScript `a / b` on numbers.  The sources divide only under a guard
`b > 0`; a zero divisor (an infinity or `NaN` in JavaScript) is mapped to
`NaN`, the model having no infinities. -/
def div : JsNum → JsNum → JsNum
  | fin a, fin b => if b = 0 then nan else fin (a / b)
  | _, _ => nan

/-- Unary minus. -/
def neg : JsNum → JsNum
  | fin a => fin (-a)
  | nan => nan

/-- JavaScript `a < b`: false as soon as an operand is `NaN`. -/
def lt : JsNum → JsNum → Bool
  | fin a, fin b => decide (a < b)
  | _, _ => false

/-- JavaScript `a > b`. -/
def gt (a b : JsNum) : Bool := lt b a

/-- JavaScript `a <= b`: false as soon as an operand is `NaN`. -/
def le : JsNum → JsNum → Bool
  | fin a, fin b => decide (a ≤ b)
  | _, _ => false

/-- JavaScript `a === b` on numbers: `NaN` is not equal to itself. -/
def strictEq : JsNum → JsNum → Bool
  | fin a, fin b => decide (a = b)
  | _, _ => false

/-- JavaScript `isNaN` on a number. -/
def isNaN : JsNum → Bool
  | nan => true
  | fin _ => false

/-- Truthiness of a number: `0` and `NaN` are falsy. -/
def truthy : JsNum → Bool
  | nan => false
  | fin q => decide (q ≠ 0)

end JsNum

/-! ## Double precision -/

/-- The number of binary digits of `n` less one, `⌊log₂ n⌋`, for `n ≥ 1`;
`fuel` bounds the number of halvings and `n` itself is enough. -/
def log2Floor : Nat → Nat → Nat
  | 0, _ => 0
  | fuel + 1, n => if n < 2 then 0 else log2Floor fuel (n / 2) + 1

/-- The binary exponent of a positive rational `a`: the integer `e` with
`2 ^ e ≤ a < 2 ^ (e + 1)`. -/
def binaryExponent (a : ℚ) : Int :=
  let e0 : Int := (log2Floor a.num.natAbs a.num.natAbs : Int) - (log2Floor a.den a.den : Int)
  if a < (2 : ℚ) ^ e0 then e0 - 1 else e0

/-- The double nearest to a rational: the rational is scaled to a significand
of 53 binary digits, which is rounded to the nearest integer, to the even one
on a tie.  Overflow to an infinity and the subnormal numbers are not
represented. -/
def roundToDouble (q : ℚ) : ℚ :=
  if q = 0 then 0
  else
    let ulp : ℚ := (2 : ℚ) ^ (binaryExponent |q| - 52)
    let scaled : ℚ := |q| / ulp
    let lower : Int := ⌊scaled⌋
    let rest : ℚ := scaled - lower
    let m : Int :=
      if rest < 1 / 2 then lower
      else if 1 / 2 < rest then lower + 1
      else if lower % 2 = 0 then lower else lower + 1
    if q < 0 then -((m : ℚ) * ulp) else (m : ℚ) * ulp

namespace JsNum

/-- The double a number is held as. -/
def toDouble : JsNum → JsNum
  | fin q => fin (roundToDouble q)
  | nan => nan

/-- JavaScript `a + b` on doubles: the sum of the two doubles, rounded. -/
def addDouble (a b : JsNum) : JsNum := (a.toDouble.add b.toDouble).toDouble

/-- JavaScript `a - b` on doubles: the difference of the two doubles, rounded. -/
def subDouble (a b : JsNum) : JsNum := (a.toDouble.sub b.toDouble).toDouble

end JsNum

/-! ## Values of a decoded log -/

/-- A value stored in a field of a log record or of a form. -/
inductive JsVal where
  | undefined : JsVal
  | null : JsVal
  | bool (b : Bool) : JsVal
  | num (x : JsNum) : JsVal
  | str (s : String) : JsVal
  deriving DecidableEq, Repr

namespace JsVal

/-- ECMAScript `ToBoolean`. -/
def truthy : JsVal → Bool
  | undefined => false
  | null => false
  | bool b => b
  | num x => x.truthy
  | str s => decide (s ≠ "")

/-- JavaScript `v || d`. -/
def orElse (v d : JsVal) : JsVal := if v.truthy then v else d

end JsVal

/-! ## `parseFloat` and `parseInt` -/

/-- ECMAScript `WhiteSpace` and `LineTerminator` code points, the characters
`parseFloat` and `parseInt` strip from the start of their argument. -/
def isJsWhitespace (c : Char) : Bool :=
  let n := c.toNat
  n = 9 || n = 10 || n = 11 || n = 12 || n = 13 || n = 32 || n = 160 ||
  n = 5760 || (8192 ≤ n && n ≤ 8202) || n = 8232 || n = 8233 || n = 8239 ||
  n = 8287 || n = 12288 || n = 65279

/-- Value of a decimal digit character. -/
def digitVal (c : Char) : Nat := c.toNat - 48

/-- Whether the character is one of `0`..`9`. -/
def isDecDigit (c : Char) : Bool := 48 ≤ c.toNat && c.toNat ≤ 57

/-- Value of a hexadecimal digit character, if it is one. -/
def hexVal (c : Char) : Option Nat :=
  let n := c.toNat
  if 48 ≤ n && n ≤ 57 then some (n - 48)
  else if 97 ≤ n && n ≤ 102 then some (n - 87)
  else if 65 ≤ n && n ≤ 70 then some (n - 55)
  else none

/-- Reads the longest run of decimal digits at the head of the input: the
value accumulated from `acc`, the number of digits read and the rest. -/
def readDigits : List Char → Nat → Nat → Nat × Nat × List Char
  | [], acc, k => (acc, k, [])
  | c :: cs, acc, k =>
    if isDecDigit c then readDigits cs (acc * 10 + digitVal c) (k + 1)
    else (acc, k, c :: cs)

/-- Value of a digit character in the given radix (2, 8 or 16), if it is one. -/
def radixDigitVal (radix : Nat) (c : Char) : Option Nat :=
  match hexVal c with
  | some d => if d < radix then some d else none
  | none => none

/-- Reads the longest run of digits of the given radix at the head of the
input: the value accumulated from `acc`, the number of digits read and the
rest. -/
def readRadixDigits (radix : Nat) : List Char → Nat → Nat → Nat × Nat × List Char
  | [], acc, k => (acc, k, [])
  | c :: cs, acc, k =>
    match radixDigitVal radix c with
    | some d => readRadixDigits radix cs (acc * radix + d) (k + 1)
    | none => (acc, k, c :: cs)

/-- Splits an optional leading sign off the input: `true` for a minus sign. -/
def readSign : List Char → Bool × List Char
  | '-' :: cs => (true, cs)
  | '+' :: cs => (false, cs)
  | cs => (false, cs)

/-- The `ExponentPart` of a decimal literal at the head of the input, if one is
there (`e` or `E`, an optional sign and at least one digit), and the rest. -/
def readExponent : List Char → Option (Int × List Char)
  | c :: cs =>
    if c = 'e' || c = 'E' then
      let (negative, rest) := readSign cs
      let (v, k, rest1) := readDigits rest 0 0
      if k = 0 then none else some (if negative then -(v : Int) else (v : Int), rest1)
    else none
  | [] => none

/-- Scales a rational by a power of ten. -/
def scale10 (m : ℚ) (e : Int) : ℚ :=
  if 0 ≤ e then m * (10 : ℚ) ^ e.toNat else m / (10 : ℚ) ^ (-e).toNat

/-- The value of the longest prefix of the input that is an unsigned
`StrDecimalLiteral` (digits, optional fraction, optional exponent), if there
is one, and the rest of the input.  The literal `Infinity` has no value in the
model. -/
def readUnsignedDecimal (cs : List Char) : Option (ℚ × List Char) :=
  let (ip, ik, rest) := readDigits cs 0 0
  match rest with
  | '.' :: rest1 =>
    let (fp, fk, rest2) := readDigits rest1 0 0
    if ik = 0 && fk = 0 then none
    else
      let m : ℚ := (ip : ℚ) + (fp : ℚ) / (10 : ℚ) ^ fk
      match readExponent rest2 with
      | some (e, rest3) => some (scale10 m e, rest3)
      | none => some (m, rest2)
  | _ =>
    if ik = 0 then none
    else
      match readExponent rest with
      | some (e, rest3) => some (scale10 (ip : ℚ) e, rest3)
      | none => some ((ip : ℚ), rest)

/-- JavaScript `parseFloat` on a string. -/
def parseFloatStr (s : String) : JsNum :=
  let (negative, rest) := readSign (s.data.dropWhile isJsWhitespace)
  match readUnsignedDecimal rest with
  | some (q, _) => JsNum.fin (if negative then -q else q)
  | none => JsNum.nan

/-- JavaScript `parseInt` on a string, no radix argument: decimal unless the
digits are introduced by `0x` or `0X`. -/
def parseIntStr (s : String) : JsNum :=
  let (negative, rest) := readSign (s.data.dropWhile isJsWhitespace)
  let (v, k) :=
    match rest with
    | '0' :: 'x' :: hs => let r := readRadixDigits 16 hs 0 0; (r.1, r.2.1)
    | '0' :: 'X' :: hs => let r := readRadixDigits 16 hs 0 0; (r.1, r.2.1)
    | _ => let r := readDigits rest 0 0; (r.1, r.2.1)
  if k = 0 then JsNum.nan
  else JsNum.fin (if negative then -(v : ℚ) else (v : ℚ))

/-- A `NonDecimalIntegerLiteral` without its prefix: digits of the radix, all
of the input. -/
def radixLiteral (radix : Nat) (hs : List Char) : JsNum :=
  match readRadixDigits radix hs 0 0 with
  | (v, k, []) => if k = 0 then JsNum.nan else JsNum.fin (v : ℚ)
  | _ => JsNum.nan

/-- ECMAScript `StringToNumber`, the conversion `Number(s)`: white space is
stripped at both ends, the empty string is 0, and the rest must be, as a
whole, a decimal literal or a binary, octal or hexadecimal integer literal.
The literal `Infinity` has no value in the model. -/
def toNumberStr (s : String) : JsNum :=
  let cs := ((s.data.dropWhile isJsWhitespace).reverse.dropWhile isJsWhitespace).reverse
  match cs with
  | [] => JsNum.fin 0
  | '0' :: 'x' :: hs => radixLiteral 16 hs
  | '0' :: 'X' :: hs => radixLiteral 16 hs
  | '0' :: 'o' :: hs => radixLiteral 8 hs
  | '0' :: 'O' :: hs => radixLiteral 8 hs
  | '0' :: 'b' :: hs => radixLiteral 2 hs
  | '0' :: 'B' :: hs => radixLiteral 2 hs
  | _ =>
    let (negative, rest) := readSign cs
    match readUnsignedDecimal rest with
    | some (q, []) => JsNum.fin (if negative then -q else q)
    | _ => JsNum.nan

/-- Truncation of a rational towards zero. -/
def truncQ (q : ℚ) : ℚ := if 0 ≤ q then (⌊q⌋ : ℚ) else (⌈q⌉ : ℚ)

/-- JavaScript `parseFloat(v)`: `v` is converted to a string and its longest
numeric prefix is read.  A number prints to a string that reads back as
itself; `undefined`, `null`, `true` and `false` print to words without a
numeric prefix. -/
def parseFloat : JsVal → JsNum
  | JsVal.num x => x
  | JsVal.str s => parseFloatStr s
  | _ => JsNum.nan

/-- JavaScript `parseInt(v)`.  A number prints in positional notation, whose
integer prefix is the number truncated towards zero (numbers of magnitude
at least `1e21` or below `1e-6`, which print in exponent notation, are
outside the model). -/
def parseInt : JsVal → JsNum
  | JsVal.num (JsNum.fin q) => JsNum.fin (truncQ q)
  | JsVal.num JsNum.nan => JsNum.nan
  | JsVal.str s => parseIntStr s
  | _ => JsNum.nan

/-- ECMAScript `ToNumber` on a value. -/
def JsVal.toNumber : JsVal → JsNum
  | JsVal.undefined => JsNum.nan
  | JsVal.null => JsNum.fin 0
  | JsVal.bool b => if b then JsNum.fin 1 else JsNum.fin 0
  | JsVal.num x => x
  | JsVal.str s => toNumberStr s

/-- The global function `isNaN(v)`. -/
def jsIsNaN (v : JsVal) : Bool := v.toNumber.isNaN

/-! ## Sorting -/

/-- Lexicographic comparison of two strings, character by character. -/
def lexCompare : List Char → List Char → Ordering
  | [], [] => Ordering.eq
  | [], _ :: _ => Ordering.lt
  | _ :: _, [] => Ordering.gt
  | a :: as, b :: bs =>
    if a.toNat < b.toNat then Ordering.lt
    else if b.toNat < a.toNat then Ordering.gt
    else lexCompare as bs

/-- The method `a.localeCompare(b)`: a negative number, zero or a positive
number as `a` sorts before, with or after `b`.  The collation is taken to be
the lexicographic one on code units.  The engine's collation (ICU) agrees with
it on texts made of digits and hyphens, such as dates written `YYYY-MM-DD`; on
letters it differs (`rice` sorts before `Rice` in the engine), so nothing is
stated here about the order of product names. -/
def localeCompare (a b : String) : JsNum :=
  match lexCompare a.data b.data with
  | Ordering.lt => JsNum.fin (-1)
  | Ordering.eq => JsNum.fin 0
  | Ordering.gt => JsNum.fin 1

/-- Whether `Array.prototype.sort(comparefn)` may leave `a` before `b`: the
comparator does not return a positive number (`NaN` counts as zero). -/
def sortBefore {α : Type} (comparefn : α → α → JsNum) (a b : α) : Prop :=
  (comparefn a b).gt JsNum.zero = false

instance sortBeforeDecidable {α : Type} (comparefn : α → α → JsNum) :
    DecidableRel (sortBefore comparefn) :=
  fun a b => inferInstanceAs (Decidable ((comparefn a b).gt JsNum.zero = false))

/-- The method `Array.prototype.sort(comparefn)`.  The sort is stable, so for
a consistent comparator its result is the one arrangement that is sorted and
keeps equal elements in their order; insertion computes it. -/
def jsSort {α : Type} (comparefn : α → α → JsNum) (l : List α) : List α :=
  List.insertionSort (sortBefore comparefn) l

/-! ## Text search -/

/-- The method `String.prototype.toLowerCase`: the letters `A` to `Z` are
mapped to `a` to `z`, every other character is kept. -/
def toLowerCase (s : String) : String :=
  String.mk
    (s.data.map (fun c => if 65 ≤ c.toNat ∧ c.toNat ≤ 90 then Char.ofNat (c.toNat + 32) else c))

/-- The method `s.includes(t)`: `t` occurs in `s` as a run of consecutive
characters. -/
def includes (s t : String) : Bool :=
  s.data.tails.any (fun u => t.data.isPrefixOf u)

/-! ## Log records -/

/-- A record of the stock log (`stock_entries`) or of the sales log
(`sales_entries`) as decoded from storage.  The name and the date are strings;
the numeric fields hold whatever value the stored JSON holds. -/
structure Entry where
  productName : String
  quantity : JsVal
  price : JsVal
  date : String
  totalPrice : JsVal
  customerName : JsVal
  deriving DecidableEq, Repr

/-! ## `src/utils/stockUtils.js` -/

/-- The `stockData.filter(item => item.productName === product)` of the
sources. -/
def forProduct (product : String) (log : List Entry) : List Entry :=
  log.filter (fun item => decide (item.productName = product))

/-- The `.reduce((acc, cur) => acc + parseInt(cur.quantity), 0)` of
`getAvailableQuantity`. -/
def sumParseIntQuantity (log : List Entry) : JsNum :=
  log.foldl (fun acc cur => acc.add (parseInt cur.quantity)) JsNum.zero

/-- The function `getAvailableQuantity` of `stockUtils.js`; the function of the
same name in `StockSalesPage.jsx` is the same code over the page state. -/
def getAvailableQuantity (product : String) (stockData salesData : List Entry) : JsNum :=
  let totalStock := sumParseIntQuantity (forProduct product stockData)
  let totalSold := sumParseIntQuantity (forProduct product salesData)
  totalStock.sub totalSold

/-- The function `getLatestPrice` of `stockUtils.js` (and of
`StockSalesPage.jsx`). -/
def getLatestPrice (product : String) (stockData : List Entry) : JsVal :=
  let entries := forProduct product stockData
  match entries.getLast? with
  | none => JsVal.str ""
  | some e => e.price

/-- The elements of `Array.from(new Set(xs))`: the first occurrence of every
value, in order of first occurrence. -/
def setInsertionOrder : List String → List String
  | [] => []
  | x :: xs => x :: (setInsertionOrder xs).filter (fun y => decide (y ≠ x))

/-- The function `getAvailableProducts` of `stockUtils.js`. -/
def getAvailableProducts (stockData salesData : List Entry) : List String :=
  (setInsertionOrder (stockData.map (fun i => i.productName))).filter
    (fun name => (getAvailableQuantity name stockData salesData).gt JsNum.zero)

/-! ## `src/pages/InventoryPage.jsx` -/

/-- A row of the inventory computed by `fetchInventoryData`. -/
structure InventoryRow where
  productName : String
  openingStock : JsNum
  soldQuantity : JsNum
  remainingStock : JsNum
  avgCostPrice : JsNum
  avgSellPrice : JsNum
  profitMargin : JsNum
  totalProfit : JsNum
  stockValue : JsNum
  deriving DecidableEq, Repr

/-- The coercion `parseFloat(v || 0)` applied to quantities and prices. -/
def parseFloatOrZero (v : JsVal) : JsNum :=
  parseFloat (v.orElse (JsVal.num JsNum.zero))

/-- The `.reduce((acc, cur) => acc + parseFloat(cur.quantity || 0), 0)` of
`openingStock` and `soldQuantity`. -/
def sumQuantity (log : List Entry) : JsNum :=
  log.foldl (fun acc cur => acc.add (parseFloatOrZero cur.quantity)) JsNum.zero

/-- The `.reduce` of `totalCost` and `totalSell`: the sum of
`parseFloat(cur.price || 0) * parseFloat(cur.quantity || 0)`. -/
def sumValue (log : List Entry) : JsNum :=
  log.foldl
    (fun acc cur => acc.add ((parseFloatOrZero cur.price).mul (parseFloatOrZero cur.quantity)))
    JsNum.zero

/-- The callback of `products.map(product => ...)` in `fetchInventoryData`. -/
def inventoryRow (stockEntries salesEntries : List Entry) (product : String) : InventoryRow :=
  let stockForProduct := forProduct product stockEntries
  let salesForProduct := forProduct product salesEntries
  let openingStock := sumQuantity stockForProduct
  let soldQuantity := sumQuantity salesForProduct
  let remainingStock := openingStock.sub soldQuantity
  let totalCost := sumValue stockForProduct
  let totalSell := sumValue salesForProduct
  let avgCostPrice := if openingStock.gt JsNum.zero then totalCost.div openingStock else JsNum.zero
  let avgSellPrice := if soldQuantity.gt JsNum.zero then totalSell.div soldQuantity else JsNum.zero
  let profitMargin := avgSellPrice.sub avgCostPrice
  let totalProfit := profitMargin.mul soldQuantity
  { productName := product
    openingStock := openingStock
    soldQuantity := soldQuantity
    remainingStock := remainingStock
    avgCostPrice := avgCostPrice
    avgSellPrice := avgSellPrice
    profitMargin := profitMargin
    totalProfit := totalProfit
    stockValue := remainingStock.mul avgCostPrice }

/-- The `products` array of `fetchInventoryData`: the distinct product names of
both logs, sorted with `localeCompare`. -/
def inventoryProducts (stockEntries salesEntries : List Entry) : List String :=
  jsSort localeCompare
    (setInsertionOrder
      (stockEntries.map (fun s => s.productName) ++ salesEntries.map (fun s => s.productName)))

/-- The `calculatedInventory` of `fetchInventoryData`, given the two decoded
logs. -/
def fetchInventoryData (stockEntries salesEntries : List Entry) : List InventoryRow :=
  (inventoryProducts stockEntries salesEntries).map (inventoryRow stockEntries salesEntries)

/-- The label of a stock status. -/
inductive StockLabel where
  | negative
  | outOfStock
  | lowStock
  | inStock
  deriving DecidableEq, Repr

/-- The text of a label, as `getStockStatus` writes it. -/
def StockLabel.text : StockLabel → String
  | StockLabel.negative => "Negative"
  | StockLabel.outOfStock => "Out of Stock"
  | StockLabel.lowStock => "Low Stock"
  | StockLabel.inStock => "In Stock"

/-- The `label` of `getStockStatus(quantity)` in `InventoryPage.jsx`. -/
def getStockStatus (quantity : JsNum) : StockLabel :=
  if quantity.lt JsNum.zero then StockLabel.negative
  else if quantity.strictEq JsNum.zero then StockLabel.outOfStock
  else if quantity.lt (JsNum.fin 5) then StockLabel.lowStock
  else StockLabel.inStock

/-- The memoized value `filteredInventory`: the rows whose name matches the
search term, sorted with `(a, b) => b.totalProfit - a.totalProfit`. -/
def filteredInventory (inventory : List InventoryRow) (searchTerm : String) :
    List InventoryRow :=
  jsSort (fun a b => b.totalProfit.sub a.totalProfit)
    (inventory.filter
      (fun item => includes (toLowerCase item.productName) (toLowerCase searchTerm)))

/-- The object `totals` of `InventoryPage`. -/
structure Totals where
  openingStock : JsNum
  soldQuantity : JsNum
  remainingStock : JsNum
  totalProfit : JsNum
  stockValue : JsNum
  deriving DecidableEq, Repr

/-- The memoized value `totals`, a `reduce` over `filteredInventory`. -/
def totals (filteredInventory : List InventoryRow) : Totals :=
  filteredInventory.foldl
    (fun acc item =>
      { openingStock := acc.openingStock.add item.openingStock
        soldQuantity := acc.soldQuantity.add item.soldQuantity
        remainingStock := acc.remainingStock.add item.remainingStock
        totalProfit := acc.totalProfit.add item.totalProfit
        stockValue := acc.stockValue.add item.stockValue })
    { openingStock := JsNum.zero
      soldQuantity := JsNum.zero
      remainingStock := JsNum.zero
      totalProfit := JsNum.zero
      stockValue := JsNum.zero }

/-! ## Plain objects used as dictionaries

`AnalyticsPage.jsx` accumulates into object literals (`const map = {}`) indexed
by a string.  Such an object has own properties, kept in creation order, and
inherits the properties of `Object.prototype`. -/

/-- The own properties of a dictionary object, in creation order. -/
abbrev JsDict (β : Type) := List (String × β)

/-- The names every object literal inherits from `Object.prototype`.  Reading
`map[k]` for one of them yields a built-in function (for `__proto__`, the
prototype object), a truthy value, although `map` has no own property `k`. -/
def objectPrototypeKeys : List String :=
  ["constructor", "__defineGetter__", "__defineSetter__", "hasOwnProperty",
   "__lookupGetter__", "__lookupSetter__", "isPrototypeOf", "propertyIsEnumerable",
   "toString", "valueOf", "__proto__", "toLocaleString"]

namespace JsDict

/-- The own property `k`, if the object has one. -/
def getOwn {β : Type} (d : JsDict β) (k : String) : Option β :=
  match d with
  | [] => none
  | (k1, v) :: rest => if k1 = k then some v else getOwn rest k

/-- The assignment `d[k] = v` to an own property: overwritten in place when it exists,
created at the end otherwise. -/
def setOwn {β : Type} (d : JsDict β) (k : String) (v : β) : JsDict β :=
  match d with
  | [] => [(k, v)]
  | (k1, v1) :: rest => if k1 = k then (k1, v) :: rest else (k1, v1) :: setOwn rest k v

end JsDict

/-- The array index a property name denotes, if it is one: the canonical
decimal form of an integer below `2^32 - 1`. -/
def arrayIndex? (k : String) : Option Nat :=
  match k.data with
  | [] => none
  | c :: cs =>
    if (c :: cs).all isDecDigit && (decide (c ≠ '0') || cs.isEmpty) then
      let n := (readDigits (c :: cs) 0 0).1
      if n < 4294967295 then some n else none
    else none

/-- The order in which `Object.entries` and `Object.values` visit the own
properties: the array-index names in ascending numeric order, then the other
names in creation order. -/
def JsDict.entries {β : Type} (d : JsDict β) : List (String × β) :=
  let indexed := d.filterMap (fun kv => (arrayIndex? kv.1).map (fun i => (i, kv)))
  let named := d.filter (fun kv => (arrayIndex? kv.1).isNone)
  (List.insertionSort (fun a b => a.1 ≤ b.1) indexed).map (fun ikv => ikv.2) ++ named

/-! ## `src/pages/AnalyticsPage.jsx` -/

/-- The function `safeParse` of `AnalyticsPage.jsx` (the `console.warn` is not
represented). -/
def safeParse (val : JsVal) : JsNum :=
  let num := parseFloat val
  if num.isNaN then JsNum.zero else num

/-- The constant `COLORS`. -/
def COLORS : List String := ["#0088FE", "#00C49F", "#FFBB28", "#FF8042", "#aa46be"]

/-- A value of a property of the `map` of `bestSelling` (and of the `stockMap`
of the dashboard): a number, or the text
that `+` produces when its left operand is an inherited built-in function
(the function's source text followed by the digits of the right operand), of
which only its not being numeric matters. -/
inductive TallyVal where
  | num (x : JsNum) : TallyVal
  | builtinText : TallyVal
  deriving DecidableEq, Repr

/-- ECMAScript `ToNumber` on a tally value, as the subtraction of the sort
comparator applies it. -/
def TallyVal.toNumber : TallyVal → JsNum
  | TallyVal.num x => x
  | TallyVal.builtinText => JsNum.nan

/-- The body of `sales.forEach` in `bestSelling`:
`map[s.productName] = (map[s.productName] || 0) + safeParse(s.quantity)`.
For a name inherited from `Object.prototype` the left operand is a function,
`+` concatenates, and the assignment creates an own property holding text;
the inherited setter of `__proto__` discards the text. -/
def bestSellingStep (map : JsDict TallyVal) (s : Entry) : JsDict TallyVal :=
  let k := s.productName
  let n := safeParse s.quantity
  match map.getOwn k with
  | some (TallyVal.num x) =>
    map.setOwn k (TallyVal.num ((if x.truthy then x else JsNum.zero).add n))
  | some TallyVal.builtinText => map.setOwn k TallyVal.builtinText
  | none =>
    if k ∈ objectPrototypeKeys then
      if k = "__proto__" then map else map.setOwn k TallyVal.builtinText
    else map.setOwn k (TallyVal.num (JsNum.zero.add n))

/-- An element of `bestSelling`. -/
structure BestSeller where
  name : String
  quantity : TallyVal
  fill : String
  deriving DecidableEq, Repr

/-- The memoized value `bestSelling`. -/
def bestSelling (sales : List Entry) : List BestSeller :=
  let map := sales.foldl bestSellingStep []
  let sorted := jsSort (fun a b => b.2.toNumber.sub a.2.toNumber) (JsDict.entries map)
  (sorted.take 5).mapIdx
    (fun i e => { name := e.1, quantity := e.2, fill := COLORS.getD (i % COLORS.length) "" })

/-- An element of `timeSeriesData` (`key` is its field `date`) or of
`monthlySummary` (`key` is its field `month`). -/
structure Bucket where
  key : String
  stock : JsNum
  sales : JsNum
  deriving DecidableEq, Repr

/-- The field `date` of an element of `timeSeriesData`. -/
def Bucket.date (b : Bucket) : String := b.key

/-- The field `month` of an element of `monthlySummary`. -/
def Bucket.month (b : Bucket) : String := b.key

/-- The array `[...stocks, ...sales]` with, for each element, the outcome of
`stocks.includes(entry)`.  The test compares references, and the two arrays
are decoded separately and share no object: it holds exactly for the elements
that come from `stocks`. -/
def taggedEntries (stocks sales : List Entry) : List (Bool × Entry) :=
  stocks.map (fun e => (true, e)) ++ sales.map (fun e => (false, e))

/-- The body of the two `forEach` loops that fill a dictionary of buckets,
for the bucket name `k` of the entry:
`if (!map[k]) map[k] = { k, stock: 0, sales: 0 }; map[k][type] += safeParse(entry.totalPrice)`.
When `k` is a name inherited from `Object.prototype`, `map[k]` is truthy, no
bucket is created and the addition lands on the inherited object. -/
def bucketStep (k : String) (map : JsDict Bucket) (te : Bool × Entry) : JsDict Bucket :=
  let x := safeParse te.2.totalPrice
  let bump (b : Bucket) : Bucket :=
    if te.1 then { b with stock := b.stock.add x } else { b with sales := b.sales.add x }
  match map.getOwn k with
  | some b => map.setOwn k (bump b)
  | none =>
    if k ∈ objectPrototypeKeys then map
    else map.setOwn k (bump { key := k, stock := JsNum.zero, sales := JsNum.zero })

/-- The memoized value `timeSeriesData`: buckets named by `entry.date`. -/
def timeSeriesData (stocks sales : List Entry) : List Bucket :=
  let map := (taggedEntries stocks sales).foldl (fun m te => bucketStep te.2.date m te) []
  jsSort (fun a b => localeCompare a.date b.date) ((JsDict.entries map).map (fun kv => kv.2))

/-- The expression `entry.date?.slice(0, 7)` on a string date. -/
def monthOf (date : String) : String := String.mk (date.data.take 7)

/-- The memoized value `monthlySummary`: buckets named by the first seven
characters of `entry.date`. -/
def monthlySummary (stocks sales : List Entry) : List Bucket :=
  let months :=
    (taggedEntries stocks sales).foldl (fun m te => bucketStep (monthOf te.2.date) m te) []
  jsSort (fun a b => localeCompare a.month b.month) ((JsDict.entries months).map (fun kv => kv.2))

/-- The `reduce` of the KPI block: the sum of `safeParse(s.totalPrice)`. -/
def sumTotalPrice (log : List Entry) : JsNum :=
  log.foldl (fun acc s => acc.add (safeParse s.totalPrice)) JsNum.zero

/-! ### The sums of `AnalyticsPage.jsx` in double precision

The same loops, every `+` and `-` rounded to a double as the engine does. -/

namespace IEEE

/-- The `reduce` of the KPI block, `acc + safeParse(s.totalPrice)` from `0`. -/
def sumTotalPrice (log : List Entry) : JsNum :=
  log.foldl (fun acc s => acc.addDouble (safeParse s.totalPrice)) JsNum.zero

/-- The KPI `totalSales`. -/
def totalSales (sales : List Entry) : JsNum := sumTotalPrice sales

/-- The KPI `totalStock`. -/
def totalStock (stocks : List Entry) : JsNum := sumTotalPrice stocks

/-- The KPI `profit`: `salesTotal - stockTotal`. -/
def profit (sales stocks : List Entry) : JsNum :=
  (totalSales sales).subDouble (totalStock stocks)

/-- The body of the two `forEach` loops that fill a dictionary of buckets:
`if (!map[k]) map[k] = { k, stock: 0, sales: 0 }; map[k][type] += safeParse(entry.totalPrice)`. -/
def bucketStep (k : String) (map : JsDict Bucket) (te : Bool × Entry) : JsDict Bucket :=
  let x := safeParse te.2.totalPrice
  let bump (b : Bucket) : Bucket :=
    if te.1 then { b with stock := b.stock.addDouble x }
    else { b with sales := b.sales.addDouble x }
  match map.getOwn k with
  | some b => map.setOwn k (bump b)
  | none =>
    if k ∈ objectPrototypeKeys then map
    else map.setOwn k (bump { key := k, stock := JsNum.zero, sales := JsNum.zero })

/-- The memoized value `timeSeriesData`. -/
def timeSeriesData (stocks sales : List Entry) : List Bucket :=
  let map := (taggedEntries stocks sales).foldl (fun m te => bucketStep te.2.date m te) []
  jsSort (fun a b => localeCompare a.date b.date) ((JsDict.entries map).map (fun kv => kv.2))

/-- The memoized value `monthlySummary`. -/
def monthlySummary (stocks sales : List Entry) : List Bucket :=
  let months :=
    (taggedEntries stocks sales).foldl (fun m te => bucketStep (monthOf te.2.date) m te) []
  jsSort (fun a b => localeCompare a.month b.month) ((JsDict.entries months).map (fun kv => kv.2))

end IEEE

/-! ## `src/pages/StockSalesPage.jsx` -/

/-- The text held by the `error` state of the sales page. -/
inductive SaleError where
  /-- The empty string `''`. -/
  | empty : SaleError
  /-- The text `Only N units available in stock.`, with the number `N`. -/
  | onlyUnitsAvailable (availableQty : JsNum) : SaleError
  /-- The text `Price must be greater than 0`. -/
  | priceMustBeGreater : SaleError
  deriving DecidableEq, Repr

/-- The fixed texts of the error state; the stock message is built around the
decimal form of its number. -/
def SaleError.text : SaleError → String × Option JsNum × String
  | SaleError.empty => ("", Option.none, "")
  | SaleError.onlyUnitsAvailable n => ("Only ", some n, " units available in stock.")
  | SaleError.priceMustBeGreater => ("Price must be greater than 0", Option.none, "")

/-- The `form` state of the sales page. -/
structure SaleForm where
  productName : String
  quantity : JsVal
  price : JsVal
  customerName : JsVal
  date : String
  deriving DecidableEq, Repr

/-- The state of `StockSalesPage` that `handleSubmit` reads and writes. -/
structure SalesPage where
  salesData : List Entry
  stockData : List Entry
  error : SaleError
  availableQty : Option JsNum
  form : SaleForm
  editIndex : Option Nat
  deriving DecidableEq, Repr

/-- The character of a decimal digit. -/
def digitChar (d : Nat) : Char := Char.ofNat (48 + d)

/-- The decimal digits of `n`, least significant first; `fuel` bounds their
number. -/
def lowDigits : Nat → Nat → List Nat
  | 0, _ => []
  | fuel + 1, n => (n % 10) :: (if n / 10 = 0 then [] else lowDigits fuel (n / 10))

/-- The decimal form of a natural number: its digits, most significant first,
`0` for zero. -/
def decimalDigits (n : Nat) : List Char := ((lowDigits (n + 1) n).reverse).map digitChar

/-- The method `Number.prototype.toFixed(2)`: the nearest multiple of `0.01`
(the larger one on a tie, on the magnitude), printed as its integer part, a
point and two digits.  The rounding is that of the exact value: a decimal with
three digits that ends in `5` is a tie here, while the double nearest to it
lies on one side of the tie.  On a multiple of `0.01` the two agree. -/
def toFixed2 : JsNum → String
  | JsNum.nan => "NaN"
  | JsNum.fin q =>
    let n : Nat := (⌊|q| * 100 + 1 / 2⌋).toNat
    let body := decimalDigits (n / 100) ++ ['.', digitChar (n % 100 / 10), digitChar (n % 10)]
    String.mk (if q < 0 then '-' :: body else body)

/-- What the quantity field of the sale form lets the form submit.  The field
is a required number input with `min: 1` (and so a step of 1 counted from 1),
and `handleChange` keeps only the digits and the points of what is typed: the
text is a whole number of at least 1, written in digits, possibly followed by a
point and zeros. -/
def quantityFieldAccepts : JsVal → Bool
  | JsVal.str s =>
    match readDigits s.data 0 0 with
    | (n, k, []) => decide (0 < k) && decide (1 ≤ n)
    | (n, k, '.' :: fraction) =>
      match readDigits fraction 0 0 with
      | (m, j, []) => decide (0 < k) && decide (1 ≤ n) && decide (0 < j) && decide (m = 0)
      | _ => false
    | _ => false
  | _ => false

/-- What the price field of the sale form lets the form submit.  The field is
a required number input with `step: "0.01"` and `min: "0.01"`: its text reads
as a whole number of hundredths, at least one. -/
def priceFieldAccepts (v : JsVal) : Bool :=
  match parseFloat v with
  | JsNum.fin q => decide ((q * 100).den = 1) && decide (1 ≤ q * 100)
  | JsNum.nan => false

/-- The limit `handleSubmit` compares the requested quantity with:
`getAvailableQuantity(form.productName) +
 (editIndex !== null ? parseInt(salesData[editIndex].quantity) : 0)`.
There is none when `editIndex` points outside `salesData`: reading `.quantity`
of `undefined` throws. -/
def submitLimit (st : SalesPage) : Option JsNum :=
  let available := getAvailableQuantity st.form.productName st.stockData st.salesData
  match st.editIndex with
  | none => some (available.add JsNum.zero)
  | some i =>
    match st.salesData.get? i with
    | none => none
    | some old => some (available.add (parseInt old.quantity))

/-- The record `newSale` that `handleSubmit` builds from the form. -/
def newSale (form : SaleForm) : Entry :=
  { productName := form.productName
    quantity := JsVal.num (parseInt form.quantity)
    price := JsVal.str (toFixed2 (parseFloat form.price))
    date := form.date
    totalPrice := JsVal.num ((parseFloat form.quantity).mul (parseFloat form.price))
    customerName := form.customerName }

/-- The function `resetForm`; `today` stands for
`new Date().toISOString().split('T')[0]`. -/
def resetForm (today : String) (st : SalesPage) : SalesPage :=
  { st with
    form :=
      { productName := "", quantity := JsVal.str "", price := JsVal.str "",
        customerName := JsVal.str "", date := today }
    editIndex := none
    availableQty := none
    error := SaleError.empty }

/-- The handler `handleSubmit` of `StockSalesPage`: the page state after the
submission, or `none` when the handler throws. -/
def handleSubmit (today : String) (st : SalesPage) : Option SalesPage :=
  match submitLimit st with
  | none => none
  | some availableQty =>
    if (parseInt st.form.quantity).gt availableQty then
      some { st with error := SaleError.onlyUnitsAvailable availableQty }
    else if !st.form.price.truthy || (parseFloat st.form.price).le JsNum.zero then
      some { st with error := SaleError.priceMustBeGreater }
    else
      let updatedSales :=
        match st.editIndex with
        | some i => st.salesData.set i (newSale st.form)
        | none => st.salesData ++ [newSale st.form]
      some (resetForm today { st with salesData := updatedSales })

/-- The comparison `Array.prototype.sort()` makes without a comparator, on
strings: the order of their code units. -/
def defaultCompare (a b : String) : JsNum :=
  match lexCompare a.data b.data with
  | Ordering.lt => JsNum.fin (-1)
  | Ordering.eq => JsNum.fin 0
  | Ordering.gt => JsNum.fin 1

/-- The memoized value `availableProducts` of `StockSalesPage`: the same
expression as `getAvailableProducts`, followed by `.sort()`. -/
def availableProducts (st : SalesPage) : List String :=
  jsSort defaultCompare (getAvailableProducts st.stockData st.salesData)

/-- The digits of the fraction `r` (with `0 ≤ r < 1`), by long division, until
the remainder is zero or `fuel` digits are written. -/
def fractionDigits : Nat → ℚ → List Char
  | 0, _ => []
  | fuel + 1, r =>
    if r = 0 then []
    else digitChar (⌊r * 10⌋.toNat) :: fractionDigits fuel (r * 10 - (⌊r * 10⌋ : ℚ))

/-- The method `Number.prototype.toString()`, in positional notation: the
integer part and, for a number that is not an integer, a point and the digits
of the fraction.  At most twenty digits of the fraction are written, a rational
with an endless expansion being no JavaScript number; numbers of magnitude at
least `1e21` or below `1e-6`, which print in exponent notation, are outside the
model. -/
def numberToString : JsNum → String
  | JsNum.nan => "NaN"
  | JsNum.fin q =>
    let whole : Nat := ⌊|q|⌋.toNat
    let fraction := fractionDigits 20 (|q| - (whole : ℚ))
    let body := decimalDigits whole ++ (if fraction.isEmpty then [] else '.' :: fraction)
    String.mk (if q < 0 then '-' :: body else body)

/-- The call `v.toString()`: `none` when `v` is `undefined` or `null`, on which
the call throws. -/
def JsVal.toStringMethod : JsVal → Option String
  | JsVal.undefined => none
  | JsVal.null => none
  | JsVal.bool b => some (if b then "true" else "false")
  | JsVal.num x => some (numberToString x)
  | JsVal.str s => some s

/-- The table state of `StockSalesPage`: the search text, the page, the rows
per page (`-1` for the option `All`), and the state of the delete dialog. -/
structure SalesTable where
  filter : String
  page : Nat
  rowsPerPage : Int
  confirmOpen : Bool
  deleteIndex : Option Int
  deriving DecidableEq, Repr

namespace StockSalesPage

/-- The callback of `salesData.filter` in `filteredSales`:
`sale.productName.toLowerCase().includes(filter.toLowerCase()) ||
 (sale.customerName && sale.customerName.toLowerCase().includes(filter.toLowerCase()))`.
It throws (`none`) on a truthy `customerName` that is not a string. -/
def matchesSale (filter : String) (sale : Entry) : Option Bool :=
  if includes (toLowerCase sale.productName) (toLowerCase filter) then some true
  else
    match sale.customerName with
    | JsVal.str s => some (decide (s ≠ "") && includes (toLowerCase s) (toLowerCase filter))
    | v => if v.truthy then none else some false

/-- The constant `filteredSales`; `none` when the callback throws. -/
def filteredSales (salesData : List Entry) (filter : String) : Option (List Entry) :=
  match salesData with
  | [] => some []
  | sale :: rest =>
    match matchesSale filter sale with
    | none => none
    | some keep =>
      match filteredSales rest filter with
      | none => none
      | some kept => some (if keep then sale :: kept else kept)

/-- The rows of the table body:
`rowsPerPage > 0 ? filteredSales.slice(page * rowsPerPage, page * rowsPerPage + rowsPerPage)
 : filteredSales`. -/
def displayedSales (filteredSales : List Entry) (table : SalesTable) : List Entry :=
  if table.rowsPerPage > 0 then
    (filteredSales.drop (table.page * table.rowsPerPage.toNat)).take table.rowsPerPage.toNat
  else filteredSales

/-- The index the buttons of the row at position `index` pass to `handleEdit`
and `handleDelete`: `page * rowsPerPage + index`. -/
def rowIndex (table : SalesTable) (index : Nat) : Int :=
  (table.page : Int) * table.rowsPerPage + (index : Int)

/-- The element `salesData[index]`, `undefined` (`none`) outside the array. -/
def salesAt (salesData : List Entry) (index : Int) : Option Entry :=
  if index < 0 then none else salesData.get? index.toNat

/-- The handler `handleEdit`; `none` when it throws, `salesData[index]` being
`undefined` or its quantity having no method `toString`.  The form also
receives the `totalPrice` of the record, which `handleSubmit` overwrites. -/
def handleEdit (index : Int) (st : SalesPage) : Option SalesPage :=
  match salesAt st.salesData index with
  | none => none
  | some item =>
    match item.quantity.toStringMethod with
    | none => none
    | some quantity =>
      some { st with
        form :=
          { productName := item.productName
            quantity := JsVal.str quantity
            price := JsVal.str (numberToString (parseFloat item.price))
            customerName := item.customerName
            date := item.date }
        editIndex := some index.toNat
        availableQty :=
          some ((getAvailableQuantity item.productName st.stockData st.salesData).add
            (parseInt item.quantity)) }

/-- The handler `handleDelete` of the sales table. -/
def handleDelete (index : Int) (table : SalesTable) : SalesTable :=
  { table with deleteIndex := some index, confirmOpen := true }

/-- The array after `updated.splice(deleteIndex, 1)`: a negative index counts
from the end, `null` counts as `0`, and nothing is removed beyond the end. -/
def spliceOne (salesData : List Entry) (deleteIndex : Option Int) : List Entry :=
  match deleteIndex with
  | none => salesData.eraseIdx 0
  | some i =>
    if 0 ≤ i then salesData.eraseIdx i.toNat
    else salesData.eraseIdx ((salesData.length : Int) + i).toNat

/-- The handler `confirmDelete`: the sales log and the table state after it. -/
def confirmDelete (st : SalesPage) (table : SalesTable) : SalesPage × SalesTable :=
  ({ st with salesData := spliceOne st.salesData table.deleteIndex },
   { table with confirmOpen := false, deleteIndex := none })

end StockSalesPage

/-! ## `src/pages/StockEntryPage.jsx` -/

/-- The `formData` state of `ProductForm`: the product chosen, the values of
the quantity and price inputs (numbers when copied from the record under
edit) and the date. -/
structure ProductFormData where
  productName : String
  quantity : JsVal
  price : JsVal
  date : String
  deriving DecidableEq, Repr

namespace ProductForm

/-- The function `validateForm` of `ProductForm`: the error it shows, or `none`
when it returns `true`. -/
def validateForm (formData : ProductFormData) : Option String :=
  if formData.productName = "" then some "Please select a product"
  else if !formData.quantity.truthy || jsIsNaN formData.quantity then
    some "Quantity must be a valid number"
  else if (parseFloat formData.quantity).le JsNum.zero then some "Quantity must be positive"
  else if !formData.price.truthy || jsIsNaN formData.price then
    some "Price must be a valid number"
  else if (parseFloat formData.price).le JsNum.zero then some "Price must be positive"
  else none

/-- The record `ProductForm.handleSubmit` passes to `onSubmit`, or `none` when
validation fails and nothing is submitted; `today` is the date of the day. -/
def handleSubmit (today : String) (formData : ProductFormData) : Option Entry :=
  match validateForm formData with
  | some _ => none
  | none =>
    some
      { productName := formData.productName
        quantity := JsVal.num (parseFloat formData.quantity)
        price := JsVal.num (parseFloat formData.price)
        date := if formData.date = "" then today else formData.date
        totalPrice :=
          JsVal.num ((parseFloat formData.quantity).mul (parseFloat formData.price))
        customerName := JsVal.undefined }

end ProductForm

/-- The state of `StockEntryPage` that its handlers read and write. -/
structure StockPage where
  stockEntries : List Entry
  editIndex : Option Nat
  confirmDeleteIndex : Option Nat
  confirmLargeEntry : Option (Entry × Bool)
  undoStack : List Entry
  error : Option String
  deriving DecidableEq, Repr

/-- The method `Array.prototype.some` with a callback that reads the element
and its index, the first index being `start`. -/
def someWithIndex (p : Entry → Nat → Bool) : List Entry → Nat → Bool
  | [], _ => false
  | e :: es, i => p e i || someWithIndex p es (i + 1)

/-- The constant `isDuplicate` of `handleProductSubmit`. -/
def isDuplicate (st : StockPage) (data : Entry) : Bool :=
  someWithIndex
    (fun entry i =>
      decide (entry.productName = data.productName) && decide (entry.date = data.date) &&
        (decide (st.editIndex = none) || decide (st.editIndex ≠ some i)))
    st.stockEntries 0

/-- The function `processSubmission`.  An `editIndex` beyond the end of the
array would leave holes in it, which the model does not represent: `none`. -/
def processSubmission (newEntry : Entry) (editIndex : Option Nat) (st : StockPage) :
    Option StockPage :=
  match editIndex with
  | some i =>
    if i < st.stockEntries.length then
      some { st with stockEntries := st.stockEntries.set i newEntry, editIndex := none }
    else if i = st.stockEntries.length then
      some { st with stockEntries := st.stockEntries ++ [newEntry], editIndex := none }
    else none
  | none => some { st with stockEntries := st.stockEntries ++ [newEntry] }

/-- The handler `handleProductSubmit`, called with the record `ProductForm`
submits. -/
def handleProductSubmit (data : Entry) (st : StockPage) : Option StockPage :=
  let st1 := { st with error := none }
  if isDuplicate st data then
    some { st1 with error := some "A stock entry for this product and date already exists." }
  else if data.quantity.toNumber.gt (JsNum.fin 1000) || data.price.toNumber.gt (JsNum.fin 1000) then
    some { st1 with confirmLargeEntry := some (data, st.editIndex.isSome) }
  else processSubmission data st.editIndex st1

/-- The `Confirm` button of the large-entry dialog. -/
def confirmLargeEntrySubmit (st : StockPage) : Option StockPage :=
  match st.confirmLargeEntry with
  | none => none
  | some (data, isEdit) =>
    (processSubmission data (if isEdit then st.editIndex else none) st).map
      (fun st1 => { st1 with confirmLargeEntry := none })

/-- The handler `handleDelete`, for the index the delete dialog was opened
with.  Without an index, or with one outside the array, `undefined` would be
pushed on the undo stack, which the model does not represent: `none`. -/
def handleDelete (st : StockPage) : Option StockPage :=
  match st.confirmDeleteIndex with
  | none => none
  | some i =>
    match st.stockEntries.get? i with
    | none => none
    | some deletedItem =>
      some { st with
        undoStack := st.undoStack ++ [deletedItem]
        stockEntries := st.stockEntries.eraseIdx i
        confirmDeleteIndex := none }

/-- The handler `handleUndo`. -/
def handleUndo (st : StockPage) : StockPage :=
  match st.undoStack.getLast? with
  | none => st
  | some lastDeleted =>
    { st with
      stockEntries := st.stockEntries ++ [lastDeleted]
      undoStack := st.undoStack.dropLast }

/-- The row buttons: `onDelete={setConfirmDeleteIndex}`. -/
def setConfirmDeleteIndex (i : Nat) (st : StockPage) : StockPage :=
  { st with confirmDeleteIndex := some i }

/-- The row buttons: `onEdit={setEditIndex}`. -/
def setEditIndex (i : Option Nat) (st : StockPage) : StockPage :=
  { st with editIndex := i }

/-- No two records of the log share `productName` and `date`. -/
def uniqueProductDate (log : List Entry) : Prop :=
  (log.map (fun e => (e.productName, e.date))).Nodup

instance uniqueProductDateDecidable (log : List Entry) : Decidable (uniqueProductDate log) := by
  unfold uniqueProductDate
  infer_instance

/-- The `filters` state of `StockEntryPage`. -/
structure StockFilters where
  productName : String
  dateFrom : String
  dateTo : String
  deriving DecidableEq, Repr

/-- The columns of the stock table, the values `sortConfig.key` takes. -/
inductive SortKey where
  | productName
  | quantity
  | price
  | totalPrice
  | date
  deriving DecidableEq, Repr

/-- The values of `sortConfig.direction`. -/
inductive SortDirection where
  | asc
  | desc
  deriving DecidableEq, Repr

/-- The `sortConfig` state.  Its key is always the name of a column, so the
guard `if (sortConfig.key)` of `processedEntries` holds. -/
structure SortConfig where
  key : SortKey
  direction : SortDirection
  deriving DecidableEq, Repr

/-- The `pagination` state. -/
structure Pagination where
  page : Nat
  rowsPerPage : Nat
  deriving DecidableEq, Repr

/-- A zero-padded ISO calendar date: `YYYY-MM-DD`, digits and two hyphens. -/
def isIsoDate (s : String) : Bool :=
  match s.data with
  | [y1, y2, y3, y4, h1, m1, m2, h2, d1, d2] =>
    isDecDigit y1 && isDecDigit y2 && isDecDigit y3 && isDecDigit y4 && h1 = '-' &&
      isDecDigit m1 && isDecDigit m2 && h2 = '-' && isDecDigit d1 && isDecDigit d2
  | _ => false

/-- The number of days of a month of the proleptic Gregorian calendar. -/
def daysInMonth (year month : Nat) : Nat :=
  if month = 2 then
    if year % 4 = 0 ∧ (year % 100 ≠ 0 ∨ year % 400 = 0) then 29 else 28
  else if month = 4 ∨ month = 6 ∨ month = 9 ∨ month = 11 then 30
  else 31

/-- The number of days from 1970-01-01 to a calendar date. -/
def daysFromCivil (year month day : Nat) : Int :=
  let y : Int := if month ≤ 2 then (year : Int) - 1 else (year : Int)
  let era : Int := y / 400
  let yoe : Int := y - era * 400
  let mp : Int := ((month : Int) + 9) % 12
  let doy : Int := (153 * mp + 2) / 5 + (day : Int) - 1
  let doe : Int := yoe * 365 + yoe / 4 - yoe / 100 + doy
  era * 146097 + doe - 719468

/-- The time value of `new Date(s)`, in milliseconds: for a calendar date
written `YYYY-MM-DD`, midnight UTC of that day.  ECMAScript leaves the reading
of any other text to the engine; such a text, the empty one included, is taken
to be an invalid date, whose time value is `NaN`, and so is a day past the end
of its month, which some engines read as a day of the next month. -/
def dateValue (s : String) : JsNum :=
  match s.data with
  | [y1, y2, y3, y4, _, m1, m2, _, d1, d2] =>
    if isIsoDate s then
      let year := digitVal y1 * 1000 + digitVal y2 * 100 + digitVal y3 * 10 + digitVal y4
      let month := digitVal m1 * 10 + digitVal m2
      let day := digitVal d1 * 10 + digitVal d2
      if 1 ≤ month ∧ month ≤ 12 ∧ 1 ≤ day ∧ day ≤ daysInMonth year month then
        JsNum.fin ((daysFromCivil year month day * 86400000 : Int) : ℚ)
      else JsNum.nan
    else JsNum.nan
  | _ => JsNum.nan

/-- The callback of `stockEntries.filter` in `processedEntries`: the name
matches the product filter and the date lies in the range of the date filters
that are set. -/
def matchesFilters (filters : StockFilters) (entry : Entry) : Bool :=
  let matchesProduct :=
    includes (toLowerCase entry.productName) (toLowerCase filters.productName)
  let date := dateValue entry.date
  let matchesDate :=
    (decide (filters.dateFrom = "") || (dateValue filters.dateFrom).le date) &&
      (decide (filters.dateTo = "") || date.le (dateValue filters.dateTo))
  matchesProduct && matchesDate

/-- The property `entry[key]` for the name of a column. -/
def Entry.field (e : Entry) : SortKey → JsVal
  | SortKey.productName => JsVal.str e.productName
  | SortKey.quantity => e.quantity
  | SortKey.price => e.price
  | SortKey.totalPrice => e.totalPrice
  | SortKey.date => JsVal.str e.date

/-- JavaScript `a < b` on values: two strings are compared by their code
units, any other pair as numbers. -/
def JsVal.lt : JsVal → JsVal → Bool
  | JsVal.str s, JsVal.str t => decide (lexCompare s.data t.data = Ordering.lt)
  | a, b => a.toNumber.lt b.toNumber

/-- The comparator of `filtered.sort` in `processedEntries`. -/
def compareByKey (sortConfig : SortConfig) (a b : Entry) : JsNum :=
  if (a.field sortConfig.key).lt (b.field sortConfig.key) then
    if sortConfig.direction = SortDirection.asc then JsNum.fin (-1) else JsNum.fin 1
  else if (b.field sortConfig.key).lt (a.field sortConfig.key) then
    if sortConfig.direction = SortDirection.asc then JsNum.fin 1 else JsNum.fin (-1)
  else JsNum.fin 0

/-- The memoized value `processedEntries`: the log filtered, then sorted. -/
def processedEntries (stockEntries : List Entry) (filters : StockFilters)
    (sortConfig : SortConfig) : List Entry :=
  jsSort (compareByKey sortConfig) (stockEntries.filter (matchesFilters filters))

/-- The memoized value `paginatedEntries`:
`processedEntries.slice(page * rowsPerPage, (page + 1) * rowsPerPage)`. -/
def paginatedEntries (processedEntries : List Entry) (pagination : Pagination) : List Entry :=
  (processedEntries.drop (pagination.page * pagination.rowsPerPage)).take
    ((pagination.page + 1) * pagination.rowsPerPage - pagination.page * pagination.rowsPerPage)

/-- The prop `editData` of `ProductForm`:
`editIndex !== null ? stockEntries[editIndex] : null`. -/
def editData (st : StockPage) : Option Entry :=
  match st.editIndex with
  | none => none
  | some i => st.stockEntries.get? i

/-- The initial `filters`, `sortConfig` and `pagination`: no filter, the
latest date first, ten rows a page. -/
def initialFilters : StockFilters := { productName := "", dateFrom := "", dateTo := "" }

/-- The initial `sortConfig`. -/
def initialSortConfig : SortConfig := { key := SortKey.date, direction := SortDirection.desc }

/-- The initial `pagination`. -/
def initialPagination : Pagination := { page := 0, rowsPerPage := 10 }

/-! ## `src/pages/Dashboard.jsx`

The function `safeParse` of `Dashboard.jsx`, called with one argument, is the
`safeParse` of `AnalyticsPage.jsx`. -/

/-- The expression `entry.productName || 'Unknown'`. -/
def productNameOrUnknown (entry : Entry) : String :=
  if entry.productName = "" then "Unknown" else entry.productName

/-- The body of `stockEntries.forEach` in `fetchData`:
`if (!stockMap[productName]) stockMap[productName] = 0;
 stockMap[productName] += safeParse(entry.quantity)`.
For a name inherited from `Object.prototype` the value read is a function,
which is truthy: the property is not set to `0`, `+=` concatenates and creates
an own property holding text (the inherited setter of `__proto__` discards it). -/
def stockMapAdd (stockMap : JsDict TallyVal) (entry : Entry) : JsDict TallyVal :=
  let productName := productNameOrUnknown entry
  let n := safeParse entry.quantity
  match stockMap.getOwn productName with
  | some (TallyVal.num x) =>
    stockMap.setOwn productName (TallyVal.num ((if x.truthy then x else JsNum.zero).add n))
  | some TallyVal.builtinText => stockMap.setOwn productName TallyVal.builtinText
  | none =>
    if productName ∈ objectPrototypeKeys then
      if productName = "__proto__" then stockMap
      else stockMap.setOwn productName TallyVal.builtinText
    else stockMap.setOwn productName (TallyVal.num (JsNum.zero.add n))

/-- The body of `salesEntries.forEach` in `fetchData`:
`if (stockMap[productName]) stockMap[productName] -= safeParse(entry.quantity)`.
The test is one of truthiness: a balance of `0` skips the subtraction.  Text,
and an inherited function, are truthy and subtract to `NaN`. -/
def stockMapSubtract (stockMap : JsDict TallyVal) (entry : Entry) : JsDict TallyVal :=
  let productName := productNameOrUnknown entry
  let n := safeParse entry.quantity
  match stockMap.getOwn productName with
  | some (TallyVal.num x) =>
    if x.truthy then stockMap.setOwn productName (TallyVal.num (x.sub n)) else stockMap
  | some TallyVal.builtinText => stockMap.setOwn productName (TallyVal.num JsNum.nan)
  | none =>
    if productName ∈ objectPrototypeKeys then
      if productName = "__proto__" then stockMap
      else stockMap.setOwn productName (TallyVal.num JsNum.nan)
    else stockMap

/-- The object `stockMap` of `fetchData` after its two loops. -/
def stockMap (stockEntries salesEntries : List Entry) : JsDict TallyVal :=
  salesEntries.foldl stockMapSubtract (stockEntries.foldl stockMapAdd [])

/-- JavaScript `a + b` on tally values: the sum of two numbers, text as soon
as an operand is text. -/
def TallyVal.add : TallyVal → TallyVal → TallyVal
  | TallyVal.num a, TallyVal.num b => TallyVal.num (a.add b)
  | _, _ => TallyVal.builtinText

/-- The metric `stockLeftQuantity` (`totalStockLeft`):
`Object.values(stockMap).reduce((acc, qty) => acc + qty, 0)`. -/
def stockLeftQuantity (stockEntries salesEntries : List Entry) : TallyVal :=
  ((JsDict.entries (stockMap stockEntries salesEntries)).map (fun kv => kv.2)).foldl
    (fun acc qty => acc.add qty) (TallyVal.num JsNum.zero)

/-! ## Sums of numbers -/

/-- The sum of a list of numbers, added up from `0` in the order of the list. -/
def jsSum (xs : List JsNum) : JsNum := xs.foldl (fun acc x => acc.add x) JsNum.zero

/-- The same sum with every addition rounded to a double. -/
def jsSumDouble (xs : List JsNum) : JsNum :=
  xs.foldl (fun acc x => acc.addDouble x) JsNum.zero

/-- The rational a number stands for, `0` for `NaN`. -/
def JsNum.toRat : JsNum → ℚ
  | JsNum.fin q => q
  | JsNum.nan => 0

/-! ## Sample logs -/

/-- A stock record with numeric fields, its `totalPrice` being
`quantity * price` as the stock form writes it. -/
def stockRecord (productName : String) (quantity price : ℚ) (date : String) : Entry :=
  { productName := productName
    quantity := JsVal.num (JsNum.fin quantity)
    price := JsVal.num (JsNum.fin price)
    date := date
    totalPrice := JsVal.num (JsNum.fin (quantity * price))
    customerName := JsVal.undefined }

/-- A sale record as `handleSubmit` of the sales page writes it: a numeric
quantity and total, the price printed with two decimals. -/
def saleRecord (productName : String) (quantity : ℚ) (price : String) (total : ℚ)
    (date : String) : Entry :=
  { productName := productName
    quantity := JsVal.num (JsNum.fin quantity)
    price := JsVal.str price
    date := date
    totalPrice := JsVal.num (JsNum.fin total)
    customerName := JsVal.str "" }

/-- Ten units of product A bought at 5. -/
def stockTenAtFive : List Entry := [stockRecord "A" 10 5 "2024-01-05"]

/-- Two and a half units of product A, a quantity the stock form accepts
(its quantity field has `step: 'any'` and is stored with `parseFloat`). -/
def stockFractional : List Entry := [stockRecord "A" (5 / 2) 10 "2024-01-05"]

/-- A stock record whose quantity is text without a numeric prefix. -/
def stockUnreadable : List Entry :=
  [{ productName := "A", quantity := JsVal.str "abc", price := JsVal.num (JsNum.fin 5),
     date := "2024-01-05", totalPrice := JsVal.str "abc", customerName := JsVal.undefined }]

/-- Four units of product A sold at 8. -/
def salesFourAtEight : List Entry := [saleRecord "A" 4 "8.00" 32 "2024-01-06"]

/-- A stock log in which product A was entered twice, the later record (price
7) bearing the earlier date, with a record of product B in between. -/
def stockBackfilled : List Entry :=
  [stockRecord "A" 1 9 "2024-03-01", stockRecord "B" 1 1 "2024-03-02",
   stockRecord "A" 1 7 "2024-01-01"]

/-- The sales page while the sale of four units of A is edited, against a
stock of fourteen units: ten are available, the form asks for 13 at price 0. -/
def pageEditingPriceZero : SalesPage :=
  { salesData := [saleRecord "A" 4 "8.00" 32 "2024-01-06"]
    stockData := [stockRecord "A" 14 5 "2024-01-05"]
    error := SaleError.empty
    availableQty := some (JsNum.fin 14)
    form :=
      { productName := "A", quantity := JsVal.str "13", price := JsVal.str "0",
        customerName := JsVal.str "", date := "2024-01-06" }
    editIndex := some 0 }

/-- The same page with a form that asks for 15 units at price 0. -/
def pageEditingTooManyPriceZero : SalesPage :=
  { pageEditingPriceZero with
    form := { pageEditingPriceZero.form with quantity := JsVal.str "15" } }

/-- The two stock records of the specification's example: dated 2024-01-05,
with `totalPrice` 100 and 50. -/
def stockSameDay : List Entry :=
  [stockRecord "A" 10 10 "2024-01-05", stockRecord "B" 10 5 "2024-01-05"]

/-- A stock record whose date begins with the seven characters `valueOf`. -/
def stockMonthValueOf : List Entry := [stockRecord "A" 1 5 "valueOf-01"]

/-- Stock and sales over two months, the later month entered first. -/
def stockTwoMonths : List Entry :=
  [stockRecord "A" 10 10 "2024-03-01", stockRecord "B" 10 5 "2024-01-05"]

/-- Two sales of product A, in January and in February. -/
def salesTwoMonths : List Entry :=
  [saleRecord "A" 1 "1.00" 1 "2024-01-05", saleRecord "A" 1 "2.00" 2 "2024-02-02"]

/-- Five units sold of a product named `constructor`. -/
def salesConstructor : List Entry := [saleRecord "constructor" 5 "1.00" 5 "2024-01-05"]

/-- Five units sold of a product named `__proto__`. -/
def salesProto : List Entry := [saleRecord "__proto__" 5 "1.00" 5 "2024-01-05"]

/-- The sales of the specification's ranking example: A 30, B 50, C 10. -/
def salesRanking : List Entry :=
  [saleRecord "A" 30 "1.00" 30 "2024-01-05", saleRecord "B" 50 "1.00" 50 "2024-01-05",
   saleRecord "C" 10 "1.00" 10 "2024-01-05"]

/-- Two stock records of half a unit of product A each. -/
def stockTwoHalves : List Entry :=
  [stockRecord "A" (1 / 2) 10 "2024-01-05", stockRecord "A" (1 / 2) 10 "2024-01-06"]

/-- Stock of two products whose names differ only in case. -/
def stockCaseNames : List Entry :=
  [stockRecord "rice" 3 10 "2024-01-05", stockRecord "Rice" 2 10 "2024-01-05"]

/-- A stock record of zero quantity. -/
def stockZeroQuantity : List Entry := [stockRecord "A" 0 5 "2024-01-05"]

/-- The sales page of the specification's validator example: fourteen units
of A in stock, a sale of four (so ten are available) under edit, the form
asking for 13 units at 2.50. -/
def pageEditingThirteen : SalesPage :=
  { salesData := [saleRecord "A" 4 "8.00" 32 "2024-01-06"]
    stockData := [stockRecord "A" 14 5 "2024-01-05"]
    error := SaleError.empty
    availableQty := some (JsNum.fin 14)
    form :=
      { productName := "A", quantity := JsVal.str "13", price := JsVal.str "2.5",
        customerName := JsVal.str "", date := "2024-01-06" }
    editIndex := some 0 }

/-- The same page with a form asking for 15 units. -/
def pageEditingFifteen : SalesPage :=
  { pageEditingThirteen with
    form := { pageEditingThirteen.form with quantity := JsVal.str "15" } }

/-- The sales page while the sale of four units of A is edited and the form's
product has been changed to B, of which five units are in stock and none is
sold: the form asks for nine units of B. -/
def pageEditingOtherProduct : SalesPage :=
  { salesData := [saleRecord "A" 4 "8.00" 32 "2024-01-06"]
    stockData := [stockRecord "A" 10 5 "2024-01-05", stockRecord "B" 5 5 "2024-01-05"]
    error := SaleError.empty
    availableQty := some (JsNum.fin 5)
    form :=
      { productName := "B", quantity := JsVal.str "9", price := JsVal.str "8",
        customerName := JsVal.str "", date := "2024-01-06" }
    editIndex := some 0 }

/-- The stock page holding one record of product A dated 2024-01-05, no
dialog open. -/
def stockPageOneRecord : StockPage :=
  { stockEntries := [stockRecord "A" 10 5 "2024-01-05"]
    editIndex := none
    confirmDeleteIndex := none
    confirmLargeEntry := none
    undoStack := []
    error := none }

/-- A stock form filled with two and a half units at 4. -/
def formTwoAndHalf : ProductFormData :=
  { productName := "A", quantity := JsVal.str "2.5", price := JsVal.str "4", date := "" }

/-- The sales page with fourteen units of A in stock and no sale, the form
asking for 2.5 units at 10. -/
def pageFractionalSale : SalesPage :=
  { salesData := []
    stockData := [stockRecord "A" 14 5 "2024-01-05"]
    error := SaleError.empty
    availableQty := some (JsNum.fin 14)
    form :=
      { productName := "A", quantity := JsVal.str "2.5", price := JsVal.str "10",
        customerName := JsVal.str "", date := "2024-01-06" }
    editIndex := none }

/-- The same page, the form asking for 0 units at 1. -/
def pageZeroQuantity : SalesPage :=
  { pageFractionalSale with
    form := { pageFractionalSale.form with quantity := JsVal.str "0", price := JsVal.str "1" } }

/-- The same page, the form asking for 3 units at 2.50. -/
def pageThreeUnits : SalesPage :=
  { pageFractionalSale with
    form := { pageFractionalSale.form with quantity := JsVal.str "3", price := JsVal.str "2.5" } }

/-- Stock of three products, product B entered twice. -/
def stockThreeProducts : List Entry :=
  [stockRecord "B" 2 5 "2024-01-05", stockRecord "A" 4 5 "2024-01-05",
   stockRecord "B" 3 5 "2024-01-06", stockRecord "C" 1 5 "2024-01-06"]

/-- Sales that exhaust product A, leave four units of B and one of C, and
name a product D that was never stocked. -/
def salesThreeProducts : List Entry :=
  [saleRecord "A" 4 "8.00" 32 "2024-01-07", saleRecord "B" 1 "8.00" 8 "2024-01-07",
   saleRecord "D" 1 "8.00" 8 "2024-01-07"]

/-- The stock page holding a record of product A and a record of product B,
no dialog open and nothing to undo. -/
def stockPageTwoRecords : StockPage :=
  { stockEntries := [stockRecord "A" 10 5 "2024-01-05", stockRecord "B" 3 4 "2024-01-06"]
    editIndex := none
    confirmDeleteIndex := none
    confirmLargeEntry := none
    undoStack := []
    error := none }

/-- Stock of three products: ten units of `Rice` bought at 5, four of `Wheat`
at 2 and six of `rice flour` at 3. -/
def stockGrains : List Entry :=
  [stockRecord "Rice" 10 5 "2024-01-05", stockRecord "Wheat" 4 2 "2024-01-05",
   stockRecord "rice flour" 6 3 "2024-01-05"]

/-- Sales of the three products: four units of `Rice` at 8, two of `Wheat` at
7 and one of `rice flour` at 4. -/
def salesGrains : List Entry :=
  [saleRecord "Rice" 4 "8.00" 32 "2024-01-06", saleRecord "Wheat" 2 "7.00" 14 "2024-01-06",
   saleRecord "rice flour" 1 "4.00" 4 "2024-01-06"]

/-- Two purchases of product A, ten units at 4 and thirty at 8, and a purchase
of product B. -/
def stockTwoPrices : List Entry :=
  [stockRecord "A" 10 4 "2024-01-05", stockRecord "B" 1 100 "2024-01-05",
   stockRecord "A" 30 8 "2024-01-06"]

/-- Two sales of product A, one unit at 9 and three units at 13. -/
def salesTwoPrices : List Entry :=
  [saleRecord "A" 1 "9.00" 9 "2024-01-07", saleRecord "A" 3 "13.00" 39 "2024-01-08"]

/-- A stock record whose date is the text `constructor`. -/
def stockDateConstructor : List Entry := [stockRecord "A" 1 5 "constructor"]

/-- The sum `bestSelling` should list for a product: `safeParse(quantity)`
added up over the sales of the product, in the order of the log. -/
def soldTally (name : String) (sales : List Entry) : JsNum :=
  (forProduct name sales).foldl (fun acc s => acc.add (safeParse s.quantity)) JsNum.zero

/-- A stock log holding five units of product A. -/
def stockFiveOfA : List Entry := [stockRecord "A" 5 2 "2024-01-05"]

/-- Two sales of product A, of five units and then of three. -/
def salesFiveThenThree : List Entry :=
  [saleRecord "A" 5 "8.00" 40 "2024-01-06", saleRecord "A" 3 "8.00" 24 "2024-01-07"]

/-- The stock page on which product A was stocked twice, five units and three
units, before the eight units were sold; the delete dialog is not open. -/
def stockPageRestocked : StockPage :=
  { stockEntries := [stockRecord "A" 5 2 "2024-01-05", stockRecord "A" 3 2 "2024-01-06"]
    editIndex := none
    confirmDeleteIndex := none
    confirmLargeEntry := none
    undoStack := []
    error := none }

/-- Five units in stock of a product named `constructor`. -/
def stockConstructor : List Entry := [stockRecord "constructor" 5 2 "2024-01-05"]

/-- Six stock records of product A, one a day, in the order of their dates. -/
def stockSixDays : List Entry :=
  [stockRecord "A" 1 5 "2024-01-01", stockRecord "A" 2 5 "2024-01-02",
   stockRecord "A" 3 5 "2024-01-03", stockRecord "A" 4 5 "2024-01-04",
   stockRecord "A" 5 5 "2024-01-05", stockRecord "A" 6 5 "2024-01-06"]

/-- The stock page holding the six records. -/
def stockPageSixDays : StockPage :=
  { stockEntries := stockSixDays
    editIndex := none
    confirmDeleteIndex := none
    confirmLargeEntry := none
    undoStack := []
    error := none }

/-- The sales page holding a sale of four units of A and a sale of one unit of
B, against ten units of A and five of B in stock, with an empty form. -/
def salesPageTwoSales : SalesPage :=
  { salesData := [saleRecord "A" 4 "8.00" 32 "2024-01-06", saleRecord "B" 1 "9.00" 9 "2024-01-07"]
    stockData := [stockRecord "A" 10 5 "2024-01-05", stockRecord "B" 5 5 "2024-01-05"]
    error := SaleError.empty
    availableQty := none
    form :=
      { productName := "", quantity := JsVal.str "", price := JsVal.str "",
        customerName := JsVal.str "", date := "2024-01-08" }
    editIndex := none }

/-- The sales table with the text `B` typed in the search field, on its first
page of ten rows. -/
def salesTableSearchB : SalesTable :=
  { filter := "B", page := 0, rowsPerPage := 10, confirmOpen := false, deleteIndex := none }

/-- One unit of each of the products A, B and C, bought at 1. -/
def stockOneOfEach : List Entry :=
  [stockRecord "A" 1 1 "2024-01-05", stockRecord "B" 1 1 "2024-01-05",
   stockRecord "C" 1 1 "2024-01-05"]

/-- A sale of A at 2, a sale of B whose quantity is text without a numeric
prefix, and a sale of C at 3. -/
def salesUnreadableQuantity : List Entry :=
  [saleRecord "A" 1 "2.00" 2 "2024-01-06",
   { productName := "B", quantity := JsVal.str "abc", price := JsVal.str "2.00",
     date := "2024-01-06", totalPrice := JsVal.num (JsNum.fin 2), customerName := JsVal.str "" },
   saleRecord "C" 1 "3.00" 3 "2024-01-06"]

/-- Three stock records whose `totalPrice` is the double written `0.1`, `0.3`
and `0.7` (one unit at that price), the first and the third on the same day. -/
def stockTenths : List Entry :=
  [stockRecord "A" 1 (roundToDouble (1 / 10)) "2024-01-05",
   stockRecord "B" 1 (roundToDouble (3 / 10)) "2024-02-06",
   stockRecord "C" 1 (roundToDouble (7 / 10)) "2024-01-05"]

/-! ## What the dashboard should show -/

/-- The sum, over the products that have a stock entry, of the product's
`remainingStock` as `InventoryPage` computes it. -/
def remainingOfStockedProducts (stockEntries salesEntries : List Entry) : JsNum :=
  jsSum ((setInsertionOrder (stockEntries.map (fun e => e.productName))).map
    (fun product => (inventoryRow stockEntries salesEntries product).remainingStock))

/-! ## What a bucket should hold -/

/-- Among the elements of `[...stocks, ...sales]`, the records of the stock log
(`isStock`) or of the sales log that fall into the bucket named `k`, in the
order of the log. -/
def bucketEntries (key : Entry → String) (isStock : Bool) (k : String)
    (tes : List (Bool × Entry)) : List Entry :=
  (tes.filter (fun te => decide (te.1 = isStock) && decide (key te.2 = k))).map Prod.snd

/-- The bucket named `k` that the loop over `tes` should leave: none unless
some element bears the name and the name is not inherited from
`Object.prototype`; else the name with the sums of `safeParse(totalPrice)` over
the stock records and over the sale records of the bucket. -/
def expectedBucket (key : Entry → String) (tes : List (Bool × Entry)) (k : String) :
    Option Bucket :=
  if k ∈ tes.map (fun te => key te.2) ∧ k ∉ objectPrototypeKeys then
    some { key := k
           stock := sumTotalPrice (bucketEntries key true k tes)
           sales := sumTotalPrice (bucketEntries key false k tes) }
  else none

/-- The rational a numeric value stands for, `0` for any other value. -/
def JsVal.toRat : JsVal → ℚ
  | JsVal.num (JsNum.fin q) => q
  | _ => 0

/-! ## Well-typed logs -/

/-- The value is a number of the data model: a JSON number. -/
def JsVal.isNumber : JsVal → Bool
  | JsVal.num (JsNum.fin _) => true
  | _ => false

/-- The value is an integer number. -/
def JsVal.isInteger : JsVal → Bool
  | JsVal.num (JsNum.fin q) => decide (q.den = 1)
  | _ => false

/-- The value is a whole number that is not negative. -/
def JsVal.isNatural (v : JsVal) : Bool := v.isInteger && decide (0 ≤ v.toRat)

/-- The coercion `parseFloat(v || 0)` of the inventory succeeds on the value. -/
def coercesToNumber (v : JsVal) : Bool := !(parseFloatOrZero v).isNaN

/-! # Properties -/

/-! ## Inventory rows -/

/-- Every row of the inventory is the row computed for some product name of
the product list. -/
lemma exists_of_mem_fetchInventoryData {stockEntries salesEntries : List Entry}
    {row : InventoryRow} (h : row ∈ fetchInventoryData stockEntries salesEntries) :
    ∃ product, product ∈ inventoryProducts stockEntries salesEntries ∧
      inventoryRow stockEntries salesEntries product = row := by
  simpa [fetchInventoryData] using h

/-- C11, as stated, fails: a product with stock and no sale has a zero average
selling price and a profit margin of `-5`. -/
theorem profitMargin_not_zero_when_one_average_is_zero :
    ¬ ∀ (stockEntries salesEntries : List Entry) (row : InventoryRow),
        row ∈ fetchInventoryData stockEntries salesEntries →
        (row.profitMargin = row.avgSellPrice.sub row.avgCostPrice ∧
          ((row.avgCostPrice = JsNum.fin 0 ∨ row.avgSellPrice = JsNum.fin 0) →
            row.profitMargin = JsNum.fin 0)) := by
  intro h
  have hrow : inventoryRow stockTenAtFive [] "A" ∈ fetchInventoryData stockTenAtFive [] := by
    with_unfolding_all decide
  have h2 := (h stockTenAtFive [] _ hrow).2 (Or.inr (by with_unfolding_all decide))
  revert h2
  with_unfolding_all decide

/-- C11, amended: for every product row of the inventory, `profitMargin` is
`avgSellPrice - avgCostPrice`; it is zero when both averages are zero, it is
`-avgCostPrice` when only the average selling price is zero and it is
`avgSellPrice` when the average cost price is zero. -/
theorem profitMargin_eq_avgSell_sub_avgCost (stockEntries salesEntries : List Entry)
    (row : InventoryRow) (h : row ∈ fetchInventoryData stockEntries salesEntries) :
    row.profitMargin = row.avgSellPrice.sub row.avgCostPrice ∧
    (row.avgSellPrice = JsNum.fin 0 → row.avgCostPrice = JsNum.fin 0 →
      row.profitMargin = JsNum.fin 0) ∧
    (row.avgSellPrice = JsNum.fin 0 → row.profitMargin = row.avgCostPrice.neg) ∧
    (row.avgCostPrice = JsNum.fin 0 → row.profitMargin = row.avgSellPrice) := by
  obtain ⟨product, -, rfl⟩ := exists_of_mem_fetchInventoryData h
  have hdef : (inventoryRow stockEntries salesEntries product).profitMargin =
      (inventoryRow stockEntries salesEntries product).avgSellPrice.sub
        (inventoryRow stockEntries salesEntries product).avgCostPrice := rfl
  refine ⟨hdef, ?_, ?_, ?_⟩
  · intro hs hc
    rw [hdef, hs, hc]
    simp [JsNum.sub]
  · intro hs
    rw [hdef, hs]
    cases (inventoryRow stockEntries salesEntries product).avgCostPrice <;>
      simp [JsNum.sub, JsNum.neg]
  · intro hc
    rw [hdef, hc]
    cases (inventoryRow stockEntries salesEntries product).avgSellPrice <;>
      simp [JsNum.sub]

/-- C11, amended, at the row of a product with ten units at 5 and no sale. -/
theorem profitMargin_eq_avgSell_sub_avgCost_witness :
    inventoryRow stockTenAtFive [] "A" ∈ fetchInventoryData stockTenAtFive [] ∧
    (inventoryRow stockTenAtFive [] "A").profitMargin =
      (inventoryRow stockTenAtFive [] "A").avgCostPrice.neg :=
  ⟨by with_unfolding_all decide,
   (profitMargin_eq_avgSell_sub_avgCost stockTenAtFive [] (inventoryRow stockTenAtFive [] "A")
      (by with_unfolding_all decide)).2.2.1 (by with_unfolding_all decide)⟩

/-- A sum of numbers none of which is `NaN` is not `NaN`. -/
lemma foldl_add_fin (f : Entry → JsNum) (log : List Entry)
    (h : ∀ e ∈ log, ∃ q, f e = JsNum.fin q) (a : ℚ) :
    ∃ q, log.foldl (fun acc cur => acc.add (f cur)) (JsNum.fin a) = JsNum.fin q := by
  induction log generalizing a with
  | nil => exact ⟨a, rfl⟩
  | cons e rest ih =>
    obtain ⟨q, hq⟩ := h e (List.mem_cons_self _ _)
    simp only [List.foldl_cons, hq, JsNum.add]
    exact ih (fun e1 he1 => h e1 (List.mem_cons_of_mem _ he1)) (a + q)

/-- A value that coerces is read as a rational. -/
lemma parseFloatOrZero_fin {v : JsVal} (h : coercesToNumber v = true) :
    ∃ q, parseFloatOrZero v = JsNum.fin q := by
  unfold coercesToNumber at h
  cases hv : parseFloatOrZero v with
  | nan => simp [hv, JsNum.isNaN] at h
  | fin q => exact ⟨q, rfl⟩

/-- The opening stock of a log whose quantities coerce is a rational. -/
lemma sumQuantity_fin (log : List Entry)
    (h : ∀ e ∈ log, coercesToNumber e.quantity = true) : ∃ q, sumQuantity log = JsNum.fin q :=
  foldl_add_fin (fun cur => parseFloatOrZero cur.quantity) log
    (fun e he => parseFloatOrZero_fin (h e he)) 0

/-- The total cost of a log whose quantities and prices coerce is a rational. -/
lemma sumValue_fin (log : List Entry)
    (h : ∀ e ∈ log, coercesToNumber e.quantity = true ∧ coercesToNumber e.price = true) :
    ∃ q, sumValue log = JsNum.fin q := by
  refine foldl_add_fin
    (fun cur => (parseFloatOrZero cur.price).mul (parseFloatOrZero cur.quantity)) log ?_ 0
  intro e he
  obtain ⟨a, ha⟩ := parseFloatOrZero_fin (h e he).1
  obtain ⟨b, hb⟩ := parseFloatOrZero_fin (h e he).2
  exact ⟨b * a, by simp [ha, hb, JsNum.mul]⟩

/-- The average cost price of a product is a rational when the stock log's
quantities and prices coerce. -/
lemma avgCostPrice_fin (stockEntries salesEntries : List Entry) (product : String)
    (h : ∀ e ∈ stockEntries,
      coercesToNumber e.quantity = true ∧ coercesToNumber e.price = true) :
    ∃ c, (inventoryRow stockEntries salesEntries product).avgCostPrice = JsNum.fin c := by
  have hsub : ∀ e ∈ forProduct product stockEntries,
      coercesToNumber e.quantity = true ∧ coercesToNumber e.price = true :=
    fun e he => h e (List.mem_of_mem_filter he)
  obtain ⟨o, ho⟩ := sumQuantity_fin _ (fun e he => (hsub e he).1)
  obtain ⟨c, hc⟩ := sumValue_fin _ hsub
  simp only [inventoryRow, ho, hc, JsNum.gt, JsNum.lt, JsNum.zero, JsNum.div]
  by_cases hpos : (0 : ℚ) < o
  · have hne : o ≠ 0 := ne_of_gt hpos
    exact ⟨c / o, by simp [hpos, hne]⟩
  · exact ⟨0, by simp [hpos]⟩

/-- C12: for every product row of the inventory, `totalProfit` is
`profitMargin * soldQuantity`; it is 0 when `soldQuantity` is 0 (the stock
log's quantities and prices being numbers), and when `soldQuantity > 0` it is
`totalSell - avgCostPrice * soldQuantity`, `totalSell` being the sum of
`price * quantity` over the product's sales. -/
theorem totalProfit_eq_profitMargin_mul_soldQuantity (stockEntries salesEntries : List Entry)
    (row : InventoryRow) (h : row ∈ fetchInventoryData stockEntries salesEntries)
    (hnum : ∀ e ∈ stockEntries,
      coercesToNumber e.quantity = true ∧ coercesToNumber e.price = true) :
    row.totalProfit = row.profitMargin.mul row.soldQuantity ∧
    (row.soldQuantity = JsNum.fin 0 → row.totalProfit = JsNum.fin 0) ∧
    (row.soldQuantity.gt JsNum.zero = true →
      row.totalProfit =
        (sumValue (forProduct row.productName salesEntries)).sub
          (row.avgCostPrice.mul row.soldQuantity)) := by
  obtain ⟨product, -, rfl⟩ := exists_of_mem_fetchInventoryData h
  obtain ⟨c, hc⟩ := avgCostPrice_fin stockEntries salesEntries product hnum
  have hprofit : (inventoryRow stockEntries salesEntries product).totalProfit =
      ((if (inventoryRow stockEntries salesEntries product).soldQuantity.gt JsNum.zero then
          (sumValue (forProduct product salesEntries)).div
            (inventoryRow stockEntries salesEntries product).soldQuantity
        else JsNum.zero).sub
        (inventoryRow stockEntries salesEntries product).avgCostPrice).mul
        (inventoryRow stockEntries salesEntries product).soldQuantity := rfl
  have hname : (inventoryRow stockEntries salesEntries product).productName = product := rfl
  refine ⟨rfl, ?_, ?_⟩
  · intro hs
    rw [hprofit, hs, hc]
    simp [JsNum.gt, JsNum.lt, JsNum.zero, JsNum.sub, JsNum.mul]
  · intro hs
    rw [hprofit, hname, hs, hc]
    cases hsold : (inventoryRow stockEntries salesEntries product).soldQuantity with
    | nan => simp [hsold, JsNum.gt, JsNum.lt] at hs
    | fin s =>
      have hpos : (0 : ℚ) < s := by simpa [hsold, JsNum.gt, JsNum.lt, JsNum.zero] using hs
      have hne : s ≠ 0 := ne_of_gt hpos
      cases sumValue (forProduct product salesEntries) with
      | nan => simp [JsNum.div, JsNum.sub, JsNum.mul]
      | fin t =>
        simp only [JsNum.div, JsNum.sub, JsNum.mul, if_neg hne, if_true]
        congr 1
        field_simp
        ring

/-- C12 at a product with ten units bought at 5 and four sold at 8: the total
profit is `32 - 5 * 4`. -/
theorem totalProfit_eq_profitMargin_mul_soldQuantity_witness :
    inventoryRow stockTenAtFive salesFourAtEight "A" ∈
      fetchInventoryData stockTenAtFive salesFourAtEight ∧
    (inventoryRow stockTenAtFive salesFourAtEight "A").totalProfit = JsNum.fin 12 :=
  ⟨by with_unfolding_all decide,
   ((totalProfit_eq_profitMargin_mul_soldQuantity stockTenAtFive salesFourAtEight
      (inventoryRow stockTenAtFive salesFourAtEight "A") (by with_unfolding_all decide)
      (by with_unfolding_all decide)).2.2 (by with_unfolding_all decide)).trans
    (by with_unfolding_all decide)⟩

/-! ## The quantity ledger -/

/-- C13: on the stock log holding two and a half units of product A and no
sale, the inventory row of A has `remainingStock` 2.5 while
`getAvailableQuantity` is 2. -/
theorem getAvailableQuantity_truncates_fractional_stock :
    inventoryRow stockFractional [] "A" ∈ fetchInventoryData stockFractional [] ∧
    (inventoryRow stockFractional [] "A").remainingStock = JsNum.fin (5 / 2) ∧
    getAvailableQuantity "A" stockFractional [] = JsNum.fin 2 := by
  refine ⟨?_, ?_, ?_⟩ <;> with_unfolding_all decide

/-- C17: a quantity without a numeric prefix counts 0 in the sums of
`AnalyticsPage` (`safeParse`), but makes `getAvailableQuantity` and the
`openingStock` of the inventory `NaN`; a `null` quantity counts 0 in the
inventory and makes `getAvailableQuantity` `NaN`. -/
theorem unreadable_quantity_is_not_zero_on_every_path :
    safeParse (JsVal.str "abc") = JsNum.fin 0 ∧
    sumTotalPrice stockUnreadable = JsNum.fin 0 ∧
    getAvailableQuantity "A" stockUnreadable [] = JsNum.nan ∧
    (inventoryRow stockUnreadable [] "A").openingStock = JsNum.nan ∧
    parseFloatOrZero JsVal.null = JsNum.fin 0 ∧
    parseInt JsVal.null = JsNum.nan := by
  refine ⟨?_, ?_, ?_, ?_, ?_, ?_⟩ <;> with_unfolding_all decide

/-- The last record of a product in a log that ends, after it, with records of
other products only. -/
lemma forProduct_getLast? (product : String) (before after : List Entry) (e : Entry)
    (he : e.productName = product) (hafter : ∀ x ∈ after, x.productName ≠ product) :
    (forProduct product (before ++ e :: after)).getLast? = some e := by
  have hnil : List.filter (fun item => decide (item.productName = product)) after = [] := by
    rw [List.filter_eq_nil_iff]
    intro x hx
    simpa using hafter x hx
  simp [forProduct, List.filter_append, List.filter_cons, he, hnil]

/-- The function `getLatestPrice` reads product names and prices only. -/
lemma getLatestPrice_eq_of_map (product : String) (log : List Entry) :
    getLatestPrice product log =
      match ((log.map (fun e => (e.productName, e.price))).filter
          (fun np => decide (np.1 = product))).getLast? with
      | none => JsVal.str ""
      | some np => np.2 := by
  have hfilter : (log.map (fun e => (e.productName, e.price))).filter
        (fun np => decide (np.1 = product)) =
      (forProduct product log).map (fun e => (e.productName, e.price)) := by
    simp [forProduct, List.filter_map, Function.comp_def]
  rw [hfilter, List.getLast?_map]
  cases hlast : (forProduct product log).getLast? <;> simp [getLatestPrice, hlast]

/-- C18: `getLatestPrice(product, stock)` is the price of the record of
greatest index among those of the product, is the empty string when the log
has no record of the product, and does not depend on the dates; the prices of
the log being numbers, it is the empty string only when the log has no record
of the product. -/
theorem getLatestPrice_is_price_of_last_inserted (product : String) (stockData : List Entry)
    (hprice : ∀ e ∈ stockData, ∃ x, e.price = JsVal.num x) :
    (∀ (i : Nat) (hi : i < stockData.length),
      (stockData.get ⟨i, hi⟩).productName = product →
      (∀ (j : Nat) (hj : j < stockData.length), i < j →
        (stockData.get ⟨j, hj⟩).productName ≠ product) →
      getLatestPrice product stockData = (stockData.get ⟨i, hi⟩).price) ∧
    (getLatestPrice product stockData = JsVal.str "" ↔
      ∀ e ∈ stockData, e.productName ≠ product) ∧
    (∀ other : List Entry,
      other.map (fun e => (e.productName, e.price)) =
        stockData.map (fun e => (e.productName, e.price)) →
      getLatestPrice product other = getLatestPrice product stockData) := by
  refine ⟨?_, ?_, ?_⟩
  · intro i hi hname hlater
    have hsplit : stockData =
        stockData.take i ++ stockData.get ⟨i, hi⟩ :: stockData.drop (i + 1) := by
      rw [List.get_eq_getElem, ← List.drop_eq_getElem_cons hi, List.take_append_drop]
    have hafter : ∀ x ∈ stockData.drop (i + 1), x.productName ≠ product := by
      intro x hx
      obtain ⟨k, hk, rfl⟩ := List.getElem_of_mem hx
      rw [List.getElem_drop]
      have hlen : i + 1 + k < stockData.length := by
        rw [List.length_drop] at hk
        omega
      exact hlater (i + 1 + k) hlen (by omega)
    have hlast := forProduct_getLast? product (stockData.take i) (stockData.drop (i + 1))
      (stockData.get ⟨i, hi⟩) hname hafter
    rw [← hsplit] at hlast
    simp [getLatestPrice, hlast]
  · constructor
    · intro hempty e he hname
      cases hlast : (forProduct product stockData).getLast? with
      | none =>
        have hnil : forProduct product stockData = [] := by
          simpa [List.getLast?_eq_none_iff] using hlast
        have hmem : e ∈ forProduct product stockData := by
          simp [forProduct, he, hname]
        rw [hnil] at hmem
        exact absurd hmem (List.not_mem_nil e)
      | some l =>
        have hl : l ∈ stockData :=
          List.mem_of_mem_filter (List.mem_of_getLast?_eq_some hlast)
        obtain ⟨x, hx⟩ := hprice l hl
        simp [getLatestPrice, hlast, hx] at hempty
    · intro hnone
      have hnil : forProduct product stockData = [] := by
        unfold forProduct
        rw [List.filter_eq_nil_iff]
        intro x hx
        simpa using hnone x hx
      simp [getLatestPrice, hnil]
  · intro other hsame
    rw [getLatestPrice_eq_of_map product other, getLatestPrice_eq_of_map product stockData,
      hsame]

/-- C18 on a log where the record of A entered last bears the earliest date:
its price, 7, is returned. -/
theorem getLatestPrice_is_price_of_last_inserted_witness :
    getLatestPrice "A" stockBackfilled = JsVal.num (JsNum.fin 7) :=
  (getLatestPrice_is_price_of_last_inserted "A" stockBackfilled
    (by
      intro e he
      simp only [stockBackfilled, stockRecord, List.mem_cons, List.mem_singleton,
        List.not_mem_nil, or_false] at he
      rcases he with rfl | rfl | rfl <;> exact ⟨_, rfl⟩)).1 2 (by decide) (by decide)
    (fun j hj hij => absurd hj (by simp [stockBackfilled]; omega))

/-- C20: `getStockStatus` labels a numeric quantity `Negative` exactly when it
is below 0, `Out of Stock` exactly when it is 0, `Low Stock` exactly when it
lies strictly between 0 and 5, and `In Stock` exactly when it is at least 5;
so 5 is `In Stock` and 4.5 is `Low Stock`. -/
theorem getStockStatus_partitions_quantities (q : ℚ) :
    (getStockStatus (JsNum.fin q) = StockLabel.negative ↔ q < 0) ∧
    (getStockStatus (JsNum.fin q) = StockLabel.outOfStock ↔ q = 0) ∧
    (getStockStatus (JsNum.fin q) = StockLabel.lowStock ↔ 0 < q ∧ q < 5) ∧
    (getStockStatus (JsNum.fin q) = StockLabel.inStock ↔ 5 ≤ q) ∧
    getStockStatus (JsNum.fin 5) = StockLabel.inStock ∧
    getStockStatus (JsNum.fin (9 / 2)) = StockLabel.lowStock ∧
    [StockLabel.negative.text, StockLabel.outOfStock.text, StockLabel.lowStock.text,
      StockLabel.inStock.text] = ["Negative", "Out of Stock", "Low Stock", "In Stock"] := by
  have h5 : getStockStatus (JsNum.fin 5) = StockLabel.inStock := by
    with_unfolding_all decide
  have h45 : getStockStatus (JsNum.fin (9 / 2)) = StockLabel.lowStock := by
    with_unfolding_all decide
  refine ⟨?_, ?_, ?_, ?_, h5, h45, rfl⟩
  all_goals
    simp only [getStockStatus, JsNum.lt, JsNum.strictEq, JsNum.zero, decide_eq_true_eq]
    split_ifs with h1 h2 h3 <;> simp <;>
      first
        | linarith
        | exact h2
        | (intro hq; linarith)
        | exact ⟨lt_of_le_of_ne (not_lt.mp h1) (Ne.symm h2), h3⟩

/-! ## The sales validator -/

/-- C19: when the requested quantity is within the limit and the price is
empty (falsy) or reads as a number `<= 0`, `handleSubmit` sets the error
`Price must be greater than 0` and changes nothing else, the sales log
included; when the requested quantity exceeds the limit the stock error is
set, whatever the price. -/
theorem handleSubmit_rejects_price_not_positive (today : String) (st : SalesPage)
    (availableQty : JsNum) (hlimit : submitLimit st = some availableQty) :
    ((parseInt st.form.quantity).gt availableQty = false →
      (st.form.price.truthy = false ∨ (parseFloat st.form.price).le JsNum.zero = true) →
      handleSubmit today st = some { st with error := SaleError.priceMustBeGreater } ∧
      ∀ st1, handleSubmit today st = some st1 →
        st1.salesData = st.salesData ∧ st1.error.text =
          ("Price must be greater than 0", none, "")) ∧
    ((parseInt st.form.quantity).gt availableQty = true →
      handleSubmit today st =
        some { st with error := SaleError.onlyUnitsAvailable availableQty } ∧
      ∀ st1, handleSubmit today st = some st1 → st1.salesData = st.salesData) := by
  constructor
  · intro hqty hprice
    have hcond : (!st.form.price.truthy || (parseFloat st.form.price).le JsNum.zero) = true := by
      rcases hprice with h | h <;> simp [h]
    have hres : handleSubmit today st =
        some { st with error := SaleError.priceMustBeGreater } := by
      simp only [handleSubmit, hlimit, hqty, hcond]
      simp
    refine ⟨hres, ?_⟩
    intro st1 h1
    rw [hres] at h1
    cases h1
    exact ⟨rfl, rfl⟩
  · intro hqty
    have hres : handleSubmit today st =
        some { st with error := SaleError.onlyUnitsAvailable availableQty } := by
      simp only [handleSubmit, hlimit, hqty]
      simp
    refine ⟨hres, ?_⟩
    intro st1 h1
    rw [hres] at h1
    cases h1
    rfl

/-- C19 on the page that edits a sale of four units with ten available: 13
units at price 0 are refused for the price and the sales log is kept, 15 units
at price 0 are refused for the stock, the limit shown being 14. -/
theorem handleSubmit_rejects_price_not_positive_witness :
    handleSubmit "2024-01-07" pageEditingPriceZero =
      some { pageEditingPriceZero with error := SaleError.priceMustBeGreater } ∧
    handleSubmit "2024-01-07" pageEditingTooManyPriceZero =
      some { pageEditingTooManyPriceZero with
        error := SaleError.onlyUnitsAvailable (JsNum.fin 14) } :=
  ⟨((handleSubmit_rejects_price_not_positive "2024-01-07" pageEditingPriceZero (JsNum.fin 14)
      (by with_unfolding_all decide)).1 (by with_unfolding_all decide)
      (Or.inr (by with_unfolding_all decide))).1,
   ((handleSubmit_rejects_price_not_positive "2024-01-07" pageEditingTooManyPriceZero
      (JsNum.fin 14) (by with_unfolding_all decide)).2 (by with_unfolding_all decide)).1⟩

/-! ## The order of `localeCompare` -/

/-- Two characters with the same code are the same character. -/
lemma char_eq_of_toNat_eq {a b : Char} (h : a.toNat = b.toNat) : a = b :=
  Char.ext (UInt32.ext (by simpa [Char.toNat] using h))

/-- The comparison returns `eq` exactly on equal strings. -/
lemma lexCompare_eq_iff (a b : List Char) : lexCompare a b = Ordering.eq ↔ a = b := by
  induction a generalizing b with
  | nil => cases b <;> simp [lexCompare]
  | cons x xs ih =>
    cases b with
    | nil => simp [lexCompare]
    | cons y ys =>
      simp only [lexCompare]
      split_ifs with h1 h2
      · simp only [reduceCtorEq, List.cons.injEq, false_iff, not_and]
        intro hxy
        rw [hxy] at h1
        exact absurd h1 (lt_irrefl _)
      · simp only [reduceCtorEq, List.cons.injEq, false_iff, not_and]
        intro hxy
        rw [hxy] at h2
        exact absurd h2 (lt_irrefl _)
      · have hxy : x = y := char_eq_of_toNat_eq (by omega)
        simp [ih ys, hxy]

/-- The comparison returns `lt` exactly when the first string is below the
second in the lexicographic order of lists of characters. -/
lemma lexCompare_lt_iff (a b : List Char) : lexCompare a b = Ordering.lt ↔ a < b := by
  induction a generalizing b with
  | nil =>
    cases b with
    | nil =>
      simp only [lexCompare, reduceCtorEq, false_iff]
      intro h
      cases h
    | cons y ys => simpa [lexCompare] using (List.Lex.nil : List.Lex (· < ·) [] (y :: ys))
  | cons x xs ih =>
    cases b with
    | nil =>
      simp only [lexCompare, reduceCtorEq, false_iff]
      intro h
      cases h
    | cons y ys =>
      have hlt : ∀ c d : Char, c < d ↔ c.toNat < d.toNat := fun _ _ => Iff.rfl
      simp only [lexCompare]
      split_ifs with h1 h2
      · simpa using (List.Lex.rel ((hlt x y).2 h1) : List.Lex (· < ·) (x :: xs) (y :: ys))
      · simp only [reduceCtorEq, false_iff]
        intro h
        cases h with
        | cons _ => exact absurd h2 (lt_irrefl _)
        | rel h3 => exact absurd ((hlt x y).1 h3) h1
      · have hxy : x = y := char_eq_of_toNat_eq (by omega)
        subst hxy
        rw [ih ys]
        constructor
        · intro h
          exact List.Lex.cons h
        · intro h
          cases h with
          | cons h3 => exact h3
          | rel h3 => exact absurd h3 (lt_irrefl _)

/-- On strings, the comparison returns `lt` exactly below `<`. -/
lemma lexCompare_data_lt_iff (a b : String) :
    lexCompare a.data b.data = Ordering.lt ↔ a < b := by
  rw [lexCompare_lt_iff, String.lt_iff_toList_lt]
  rfl

/-- Swapping the arguments turns `gt` into `lt`. -/
lemma lexCompare_gt_iff (a b : List Char) :
    lexCompare a b = Ordering.gt ↔ lexCompare b a = Ordering.lt := by
  induction a generalizing b with
  | nil => cases b <;> simp [lexCompare]
  | cons x xs ih =>
    cases b with
    | nil => simp [lexCompare]
    | cons y ys =>
      simp only [lexCompare]
      split_ifs with h1 h2 h3 <;> first | omega | simp | exact ih ys

/-- "Not after" is transitive. -/
lemma lexCompare_ne_gt_trans (a b c : List Char) (hab : lexCompare a b ≠ Ordering.gt)
    (hbc : lexCompare b c ≠ Ordering.gt) : lexCompare a c ≠ Ordering.gt := by
  induction a generalizing b c with
  | nil => cases c <;> simp [lexCompare]
  | cons x xs ih =>
    cases b with
    | nil => simp [lexCompare] at hab
    | cons y ys =>
      cases c with
      | nil => simp [lexCompare] at hbc
      | cons z zs =>
        simp only [lexCompare] at hab hbc ⊢
        split_ifs at hab hbc ⊢ with h1 h2 h3 h4 h5 h6 <;>
          first
            | omega
            | decide
            | exact absurd rfl hab
            | exact absurd rfl hbc
            | exact ih ys zs hab hbc

/-! ## Dictionaries -/

namespace JsDict

variable {β : Type}

/-- The names of the own properties. -/
lemma getOwn_eq_none_iff (d : JsDict β) (k : String) :
    d.getOwn k = none ↔ k ∉ d.map Prod.fst := by
  induction d with
  | nil => simp [getOwn]
  | cons kv rest ih =>
    obtain ⟨k1, v1⟩ := kv
    by_cases h : k1 = k
    · simp [getOwn, h]
    · simp [getOwn, h, ih, Ne.symm h]

/-- An own property that is read is a member of the list. -/
lemma mem_of_getOwn {d : JsDict β} {k : String} {v : β} (h : d.getOwn k = some v) :
    (k, v) ∈ d := by
  induction d with
  | nil => simp [getOwn] at h
  | cons kv rest ih =>
    obtain ⟨k1, v1⟩ := kv
    by_cases hk : k1 = k
    · simp [getOwn, hk] at h
      simp [h, hk]
    · simp [getOwn, hk] at h
      exact List.mem_cons_of_mem _ (ih h)

/-- With distinct names, a member of the list is what reading its name
returns. -/
lemma getOwn_of_mem {d : JsDict β} {k : String} {v : β} (hd : (d.map Prod.fst).Nodup)
    (h : (k, v) ∈ d) : d.getOwn k = some v := by
  induction d with
  | nil => simp at h
  | cons kv rest ih =>
    obtain ⟨k1, v1⟩ := kv
    simp only [List.map_cons, List.nodup_cons] at hd
    rcases List.mem_cons.1 h with heq | hmem
    · cases heq
      simp [getOwn]
    · have hne : k1 ≠ k := by
        intro hk
        apply hd.1
        rw [hk]
        exact List.mem_map_of_mem Prod.fst hmem
      simp [getOwn, hne, ih hd.2 hmem]

/-- Reading a property just assigned. -/
lemma getOwn_setOwn_self (d : JsDict β) (k : String) (v : β) :
    (d.setOwn k v).getOwn k = some v := by
  induction d with
  | nil => simp [setOwn, getOwn]
  | cons kv rest ih =>
    obtain ⟨k1, v1⟩ := kv
    by_cases hk : k1 = k
    · simp [setOwn, getOwn, hk]
    · simp [setOwn, getOwn, hk, ih]

/-- Reading another property than the one just assigned. -/
lemma getOwn_setOwn_ne (d : JsDict β) {k k2 : String} (v : β) (h : k2 ≠ k) :
    (d.setOwn k v).getOwn k2 = d.getOwn k2 := by
  induction d with
  | nil => simp [setOwn, getOwn, Ne.symm h]
  | cons kv rest ih =>
    obtain ⟨k1, v1⟩ := kv
    by_cases hk : k1 = k
    · subst hk
      simp [setOwn, getOwn, Ne.symm h]
    · by_cases hk2 : k1 = k2
      · subst hk2
        simp [setOwn, getOwn, hk]
      · simp [setOwn, getOwn, hk, hk2, ih]

/-- The names after an assignment: unchanged when the name was there, the new
name last otherwise. -/
lemma keys_setOwn (d : JsDict β) (k : String) (v : β) :
    (d.setOwn k v).map Prod.fst =
      if k ∈ d.map Prod.fst then d.map Prod.fst else d.map Prod.fst ++ [k] := by
  induction d with
  | nil => simp [setOwn]
  | cons kv rest ih =>
    obtain ⟨k1, v1⟩ := kv
    by_cases hk : k1 = k
    · simp [setOwn, hk]
    · have hk2 : ¬ k = k1 := fun h => hk h.symm
      by_cases hmem : k ∈ rest.map Prod.fst
      · simp only [setOwn, hk, if_false, List.map_cons, ih, hmem, if_true, List.mem_cons,
          or_true]
      · simp only [setOwn, hk, if_false, List.map_cons, ih, hmem, List.mem_cons, hk2,
          or_self, List.cons_append]

/-- Assignment keeps the names distinct. -/
lemma nodup_keys_setOwn {d : JsDict β} (k : String) (v : β) (hd : (d.map Prod.fst).Nodup) :
    ((d.setOwn k v).map Prod.fst).Nodup := by
  rw [keys_setOwn]
  split_ifs with h
  · exact hd
  · exact List.Nodup.append hd (List.nodup_singleton k) (by simpa using h)

/-- The enumeration of the own properties rearranges them. -/
lemma entries_perm (d : JsDict β) : (JsDict.entries d).Perm d := by
  unfold JsDict.entries
  have hidx : ((List.insertionSort (fun a b : Nat × String × β => a.1 ≤ b.1)
      (d.filterMap (fun kv => (arrayIndex? kv.1).map (fun i => (i, kv))))).map
        (fun ikv => ikv.2)).Perm (d.filter (fun kv => (arrayIndex? kv.1).isSome)) := by
    refine ((List.perm_insertionSort _ _).map _).trans ?_
    apply List.Perm.of_eq
    induction d with
    | nil => rfl
    | cons kv rest ih =>
      cases h : arrayIndex? kv.1 <;> simp [List.filterMap_cons, List.filter_cons, h, ih]
  have hnamed : d.filter (fun kv => (arrayIndex? kv.1).isNone) =
      d.filter (fun kv => !(arrayIndex? kv.1).isSome) := by
    congr 1
    funext kv
    cases arrayIndex? kv.1 <;> rfl
  rw [hnamed]
  exact (List.Perm.append_right _ hidx).trans (List.filter_append_perm _ d)

end JsDict

/-! ## Buckets -/

/-- The sum of a log extended by one record. -/
lemma sumTotalPrice_append_singleton (log : List Entry) (e : Entry) :
    sumTotalPrice (log ++ [e]) = (sumTotalPrice log).add (safeParse e.totalPrice) := by
  simp [sumTotalPrice, List.foldl_append]

/-- The records of a bucket after one more element of the array. -/
lemma bucketEntries_append_singleton (key : Entry → String) (isStock : Bool) (k : String)
    (tes : List (Bool × Entry)) (te : Bool × Entry) :
    bucketEntries key isStock k (tes ++ [te]) =
      if te.1 = isStock ∧ key te.2 = k then bucketEntries key isStock k tes ++ [te.2]
      else bucketEntries key isStock k tes := by
  unfold bucketEntries
  by_cases h : te.1 = isStock ∧ key te.2 = k
  · simp [List.filter_append, List.filter_cons, h.1, h.2]
  · rw [if_neg h]
    have hf : (decide (te.1 = isStock) && decide (key te.2 = k)) = false := by
      simpa using h
    simp [List.filter_append, List.filter_cons, hf]

/-- A bucket no element of the array falls into has no record. -/
lemma bucketEntries_eq_nil (key : Entry → String) (isStock : Bool) (k : String)
    (tes : List (Bool × Entry)) (h : k ∉ tes.map (fun te => key te.2)) :
    bucketEntries key isStock k tes = [] := by
  unfold bucketEntries
  rw [List.map_eq_nil_iff, List.filter_eq_nil_iff]
  intro te hte
  have hne : key te.2 ≠ k := by
    intro hk
    exact h (List.mem_map.2 ⟨te, hte, hk⟩)
  simp [hne]

/-- An element of the array leaves the expected buckets of other names as
they are. -/
lemma expectedBucket_append_of_ne (key : Entry → String) (pre : List (Bool × Entry))
    (te : Bool × Entry) (k : String) (hk : k ≠ key te.2) :
    expectedBucket key (pre ++ [te]) k = expectedBucket key pre k := by
  have hk2 : ¬ key te.2 = k := fun h => hk h.symm
  have he : ∀ isStock, bucketEntries key isStock k (pre ++ [te]) =
      bucketEntries key isStock k pre := by
    intro isStock
    rw [bucketEntries_append_singleton, if_neg (fun h => hk2 h.2)]
  have hmem : k ∈ (pre ++ [te]).map (fun te => key te.2) ↔
      k ∈ pre.map (fun te => key te.2) := by
    simp [hk]
  unfold expectedBucket
  rw [he true, he false]
  by_cases hc : k ∈ pre.map (fun te => key te.2) ∧ k ∉ objectPrototypeKeys
  · rw [if_pos hc, if_pos (show _ ∧ _ from ⟨hmem.2 hc.1, hc.2⟩)]
  · rw [if_neg hc, if_neg (fun h => hc ⟨hmem.1 h.1, h.2⟩)]

/-- The dictionary the `forEach` loop leaves: the names are distinct, and the
bucket of every name is the expected one. -/
lemma bucket_loop (key : Entry → String) (tes : List (Bool × Entry)) :
    ((tes.foldl (fun m te => bucketStep (key te.2) m te) []).map Prod.fst).Nodup ∧
    ∀ k, (tes.foldl (fun m te => bucketStep (key te.2) m te) []).getOwn k =
      expectedBucket key tes k := by
  induction tes using List.reverseRecOn with
  | nil =>
    refine ⟨by simp, fun k => ?_⟩
    simp [JsDict.getOwn, expectedBucket]
  | append_singleton pre te ih =>
    obtain ⟨hnodup, hget⟩ := ih
    simp only [List.foldl_append, List.foldl_cons, List.foldl_nil]
    generalize pre.foldl (fun m te => bucketStep (key te.2) m te) [] = m at hnodup hget
    have hlast : key te.2 ∈ (pre ++ [te]).map (fun te => key te.2) := by simp
    cases hown : m.getOwn (key te.2) with
    | some b =>
      have hb := hget (key te.2)
      rw [hown] at hb
      unfold expectedBucket at hb
      split_ifs at hb with hcond
      obtain ⟨hmem, hgood⟩ := hcond
      have hstep : bucketStep (key te.2) m te = m.setOwn (key te.2)
          (if te.1 then { b with stock := b.stock.add (safeParse te.2.totalPrice) }
            else { b with sales := b.sales.add (safeParse te.2.totalPrice) }) := by
        simp [bucketStep, hown]
      rw [hstep]
      refine ⟨JsDict.nodup_keys_setOwn _ _ hnodup, fun k => ?_⟩
      by_cases hk : k = key te.2
      · subst hk
        rw [JsDict.getOwn_setOwn_self]
        unfold expectedBucket
        rw [if_pos (show _ ∧ _ from ⟨hlast, hgood⟩)]
        cases Option.some.inj hb
        cases hte : te.1 <;>
          simp [bucketEntries_append_singleton, hte, sumTotalPrice_append_singleton]
      · rw [JsDict.getOwn_setOwn_ne _ _ hk, hget k, expectedBucket_append_of_ne key pre te k hk]
    | none =>
      have hnone := hget (key te.2)
      rw [hown] at hnone
      by_cases hproto : key te.2 ∈ objectPrototypeKeys
      · have hstep : bucketStep (key te.2) m te = m := by
          simp [bucketStep, hown, hproto]
        rw [hstep]
        refine ⟨hnodup, fun k => ?_⟩
        by_cases hk : k = key te.2
        · subst hk
          rw [hown]
          unfold expectedBucket
          rw [if_neg (fun h => h.2 hproto)]
        · rw [hget k, expectedBucket_append_of_ne key pre te k hk]
      · have hfresh : key te.2 ∉ pre.map (fun te => key te.2) := by
          intro hmem
          unfold expectedBucket at hnone
          rw [if_pos (show _ ∧ _ from ⟨hmem, hproto⟩)] at hnone
          exact absurd hnone (by simp)
        have hstep : bucketStep (key te.2) m te = m.setOwn (key te.2)
            (if te.1 then
              { key := key te.2, stock := JsNum.zero.add (safeParse te.2.totalPrice),
                sales := JsNum.zero }
              else
              { key := key te.2, stock := JsNum.zero,
                sales := JsNum.zero.add (safeParse te.2.totalPrice) }) := by
          simp [bucketStep, hown, hproto]
        rw [hstep]
        refine ⟨JsDict.nodup_keys_setOwn _ _ hnodup, fun k => ?_⟩
        by_cases hk : k = key te.2
        · subst hk
          rw [JsDict.getOwn_setOwn_self]
          unfold expectedBucket
          rw [if_pos (show _ ∧ _ from ⟨hlast, hproto⟩)]
          have hs := bucketEntries_eq_nil key true _ pre hfresh
          have ht := bucketEntries_eq_nil key false _ pre hfresh
          cases hte : te.1 <;>
            simp [bucketEntries_append_singleton, hte, sumTotalPrice_append_singleton, hs, ht,
              sumTotalPrice]
        · rw [JsDict.getOwn_setOwn_ne _ _ hk, hget k, expectedBucket_append_of_ne key pre te k hk]

/-- An expected bucket bears the name it is expected under. -/
lemma key_of_expectedBucket {key : Entry → String} {tes : List (Bool × Entry)} {k : String}
    {b : Bucket} (h : expectedBucket key tes k = some b) : b.key = k := by
  unfold expectedBucket at h
  split_ifs at h
  cases h
  rfl

/-- The method `localeCompare` returns a positive number exactly when the
lexicographic comparison says `gt`. -/
lemma localeCompare_not_positive_iff (a b : String) :
    (localeCompare a b).gt JsNum.zero = false ↔ lexCompare a.data b.data ≠ Ordering.gt := by
  unfold localeCompare
  cases lexCompare a.data b.data <;> with_unfolding_all decide

/-- What the comparator of the bucket sorts decides. -/
lemma sortBefore_localeCompare_iff (a b : Bucket) :
    sortBefore (fun a b : Bucket => localeCompare a.key b.key) a b ↔
      lexCompare a.key.data b.key.data ≠ Ordering.gt :=
  localeCompare_not_positive_iff a.key b.key

/-- The comparator of the two bucket sorts is total. -/
lemma sortBefore_localeCompare_total (a b : Bucket) :
    sortBefore (fun a b : Bucket => localeCompare a.key b.key) a b ∨
      sortBefore (fun a b : Bucket => localeCompare a.key b.key) b a := by
  rw [sortBefore_localeCompare_iff, sortBefore_localeCompare_iff]
  by_cases hab : lexCompare a.key.data b.key.data = Ordering.gt
  · right
    rw [(lexCompare_gt_iff _ _).1 hab]
    decide
  · exact Or.inl hab

/-- The comparator of the two bucket sorts is transitive. -/
lemma sortBefore_localeCompare_trans (a b c : Bucket)
    (hab : sortBefore (fun a b : Bucket => localeCompare a.key b.key) a b)
    (hbc : sortBefore (fun a b : Bucket => localeCompare a.key b.key) b c) :
    sortBefore (fun a b : Bucket => localeCompare a.key b.key) a c := by
  rw [sortBefore_localeCompare_iff] at hab hbc ⊢
  exact lexCompare_ne_gt_trans _ _ _ hab hbc

/-- The sorted array of the buckets of a loop: it holds exactly the expected
buckets, each name once, in strictly ascending order of name. -/
lemma sorted_buckets (key : Entry → String) (tes : List (Bool × Entry)) :
    (∀ b, b ∈ jsSort (fun a b : Bucket => localeCompare a.key b.key)
        ((JsDict.entries (tes.foldl (fun m te => bucketStep (key te.2) m te) [])).map
          (fun kv => kv.2)) ↔ expectedBucket key tes b.key = some b) ∧
    List.Sorted (· < ·) ((jsSort (fun a b : Bucket => localeCompare a.key b.key)
        ((JsDict.entries (tes.foldl (fun m te => bucketStep (key te.2) m te) [])).map
          (fun kv => kv.2))).map (fun b => b.key)) := by
  obtain ⟨hnodup, hget⟩ := bucket_loop key tes
  generalize tes.foldl (fun m te => bucketStep (key te.2) m te) [] = m at hnodup hget
  have hperm : (jsSort (fun a b : Bucket => localeCompare a.key b.key)
      ((JsDict.entries m).map (fun kv => kv.2))).Perm (m.map (fun kv => kv.2)) :=
    (List.perm_insertionSort _ _).trans ((JsDict.entries_perm m).map _)
  have hkey : ∀ kv ∈ m, kv.2.key = kv.1 := by
    intro kv hkv
    have h1 := JsDict.getOwn_of_mem hnodup (show (kv.1, kv.2) ∈ m from hkv)
    rw [hget] at h1
    exact key_of_expectedBucket h1
  have hmem : ∀ b, b ∈ jsSort (fun a b : Bucket => localeCompare a.key b.key)
      ((JsDict.entries m).map (fun kv => kv.2)) ↔ expectedBucket key tes b.key = some b := by
    intro b
    rw [hperm.mem_iff, List.mem_map]
    constructor
    · rintro ⟨kv, hkv, rfl⟩
      have h1 := JsDict.getOwn_of_mem hnodup (show (kv.1, kv.2) ∈ m from hkv)
      rw [hget] at h1
      rw [hkey kv hkv]
      exact h1
    · intro h
      rw [← hget] at h
      exact ⟨(b.key, b), JsDict.mem_of_getOwn h, rfl⟩
  refine ⟨hmem, ?_⟩
  have hkeys : (m.map (fun kv => kv.2)).map (fun b => b.key) = m.map Prod.fst := by
    rw [List.map_map]
    exact List.map_congr_left (fun kv hkv => hkey kv hkv)
  have hnd : ((jsSort (fun a b : Bucket => localeCompare a.key b.key)
      ((JsDict.entries m).map (fun kv => kv.2))).map (fun b => b.key)).Nodup := by
    rw [(hperm.map _).nodup_iff, hkeys]
    exact hnodup
  haveI : IsTotal Bucket (sortBefore (fun a b : Bucket => localeCompare a.key b.key)) :=
    ⟨sortBefore_localeCompare_total⟩
  haveI : IsTrans Bucket (sortBefore (fun a b : Bucket => localeCompare a.key b.key)) :=
    ⟨sortBefore_localeCompare_trans⟩
  have hsorted : List.Sorted (sortBefore (fun a b : Bucket => localeCompare a.key b.key))
      (jsSort (fun a b : Bucket => localeCompare a.key b.key)
        ((JsDict.entries m).map (fun kv => kv.2))) :=
    List.sorted_insertionSort _ _
  unfold List.Sorted at hsorted ⊢
  rw [List.pairwise_map]
  have hne := List.pairwise_map.1 hnd
  refine (hsorted.and hne).imp ?_
  intro a b hab
  obtain ⟨hle, hneq⟩ := hab
  rw [sortBefore_localeCompare_iff] at hle
  rw [← lexCompare_data_lt_iff]
  cases hc : lexCompare a.key.data b.key.data with
  | lt => rfl
  | eq =>
    have hdata := (lexCompare_eq_iff _ _).1 hc
    exact absurd (String.ext hdata) hneq
  | gt => exact absurd hc hle

/-- The stock records, or the sale records, of a bucket of `[...stocks, ...sales]`. -/
lemma bucketEntries_taggedEntries (key : Entry → String) (isStock : Bool) (k : String)
    (stocks sales : List Entry) :
    bucketEntries key isStock k (taggedEntries stocks sales) =
      (if isStock then stocks else sales).filter (fun e => decide (key e = k)) := by
  unfold bucketEntries taggedEntries
  cases isStock <;>
    simp [List.filter_append, List.filter_map, List.map_map, Function.comp_def]

/-- The bucket names of `[...stocks, ...sales]`. -/
lemma keys_taggedEntries (key : Entry → String) (stocks sales : List Entry) :
    (taggedEntries stocks sales).map (fun te => key te.2) = (stocks ++ sales).map key := by
  simp [taggedEntries, List.map_map, Function.comp_def]

/-- No name inherited from `Object.prototype` is an ISO date. -/
lemma not_mem_objectPrototypeKeys_of_isIsoDate {d : String} (h : isIsoDate d = true) :
    d ∉ objectPrototypeKeys := by
  intro hmem
  have hall : ∀ k ∈ objectPrototypeKeys, isIsoDate k = false := by decide
  rw [hall d hmem] at h
  exact absurd h (by decide)

/-- The sum of `safeParse(totalPrice)` over records whose `totalPrice` is a
number is the sum of these numbers. -/
lemma sumTotalPrice_eq_sum (log : List Entry)
    (h : ∀ e ∈ log, e.totalPrice.isNumber = true) :
    sumTotalPrice log = JsNum.fin ((log.map (fun e => e.totalPrice.toRat)).sum) := by
  have hgen : ∀ (l : List Entry) (a : ℚ), (∀ e ∈ l, e.totalPrice.isNumber = true) →
      l.foldl (fun acc s => acc.add (safeParse s.totalPrice)) (JsNum.fin a) =
        JsNum.fin (a + (l.map (fun e => e.totalPrice.toRat)).sum) := by
    intro l
    induction l with
    | nil => intro a _; simp
    | cons e rest ih =>
      intro a hl
      have he := hl e (List.mem_cons_self _ _)
      have hval : safeParse e.totalPrice = JsNum.fin e.totalPrice.toRat := by
        cases hv : e.totalPrice with
        | num x =>
          cases x with
          | nan => simp [hv, JsVal.isNumber] at he
          | fin q => simp [safeParse, parseFloat, JsNum.isNaN, JsVal.toRat]
        | undefined => simp [hv, JsVal.isNumber] at he
        | null => simp [hv, JsVal.isNumber] at he
        | bool b => simp [hv, JsVal.isNumber] at he
        | str s => simp [hv, JsVal.isNumber] at he
      have hadd : (JsNum.fin a).add (JsNum.fin e.totalPrice.toRat) =
          JsNum.fin (a + e.totalPrice.toRat) := rfl
      simp only [List.foldl_cons, hval, List.map_cons, List.sum_cons]
      rw [hadd, ih (a + e.totalPrice.toRat) (fun x hx => hl x (List.mem_cons_of_mem _ hx))]
      congr 1
      ring
  have h0 := hgen log 0 h
  simpa [sumTotalPrice, JsNum.zero] using h0

/-- C14: for stock and sales logs whose dates are zero-padded ISO dates and
whose `totalPrice` values are numbers, `timeSeriesData` has a bucket for every
date of either log and for no other date, no two buckets with the same date;
the `stock` field of a bucket is the sum of `totalPrice` over the stock records
of its date and its `sales` field the sum over the sale records of its date;
and the dates of the buckets are strictly ascending.  The two stock records
dated 2024-01-05 with totals 100 and 50 give the single bucket
`{date: "2024-01-05", stock: 150, sales: 0}`. -/
theorem timeSeriesData_buckets_by_date (stocks sales : List Entry)
    (hdate : ∀ e ∈ stocks ++ sales, isIsoDate e.date = true)
    (hnum : ∀ e ∈ stocks ++ sales, e.totalPrice.isNumber = true) :
    (∀ d, d ∈ (timeSeriesData stocks sales).map Bucket.date ↔
      d ∈ (stocks ++ sales).map (fun e => e.date)) ∧
    ((timeSeriesData stocks sales).map Bucket.date).Nodup ∧
    (∀ b ∈ timeSeriesData stocks sales,
      b.stock = JsNum.fin
        (((stocks.filter (fun e => decide (e.date = b.date))).map
          (fun e => e.totalPrice.toRat)).sum) ∧
      b.sales = JsNum.fin
        (((sales.filter (fun e => decide (e.date = b.date))).map
          (fun e => e.totalPrice.toRat)).sum)) ∧
    List.Sorted (· < ·) ((timeSeriesData stocks sales).map Bucket.date) ∧
    timeSeriesData stockSameDay [] =
      [{ key := "2024-01-05", stock := JsNum.fin 150, sales := JsNum.fin 0 }] := by
  obtain ⟨hmem, hsorted⟩ := sorted_buckets (fun e => e.date) (taggedEntries stocks sales)
  have hmem2 : ∀ b, b ∈ timeSeriesData stocks sales ↔
      expectedBucket (fun e => e.date) (taggedEntries stocks sales) b.key = some b := hmem
  have hsorted2 : List.Sorted (· < ·) ((timeSeriesData stocks sales).map Bucket.date) :=
    hsorted
  have hexp : ∀ d b, expectedBucket (fun e => e.date) (taggedEntries stocks sales) d = some b ↔
      d ∈ (stocks ++ sales).map (fun e => e.date) ∧
      b = { key := d
            stock := sumTotalPrice (stocks.filter (fun e => decide (e.date = d)))
            sales := sumTotalPrice (sales.filter (fun e => decide (e.date = d))) } := by
    intro d b
    unfold expectedBucket
    rw [keys_taggedEntries, bucketEntries_taggedEntries, bucketEntries_taggedEntries]
    by_cases hd : d ∈ (stocks ++ sales).map (fun e => e.date)
    · have hgood : d ∉ objectPrototypeKeys := by
        obtain ⟨e, he, rfl⟩ := List.mem_map.1 hd
        exact not_mem_objectPrototypeKeys_of_isIsoDate (hdate e he)
      rw [if_pos ⟨hd, hgood⟩]
      constructor
      · intro h
        exact ⟨hd, (Option.some.inj h).symm⟩
      · rintro ⟨-, rfl⟩
        rfl
    · rw [if_neg (fun h => hd h.1)]
      constructor
      · intro h
        cases h
      · rintro ⟨h, -⟩
        exact absurd h hd
  refine ⟨?_, hsorted2.nodup, ?_, hsorted2, by with_unfolding_all decide⟩
  · intro d
    constructor
    · intro h
      obtain ⟨b, hb, rfl⟩ := List.mem_map.1 h
      exact ((hexp _ _).1 ((hmem2 b).1 hb)).1
    · intro h
      have hb := (hexp d _).2 ⟨h, rfl⟩
      exact List.mem_map.2
        ⟨{ key := d
           stock := sumTotalPrice (stocks.filter (fun e => decide (e.date = d)))
           sales := sumTotalPrice (sales.filter (fun e => decide (e.date = d))) },
          (hmem2 _).2 hb, rfl⟩
  · intro b hb
    obtain ⟨-, hval⟩ := (hexp _ _).1 ((hmem2 b).1 hb)
    have hs : ∀ e ∈ stocks.filter (fun e => decide (e.date = b.key)),
        e.totalPrice.isNumber = true :=
      fun e he => hnum e (List.mem_append_left _ (List.mem_of_mem_filter he))
    have ht : ∀ e ∈ sales.filter (fun e => decide (e.date = b.key)),
        e.totalPrice.isNumber = true :=
      fun e he => hnum e (List.mem_append_right _ (List.mem_of_mem_filter he))
    rw [sumTotalPrice_eq_sum _ hs, sumTotalPrice_eq_sum _ ht] at hval
    constructor
    · exact (congrArg Bucket.stock hval)
    · exact (congrArg Bucket.sales hval)

/-- C14 on the specification's example: one bucket, hence distinct and
ascending dates. -/
theorem timeSeriesData_buckets_by_date_witness :
    ((timeSeriesData stockSameDay []).map Bucket.date).Nodup ∧
    List.Sorted (· < ·) ((timeSeriesData stockSameDay []).map Bucket.date) :=
  ⟨(timeSeriesData_buckets_by_date stockSameDay [] (by with_unfolding_all decide)
      (by with_unfolding_all decide)).2.1,
   (timeSeriesData_buckets_by_date stockSameDay [] (by with_unfolding_all decide)
      (by with_unfolding_all decide)).2.2.2.1⟩

/-- Among the names inherited from `Object.prototype`, only `valueOf` has seven
characters. -/
lemma eq_valueOf_of_mem_objectPrototypeKeys {k : String} (h : k ∈ objectPrototypeKeys)
    (hlen : k.data.length = 7) : k = "valueOf" := by
  have hall : ∀ k ∈ objectPrototypeKeys, k.data.length = 7 → k = "valueOf" := by decide
  exact hall k h hlen

/-- The month of a date of at least seven characters has seven characters. -/
lemma length_monthOf {d : String} (h : 7 ≤ d.length) : (monthOf d).data.length = 7 := by
  have h2 : 7 ≤ d.data.length := h
  show (d.data.take 7).length = 7
  rw [List.length_take]
  exact Nat.min_eq_left h2

/-- A date of at least seven characters lies in the month `k`, a name of seven
characters, exactly when it starts with `k`. -/
lemma monthOf_eq_iff_prefix {d k : String} (hk : k.data.length = 7) :
    monthOf d = k ↔ k.data <+: d.data := by
  constructor
  · intro h
    rw [← h]
    exact List.take_prefix 7 d.data
  · intro h
    have h2 := List.prefix_iff_eq_take.1 h
    rw [hk] at h2
    exact String.ext h2.symm

/-- The expected bucket of a name over `[...stocks, ...sales]`, in terms of
the two logs. -/
lemma expectedBucket_taggedEntries (key : Entry → String) (stocks sales : List Entry)
    (k : String) :
    expectedBucket key (taggedEntries stocks sales) k =
      if k ∈ (stocks ++ sales).map key ∧ k ∉ objectPrototypeKeys then
        some { key := k
               stock := sumTotalPrice (stocks.filter (fun e => decide (key e = k)))
               sales := sumTotalPrice (sales.filter (fun e => decide (key e = k))) }
      else none := by
  unfold expectedBucket
  rw [keys_taggedEntries, bucketEntries_taggedEntries, bucketEntries_taggedEntries]
  rfl

/-- The dictionary of `monthlySummary` is a plain object, like the one of
`bestSelling`: a text of ten characters that begins with `valueOf`, which no
date field writes, would get no bucket. -/
lemma monthlySummary_has_no_bucket_valueOf :
    ¬ ∀ (stocks sales : List Entry), (∀ e ∈ stocks ++ sales, 7 ≤ e.date.length) →
        ∀ e ∈ stocks ++ sales,
          monthOf e.date ∈ (monthlySummary stocks sales).map Bucket.month := by
  intro h
  have h1 := h stockMonthValueOf [] (by with_unfolding_all decide)
    (stockRecord "A" 1 5 "valueOf-01") (by with_unfolding_all decide)
  revert h1
  with_unfolding_all decide

/-- The buckets of `monthlySummary` for logs whose dates are strings of at
least seven characters that do not begin with `valueOf`: a bucket for every
seven-character date prefix of either log and for no other name, no two
buckets with the same month, the fields of a bucket being the sums of
`safeParse(totalPrice)` over the stock records and over the sale records of its
month, which are the records whose date starts with the month. -/
lemma monthlySummary_buckets_of_plain_months (stocks sales : List Entry)
    (hlen : ∀ e ∈ stocks ++ sales, 7 ≤ e.date.length)
    (hname : ∀ e ∈ stocks ++ sales, monthOf e.date ≠ "valueOf") :
    (∀ k, k ∈ (monthlySummary stocks sales).map Bucket.month ↔
      k ∈ (stocks ++ sales).map (fun e => monthOf e.date)) ∧
    ((monthlySummary stocks sales).map Bucket.month).Nodup ∧
    (∀ b ∈ monthlySummary stocks sales,
      b.stock = sumTotalPrice (stocks.filter (fun e => decide (monthOf e.date = b.month))) ∧
      b.sales = sumTotalPrice (sales.filter (fun e => decide (monthOf e.date = b.month))) ∧
      ∀ e ∈ stocks ++ sales, monthOf e.date = b.month ↔ b.month.data <+: e.date.data) := by
  obtain ⟨hmem, hsorted⟩ :=
    sorted_buckets (fun e => monthOf e.date) (taggedEntries stocks sales)
  have hmem2 : ∀ b, b ∈ monthlySummary stocks sales ↔
      expectedBucket (fun e => monthOf e.date) (taggedEntries stocks sales) b.key = some b :=
    hmem
  have hsorted2 : List.Sorted (· < ·) ((monthlySummary stocks sales).map Bucket.month) :=
    hsorted
  have hexp : ∀ k b,
      expectedBucket (fun e => monthOf e.date) (taggedEntries stocks sales) k = some b ↔
      k ∈ (stocks ++ sales).map (fun e => monthOf e.date) ∧
      b = { key := k
            stock := sumTotalPrice (stocks.filter (fun e => decide (monthOf e.date = k)))
            sales := sumTotalPrice (sales.filter (fun e => decide (monthOf e.date = k))) } := by
    intro k b
    rw [expectedBucket_taggedEntries]
    by_cases hk : k ∈ (stocks ++ sales).map (fun e => monthOf e.date)
    · have hgood : k ∉ objectPrototypeKeys := by
        obtain ⟨e, he, rfl⟩ := List.mem_map.1 hk
        intro hproto
        exact hname e he
          (eq_valueOf_of_mem_objectPrototypeKeys hproto (length_monthOf (hlen e he)))
      rw [if_pos ⟨hk, hgood⟩]
      constructor
      · intro h
        exact ⟨hk, (Option.some.inj h).symm⟩
      · rintro ⟨-, rfl⟩
        rfl
    · rw [if_neg (fun h => hk h.1)]
      constructor
      · intro h
        cases h
      · rintro ⟨h, -⟩
        exact absurd h hk
  refine ⟨?_, hsorted2.nodup, ?_⟩
  · intro k
    constructor
    · intro h
      obtain ⟨b, hb, rfl⟩ := List.mem_map.1 h
      exact ((hexp _ _).1 ((hmem2 b).1 hb)).1
    · intro h
      have hb := (hexp k _).2 ⟨h, rfl⟩
      exact List.mem_map.2
        ⟨{ key := k
           stock := sumTotalPrice (stocks.filter (fun e => decide (monthOf e.date = k)))
           sales := sumTotalPrice (sales.filter (fun e => decide (monthOf e.date = k))) },
          (hmem2 _).2 hb, rfl⟩
  · intro b hb
    obtain ⟨hk, hval⟩ := (hexp _ _).1 ((hmem2 b).1 hb)
    refine ⟨congrArg Bucket.stock hval, congrArg Bucket.sales hval, ?_⟩
    intro e _
    obtain ⟨e0, he0, hk0⟩ := List.mem_map.1 hk
    have hlen7 : b.month.data.length = 7 := by
      show b.key.data.length = 7
      rw [← hk0]
      exact length_monthOf (hlen e0 he0)
    exact monthOf_eq_iff_prefix hlen7

/-- A date written `YYYY-MM-DD` has ten characters, and its month is not
`valueOf`. -/
lemma isIsoDate_month {d : String} (h : isIsoDate d = true) :
    7 ≤ d.length ∧ monthOf d ≠ "valueOf" := by
  unfold isIsoDate at h
  split at h
  · next y1 y2 y3 y4 h1 m1 m2 h2 d1 d2 heq =>
    have hlen : d.length = 10 := by
      show d.data.length = 10
      rw [heq]
      rfl
    refine ⟨by omega, ?_⟩
    intro hmonth
    have hdata : (monthOf d).data = "valueOf".data := by rw [hmonth]
    have hy1 : y1 = 'v' := by
      have h0 : (monthOf d).data.head? = some y1 := by
        show (d.data.take 7).head? = some y1
        rw [heq]
        rfl
      rw [hdata] at h0
      exact (Option.some.inj h0).symm
    subst hy1
    have hv : isDecDigit 'v' = false := by decide
    simp [hv] at h
  · exact absurd h (by decide)

/-- C15: for stock and sales logs whose dates are calendar dates written
`YYYY-MM-DD`, as the data model types them and the date fields write them,
`monthlySummary` has a bucket for every month (`YYYY-MM`, the first seven
characters of a date) of either log and for no other name, no two buckets with
the same month; the `stock` and `sales` fields of a bucket are the sums of
`safeParse(totalPrice)` over the stock records and over the sale records of its
month, which are the records whose date starts with the month; and the months
of the buckets are strictly ascending. -/
theorem monthlySummary_buckets_by_month (stocks sales : List Entry)
    (hdate : ∀ e ∈ stocks ++ sales, isIsoDate e.date = true) :
    (∀ k, k ∈ (monthlySummary stocks sales).map Bucket.month ↔
      k ∈ (stocks ++ sales).map (fun e => monthOf e.date)) ∧
    ((monthlySummary stocks sales).map Bucket.month).Nodup ∧
    (∀ b ∈ monthlySummary stocks sales,
      b.stock = sumTotalPrice (stocks.filter (fun e => decide (monthOf e.date = b.month))) ∧
      b.sales = sumTotalPrice (sales.filter (fun e => decide (monthOf e.date = b.month))) ∧
      ∀ e ∈ stocks ++ sales, monthOf e.date = b.month ↔ b.month.data <+: e.date.data) ∧
    List.Sorted (· < ·) ((monthlySummary stocks sales).map Bucket.month) := by
  obtain ⟨h1, h2, h3⟩ := monthlySummary_buckets_of_plain_months stocks sales
    (fun e he => (isIsoDate_month (hdate e he)).1)
    (fun e he => (isIsoDate_month (hdate e he)).2)
  exact ⟨h1, h2, h3,
    (sorted_buckets (fun e => monthOf e.date) (taggedEntries stocks sales)).2⟩

/-- C15 on two logs over three months: a bucket for each of the months
2024-01, 2024-02 and 2024-03, in this order. -/
theorem monthlySummary_buckets_by_month_witness :
    (∀ e ∈ stockTwoMonths ++ salesTwoMonths, isIsoDate e.date = true) ∧
    (monthlySummary stockTwoMonths salesTwoMonths).map Bucket.month =
      ["2024-01", "2024-02", "2024-03"] ∧
    List.Sorted (· < ·) ((monthlySummary stockTwoMonths salesTwoMonths).map Bucket.month) :=
  ⟨by with_unfolding_all decide, by with_unfolding_all decide,
   (monthlySummary_buckets_by_month stockTwoMonths salesTwoMonths
      (by with_unfolding_all decide)).2.2.2⟩


/-! ## Best sellers -/

/-- C16: the sales of the specification's example rank as B, A, C with their
quantities and the first three colours; but for a product named `constructor`
the listed quantity is text, not the 5 units sold, and a product named
`__proto__` is not listed at all. -/
theorem bestSelling_on_inherited_names :
    bestSelling salesRanking =
      [{ name := "B", quantity := TallyVal.num (JsNum.fin 50), fill := "#0088FE" },
       { name := "A", quantity := TallyVal.num (JsNum.fin 30), fill := "#00C49F" },
       { name := "C", quantity := TallyVal.num (JsNum.fin 10), fill := "#FFBB28" }] ∧
    bestSelling salesConstructor =
      [{ name := "constructor", quantity := TallyVal.builtinText, fill := "#0088FE" }] ∧
    bestSelling salesProto = [] := by
  refine ⟨?_, ?_, ?_⟩ <;> with_unfolding_all decide

/-! ## The product list and the rows of the inventory -/

/-- The elements of `Array.from(new Set(xs))` are the elements of `xs`. -/
lemma mem_setInsertionOrder (xs : List String) (x : String) :
    x ∈ setInsertionOrder xs ↔ x ∈ xs := by
  induction xs with
  | nil => simp [setInsertionOrder]
  | cons y ys ih =>
    simp only [setInsertionOrder, List.mem_cons, List.mem_filter, ih, decide_eq_true_eq]
    constructor
    · rintro (h | ⟨h, -⟩)
      · exact Or.inl h
      · exact Or.inr h
    · intro h
      by_cases hxy : x = y
      · exact Or.inl hxy
      · rcases h with h | h
        · exact absurd h hxy
        · exact Or.inr ⟨h, hxy⟩

/-- The elements of `Array.from(new Set(xs))` are distinct. -/
lemma nodup_setInsertionOrder (xs : List String) : (setInsertionOrder xs).Nodup := by
  induction xs with
  | nil => simp [setInsertionOrder]
  | cons y ys ih =>
    simp only [setInsertionOrder, List.nodup_cons, List.mem_filter, decide_eq_true_eq]
    exact ⟨fun h => h.2 rfl, ih.filter _⟩

/-- The product names of a row is the name it was computed for. -/
lemma productName_inventoryRow (stockEntries salesEntries : List Entry) (product : String) :
    (inventoryRow stockEntries salesEntries product).productName = product := rfl

/-- C8: the inventory has a row for exactly the product names that occur in
the stock log or in the sales log, no two rows with the same name; names are
compared exactly (`rice` and `Rice` get a row each, whatever their order in the
table); and every row is computed from the records of its own name: its sums
range over the stock records and the sale records whose `productName` equals
the row's name. -/
theorem fetchInventoryData_rows_are_the_distinct_names (stockEntries salesEntries : List Entry) :
    (∀ name, name ∈ (fetchInventoryData stockEntries salesEntries).map
        (fun row => row.productName) ↔
      name ∈ stockEntries.map (fun s => s.productName) ∨
        name ∈ salesEntries.map (fun s => s.productName)) ∧
    ((fetchInventoryData stockEntries salesEntries).map (fun row => row.productName)).Nodup ∧
    (∀ row ∈ fetchInventoryData stockEntries salesEntries,
      row = inventoryRow stockEntries salesEntries row.productName ∧
      row.openingStock =
        sumQuantity (stockEntries.filter (fun item => decide (item.productName = row.productName))) ∧
      row.soldQuantity =
        sumQuantity (salesEntries.filter (fun item => decide (item.productName = row.productName)))) ∧
    ((fetchInventoryData stockCaseNames []).map
        (fun row => (row.productName, row.openingStock))).Perm
      [("rice", JsNum.fin 3), ("Rice", JsNum.fin 2)] := by
  have hnames : (fetchInventoryData stockEntries salesEntries).map (fun row => row.productName) =
      inventoryProducts stockEntries salesEntries := by
    unfold fetchInventoryData
    rw [List.map_map]
    simp [Function.comp_def, productName_inventoryRow]
  have hperm : (inventoryProducts stockEntries salesEntries).Perm
      (setInsertionOrder (stockEntries.map (fun s => s.productName) ++
        salesEntries.map (fun s => s.productName))) :=
    List.perm_insertionSort _ _
  refine ⟨?_, ?_, ?_, ?_⟩
  rotate_left 3
  · have hrows : (fetchInventoryData stockCaseNames []).map
        (fun row => (row.productName, row.openingStock)) =
        [("Rice", JsNum.fin 2), ("rice", JsNum.fin 3)] := by
      with_unfolding_all decide
    rw [hrows]
    exact List.Perm.swap _ _ _
  · intro name
    rw [hnames, hperm.mem_iff, mem_setInsertionOrder, List.mem_append]
  · rw [hnames, hperm.nodup_iff]
    exact nodup_setInsertionOrder _
  · intro row hrow
    obtain ⟨product, -, rfl⟩ := exists_of_mem_fetchInventoryData hrow
    exact ⟨rfl, rfl, rfl⟩

/-- The coercion `parseFloat(v || 0)` reads a number as itself. -/
lemma parseFloatOrZero_of_isNumber {v : JsVal} (h : v.isNumber = true) :
    parseFloatOrZero v = JsNum.fin v.toRat := by
  cases v with
  | num x =>
    cases x with
    | nan => simp [JsVal.isNumber] at h
    | fin q =>
      by_cases hq : q = 0
      · subst hq
        simp [parseFloatOrZero, JsVal.orElse, JsVal.truthy, JsNum.truthy, parseFloat,
          JsVal.toRat, JsNum.zero]
      · simp [parseFloatOrZero, JsVal.orElse, JsVal.truthy, JsNum.truthy, parseFloat,
          JsVal.toRat, hq]
  | undefined => simp [JsVal.isNumber] at h
  | null => simp [JsVal.isNumber] at h
  | bool b => simp [JsVal.isNumber] at h
  | str s => simp [JsVal.isNumber] at h

/-- A sum of rationals, accumulated from the left. -/
lemma foldl_add_eq_sum (f : Entry → JsNum) (g : Entry → ℚ) (log : List Entry)
    (h : ∀ e ∈ log, f e = JsNum.fin (g e)) (a : ℚ) :
    log.foldl (fun acc cur => acc.add (f cur)) (JsNum.fin a) =
      JsNum.fin (a + (log.map g).sum) := by
  induction log generalizing a with
  | nil => simp
  | cons e rest ih =>
    have he := h e (List.mem_cons_self _ _)
    have hadd : (JsNum.fin a).add (JsNum.fin (g e)) = JsNum.fin (a + g e) := rfl
    simp only [List.foldl_cons, he, List.map_cons, List.sum_cons]
    rw [hadd, ih (fun x hx => h x (List.mem_cons_of_mem _ hx)) (a + g e)]
    congr 1
    ring

/-- The opening stock of a log of numeric quantities is their sum. -/
lemma sumQuantity_eq_sum (log : List Entry) (h : ∀ e ∈ log, e.quantity.isNumber = true) :
    sumQuantity log = JsNum.fin ((log.map (fun e => e.quantity.toRat)).sum) := by
  have h0 := foldl_add_eq_sum (fun cur => parseFloatOrZero cur.quantity)
    (fun e => e.quantity.toRat) log (fun e he => parseFloatOrZero_of_isNumber (h e he)) 0
  simpa [sumQuantity, JsNum.zero] using h0

/-- C9: for every product row of the inventory, `remainingStock` is
`openingStock - soldQuantity`; the quantities of the logs being numbers,
`openingStock` is the sum of the product's stock quantities, `soldQuantity` the
sum of its sale quantities and `remainingStock` their exact difference, which
is negative whenever more was sold than was bought. -/
theorem remainingStock_eq_opening_sub_sold (stockEntries salesEntries : List Entry)
    (row : InventoryRow) (h : row ∈ fetchInventoryData stockEntries salesEntries)
    (hnum : ∀ e ∈ stockEntries ++ salesEntries, e.quantity.isNumber = true) :
    row.remainingStock = row.openingStock.sub row.soldQuantity ∧
    row.openingStock =
      JsNum.fin (((forProduct row.productName stockEntries).map
        (fun e => e.quantity.toRat)).sum) ∧
    row.soldQuantity =
      JsNum.fin (((forProduct row.productName salesEntries).map
        (fun e => e.quantity.toRat)).sum) ∧
    row.remainingStock =
      JsNum.fin (((forProduct row.productName stockEntries).map
          (fun e => e.quantity.toRat)).sum -
        ((forProduct row.productName salesEntries).map (fun e => e.quantity.toRat)).sum) ∧
    (row.soldQuantity.gt row.openingStock = true → row.remainingStock.lt JsNum.zero = true) := by
  obtain ⟨product, -, rfl⟩ := exists_of_mem_fetchInventoryData h
  have hs : ∀ e ∈ forProduct product stockEntries, e.quantity.isNumber = true :=
    fun e he => hnum e (List.mem_append_left _ (List.mem_of_mem_filter he))
  have ht : ∀ e ∈ forProduct product salesEntries, e.quantity.isNumber = true :=
    fun e he => hnum e (List.mem_append_right _ (List.mem_of_mem_filter he))
  have hopen : (inventoryRow stockEntries salesEntries product).openingStock =
      JsNum.fin (((forProduct product stockEntries).map (fun e => e.quantity.toRat)).sum) :=
    sumQuantity_eq_sum _ hs
  have hsold : (inventoryRow stockEntries salesEntries product).soldQuantity =
      JsNum.fin (((forProduct product salesEntries).map (fun e => e.quantity.toRat)).sum) :=
    sumQuantity_eq_sum _ ht
  have hrem : (inventoryRow stockEntries salesEntries product).remainingStock =
      (inventoryRow stockEntries salesEntries product).openingStock.sub
        (inventoryRow stockEntries salesEntries product).soldQuantity := rfl
  rw [productName_inventoryRow]
  refine ⟨hrem, hopen, hsold, ?_, ?_⟩
  · rw [hrem, hopen, hsold]
    rfl
  · rw [hrem, hopen, hsold]
    simp only [JsNum.gt, JsNum.lt, JsNum.sub, JsNum.zero, decide_eq_true_eq]
    intro hlt
    linarith

/-- C9 where more was sold than bought: no stock and four units sold leave
`-4`. -/
theorem remainingStock_eq_opening_sub_sold_witness :
    (inventoryRow [] salesFourAtEight "A").remainingStock = JsNum.fin (-4) :=
  ((remainingStock_eq_opening_sub_sold [] salesFourAtEight
      (inventoryRow [] salesFourAtEight "A") (by with_unfolding_all decide)
      (by with_unfolding_all decide)).2.2.2.1).trans (by with_unfolding_all decide)

/-- C10: for every product row, `avgCostPrice` is `totalCost / openingStock`
when `openingStock > 0`, a division by a non-zero number, and 0 otherwise, in
particular when `openingStock` is 0, as for a product whose stock records have
zero quantity; likewise `avgSellPrice` is `totalSell / soldQuantity` when
`soldQuantity > 0` and 0 otherwise. -/
theorem avgCostPrice_eq_totalCost_div_openingStock (stockEntries salesEntries : List Entry)
    (row : InventoryRow) (h : row ∈ fetchInventoryData stockEntries salesEntries) :
    (row.avgCostPrice =
      if row.openingStock.gt JsNum.zero then
        (sumValue (forProduct row.productName stockEntries)).div row.openingStock
      else JsNum.zero) ∧
    (row.openingStock.gt JsNum.zero = true → ∃ o : ℚ, o ≠ 0 ∧ row.openingStock = JsNum.fin o) ∧
    (row.openingStock = JsNum.fin 0 → row.avgCostPrice = JsNum.fin 0) ∧
    (row.avgSellPrice =
      if row.soldQuantity.gt JsNum.zero then
        (sumValue (forProduct row.productName salesEntries)).div row.soldQuantity
      else JsNum.zero) ∧
    (row.soldQuantity.gt JsNum.zero = true → ∃ s : ℚ, s ≠ 0 ∧ row.soldQuantity = JsNum.fin s) ∧
    (row.soldQuantity = JsNum.fin 0 → row.avgSellPrice = JsNum.fin 0) ∧
    (inventoryRow stockZeroQuantity [] "A").avgCostPrice = JsNum.fin 0 := by
  obtain ⟨product, -, rfl⟩ := exists_of_mem_fetchInventoryData h
  have hpos : ∀ x : JsNum, x.gt JsNum.zero = true → ∃ o : ℚ, o ≠ 0 ∧ x = JsNum.fin o := by
    intro x hx
    cases x with
    | nan => simp [JsNum.gt, JsNum.lt] at hx
    | fin o =>
      have ho : (0 : ℚ) < o := by simpa [JsNum.gt, JsNum.lt, JsNum.zero] using hx
      exact ⟨o, ne_of_gt ho, rfl⟩
  have hcost : (inventoryRow stockEntries salesEntries product).avgCostPrice =
      if (inventoryRow stockEntries salesEntries product).openingStock.gt JsNum.zero then
        (sumValue (forProduct product stockEntries)).div
          (inventoryRow stockEntries salesEntries product).openingStock
      else JsNum.zero := rfl
  have hsell : (inventoryRow stockEntries salesEntries product).avgSellPrice =
      if (inventoryRow stockEntries salesEntries product).soldQuantity.gt JsNum.zero then
        (sumValue (forProduct product salesEntries)).div
          (inventoryRow stockEntries salesEntries product).soldQuantity
      else JsNum.zero := rfl
  rw [productName_inventoryRow]
  refine ⟨hcost, hpos _, ?_, hsell, hpos _, ?_, by with_unfolding_all decide⟩
  · intro h0
    rw [hcost, h0]
    simp [JsNum.gt, JsNum.lt, JsNum.zero]
  · intro h0
    rw [hsell, h0]
    simp [JsNum.gt, JsNum.lt, JsNum.zero]

/-- C10 on ten units bought at 5: the average cost price is `50 / 10`. -/
theorem avgCostPrice_eq_totalCost_div_openingStock_witness :
    (inventoryRow stockTenAtFive [] "A").avgCostPrice = JsNum.fin 5 :=
  ((avgCostPrice_eq_totalCost_div_openingStock stockTenAtFive []
      (inventoryRow stockTenAtFive [] "A") (by with_unfolding_all decide)).1).trans
    (by with_unfolding_all decide)

/-! ## The ledger on integer quantities -/

/-- The function `parseInt` reads an integer number as itself. -/
lemma parseInt_of_isInteger {v : JsVal} (h : v.isInteger = true) :
    parseInt v = JsNum.fin v.toRat := by
  cases v with
  | num x =>
    cases x with
    | nan => simp [JsVal.isInteger] at h
    | fin q =>
      have hden : q.den = 1 := by simpa [JsVal.isInteger] using h
      have hq : ((q.num : ℤ) : ℚ) = q := Rat.coe_int_num_of_den_eq_one hden
      simp only [parseInt, JsVal.toRat, truncQ]
      rw [← hq]
      simp
  | undefined => simp [JsVal.isInteger] at h
  | null => simp [JsVal.isInteger] at h
  | bool b => simp [JsVal.isInteger] at h
  | str s => simp [JsVal.isInteger] at h

/-- The sum of `parseInt(quantity)` over a log of integer quantities is the
sum of the quantities. -/
lemma sumParseIntQuantity_eq_sum (log : List Entry)
    (h : ∀ e ∈ log, e.quantity.isInteger = true) :
    sumParseIntQuantity log = JsNum.fin ((log.map (fun e => e.quantity.toRat)).sum) := by
  have h0 := foldl_add_eq_sum (fun cur => parseInt cur.quantity)
    (fun e => e.quantity.toRat) log (fun e he => parseInt_of_isInteger (h e he)) 0
  simpa [sumParseIntQuantity, JsNum.zero] using h0

/-- On logs of integer quantities `getAvailableQuantity` is the sum of the
product's stock quantities minus the sum of its sale quantities, whatever the
dates and the order of the records. -/
lemma getAvailableQuantity_eq_sum_sub_sum (product : String) (stockData salesData : List Entry)
    (hnum : ∀ e ∈ stockData ++ salesData, e.quantity.isInteger = true) :
    getAvailableQuantity product stockData salesData =
      JsNum.fin (((forProduct product stockData).map (fun e => e.quantity.toRat)).sum -
        ((forProduct product salesData).map (fun e => e.quantity.toRat)).sum) := by
  have hs : ∀ e ∈ forProduct product stockData, e.quantity.isInteger = true :=
    fun e he => hnum e (List.mem_append_left _ (List.mem_of_mem_filter he))
  have ht : ∀ e ∈ forProduct product salesData, e.quantity.isInteger = true :=
    fun e he => hnum e (List.mem_append_right _ (List.mem_of_mem_filter he))
  simp only [getAvailableQuantity, sumParseIntQuantity_eq_sum _ hs,
    sumParseIntQuantity_eq_sum _ ht, JsNum.sub]

/-- C1: on the stock log holding two records of half a unit of product A, whose
quantities sum to 1, and no sale, `getAvailableQuantity` is 0. -/
theorem getAvailableQuantity_of_fractional_records :
    ((forProduct "A" stockTwoHalves).map (fun e => e.quantity.toRat)).sum = 1 ∧
    getAvailableQuantity "A" stockTwoHalves [] = JsNum.fin 0 := by
  constructor <;> with_unfolding_all decide

/-! ## The sales validator: the limit -/

/-- C2: the limit of `handleSubmit` is `getAvailableQuantity(form.productName)`
plus `parseInt` of the quantity of the record at `editIndex`, plus 0 when
`editIndex` is null; a form with a positive price is accepted (the record is
written and the form reset) exactly when its quantity does not exceed the
limit, and otherwise the error reports the limit and the page is otherwise
unchanged, the sales log included. -/
theorem handleSubmit_accepts_iff_within_limit (today : String) (st : SalesPage)
    (limit quantity price : ℚ)
    (hlimit : submitLimit st = some (JsNum.fin limit))
    (hquantity : parseInt st.form.quantity = JsNum.fin quantity)
    (htruthy : st.form.price.truthy = true)
    (hprice : parseFloat st.form.price = JsNum.fin price) (hpos : 0 < price) :
    (st.editIndex = none →
      JsNum.fin limit =
        (getAvailableQuantity st.form.productName st.stockData st.salesData).add
          (JsNum.fin 0)) ∧
    (∀ i old, st.editIndex = some i → st.salesData.get? i = some old →
      JsNum.fin limit =
        (getAvailableQuantity st.form.productName st.stockData st.salesData).add
          (parseInt old.quantity)) ∧
    (quantity ≤ limit →
      handleSubmit today st =
        some (resetForm today
          { st with
            salesData :=
              match st.editIndex with
              | some i => st.salesData.set i (newSale st.form)
              | none => st.salesData ++ [newSale st.form] })) ∧
    (limit < quantity →
      handleSubmit today st =
        some { st with error := SaleError.onlyUnitsAvailable (JsNum.fin limit) }) := by
  refine ⟨?_, ?_, ?_, ?_⟩
  · intro hnone
    simp only [submitLimit, hnone] at hlimit
    exact (Option.some.inj hlimit).symm
  · intro i old hi hold
    simp only [submitLimit, hi, hold] at hlimit
    exact (Option.some.inj hlimit).symm
  · intro hle
    have hgt : (JsNum.fin quantity).gt (JsNum.fin limit) = false := by
      simp [JsNum.gt, JsNum.lt, hle]
    have hnotle : (JsNum.fin price).le JsNum.zero = false := by
      simp [JsNum.le, JsNum.zero, hpos]
    simp only [handleSubmit, hlimit, hquantity, hgt, htruthy, hprice, hnotle]
    simp
  · intro hlt
    have hgt : (JsNum.fin quantity).gt (JsNum.fin limit) = true := by
      simp [JsNum.gt, JsNum.lt, hlt]
    simp only [handleSubmit, hlimit, hquantity, hgt]
    simp

/-- C2 on the specification's example (ten available, the record under edit
holding four): 13 units are accepted and replace the record, 15 units are
refused and the error reports 14. -/
theorem handleSubmit_accepts_iff_within_limit_witness :
    (handleSubmit "2024-01-07" pageEditingThirteen).map (fun st => st.salesData) =
      some [newSale pageEditingThirteen.form] ∧
    handleSubmit "2024-01-07" pageEditingFifteen =
      some { pageEditingFifteen with error := SaleError.onlyUnitsAvailable (JsNum.fin 14) } :=
  ⟨by
    rw [(handleSubmit_accepts_iff_within_limit "2024-01-07" pageEditingThirteen 14 13 (5 / 2)
      (by with_unfolding_all decide) (by with_unfolding_all decide)
      (by with_unfolding_all decide) (by with_unfolding_all decide) (by norm_num)).2.2.1
      (by norm_num)]
    rfl,
   (handleSubmit_accepts_iff_within_limit "2024-01-07" pageEditingFifteen 14 15 (5 / 2)
      (by with_unfolding_all decide) (by with_unfolding_all decide)
      (by with_unfolding_all decide) (by with_unfolding_all decide) (by norm_num)).2.2.2
      (by norm_num)⟩

/-- C3: on a page whose logs are balanced (A: 10 bought, 4 sold; B: 5 bought,
none sold), editing the sale of four units of A into a sale of nine units of B
is accepted, the four units of A being added to the limit of B; afterwards nine
units of B are sold against five bought and `getAvailableQuantity` of B is
`-4`. -/
theorem handleSubmit_edit_to_other_product_oversells :
    getAvailableQuantity "A" pageEditingOtherProduct.stockData
      pageEditingOtherProduct.salesData = JsNum.fin 6 ∧
    getAvailableQuantity "B" pageEditingOtherProduct.stockData
      pageEditingOtherProduct.salesData = JsNum.fin 5 ∧
    submitLimit pageEditingOtherProduct = some (JsNum.fin 9) ∧
    (handleSubmit "2024-01-07" pageEditingOtherProduct).map (fun st => st.salesData) =
      some [newSale pageEditingOtherProduct.form] ∧
    getAvailableQuantity "B" pageEditingOtherProduct.stockData
      [newSale pageEditingOtherProduct.form] = JsNum.fin (-4) := by
  refine ⟨?_, ?_, ?_, ?_, ?_⟩ <;> with_unfolding_all decide

/-! ## The stock page -/

/-- The method `some` finds an element exactly when one, at some index,
satisfies the callback. -/
lemma someWithIndex_iff (p : Entry → Nat → Bool) (log : List Entry) (start : Nat) :
    someWithIndex p log start = true ↔
      ∃ j entry, log.get? j = some entry ∧ p entry (start + j) = true := by
  induction log generalizing start with
  | nil => simp [someWithIndex]
  | cons e es ih =>
    simp only [someWithIndex, Bool.or_eq_true, ih]
    constructor
    · rintro (h | ⟨j, entry, hj, hp⟩)
      · exact ⟨0, e, rfl, by simpa using h⟩
      · refine ⟨j + 1, entry, by simpa using hj, ?_⟩
        rw [← hp]
        congr 1
        omega
    · rintro ⟨j, entry, hj, hp⟩
      cases j with
      | zero =>
        simp only [List.get?_cons_zero, Option.some.injEq] at hj
        subst hj
        exact Or.inl (by simpa using hp)
      | succ j =>
        refine Or.inr ⟨j, entry, by simpa using hj, ?_⟩
        rw [← hp]
        congr 1
        omega

/-- What `isDuplicate` tests: some record at an index other than `editIndex`
has the product name and the date of the submitted data. -/
lemma isDuplicate_iff (st : StockPage) (data : Entry) :
    isDuplicate st data = true ↔
      ∃ j entry, st.stockEntries.get? j = some entry ∧
        entry.productName = data.productName ∧ entry.date = data.date ∧
        st.editIndex ≠ some j := by
  unfold isDuplicate
  rw [someWithIndex_iff]
  constructor
  · rintro ⟨j, entry, hj, hp⟩
    simp only [Nat.zero_add, Bool.and_eq_true, Bool.or_eq_true, decide_eq_true_eq] at hp
    refine ⟨j, entry, hj, hp.1.1, hp.1.2, ?_⟩
    rcases hp.2 with h | h
    · rw [h]
      simp
    · exact h
  · rintro ⟨j, entry, hj, hname, hdate, hne⟩
    refine ⟨j, entry, hj, ?_⟩
    simp only [Nat.zero_add, Bool.and_eq_true, Bool.or_eq_true, decide_eq_true_eq]
    exact ⟨⟨hname, hdate⟩, Or.inr hne⟩

/-- The function `processSubmission` leaves the error as it is. -/
lemma error_of_processSubmission {newEntry : Entry} {editIndex : Option Nat}
    {st st1 : StockPage} (h : processSubmission newEntry editIndex st = some st1) :
    st1.error = st.error := by
  unfold processSubmission at h
  cases editIndex with
  | none =>
    simp only [Option.some.injEq] at h
    subst h
    rfl
  | some i =>
    simp only at h
    by_cases h1 : i < st.stockEntries.length
    · rw [if_pos h1, Option.some.injEq] at h
      subst h
      rfl
    · rw [if_neg h1] at h
      by_cases h2 : i = st.stockEntries.length
      · rw [if_pos h2, Option.some.injEq] at h
        subst h
        rfl
      · rw [if_neg h2] at h
        exact absurd h (by simp)

/-- C7: `handleProductSubmit` shows the duplicate error, and leaves the stock
log as it is, if and only if some record of the log at an index other than
`editIndex` has the product name and the date of the submitted data; with a
null `editIndex` every index is compared, and the record under edit submitted
with its own product and date is not a duplicate of itself. -/
theorem handleProductSubmit_rejects_iff_duplicate (data : Entry) (st : StockPage) :
    ((∃ j entry, st.stockEntries.get? j = some entry ∧
        entry.productName = data.productName ∧ entry.date = data.date ∧
        st.editIndex ≠ some j) →
      handleProductSubmit data st =
        some { st with
          error := some "A stock entry for this product and date already exists." }) ∧
    (∀ st1, handleProductSubmit data st = some st1 →
      (st1.error = some "A stock entry for this product and date already exists." ↔
        ∃ j entry, st.stockEntries.get? j = some entry ∧
          entry.productName = data.productName ∧ entry.date = data.date ∧
          st.editIndex ≠ some j)) ∧
    (st.editIndex = none →
      (isDuplicate st data = true ↔
        ∃ entry ∈ st.stockEntries,
          entry.productName = data.productName ∧ entry.date = data.date)) ∧
    (∀ i own, st.editIndex = some i → st.stockEntries.get? i = some own →
      own.productName = data.productName → own.date = data.date →
      (∀ j entry, j ≠ i → st.stockEntries.get? j = some entry →
        ¬ (entry.productName = data.productName ∧ entry.date = data.date)) →
      isDuplicate st data = false) := by
  refine ⟨?_, ?_, ?_, ?_⟩
  · intro hdup
    have h := (isDuplicate_iff st data).2 hdup
    simp [handleProductSubmit, h]
  · intro st1 hst1
    by_cases hdup : isDuplicate st data = true
    · simp only [handleProductSubmit, hdup, if_true, Option.some.injEq] at hst1
      subst hst1
      simp only [true_iff]
      exact (isDuplicate_iff st data).1 hdup
    · have hnot := hdup
      rw [isDuplicate_iff] at hnot
      simp only [hnot, iff_false]
      simp only [Bool.not_eq_true] at hdup
      simp only [handleProductSubmit, hdup, Bool.false_eq_true, if_false] at hst1
      by_cases hlarge : (data.quantity.toNumber.gt (JsNum.fin 1000) ||
          data.price.toNumber.gt (JsNum.fin 1000)) = true
      · rw [if_pos hlarge, Option.some.injEq] at hst1
        subst hst1
        simp
      · rw [if_neg hlarge] at hst1
        rw [error_of_processSubmission hst1]
        simp
  · intro hnone
    rw [isDuplicate_iff]
    constructor
    · rintro ⟨j, entry, hj, hname, hdate, -⟩
      exact ⟨entry, List.get?_mem hj, hname, hdate⟩
    · rintro ⟨entry, hmem, hname, hdate⟩
      obtain ⟨j, hj⟩ := List.get?_of_mem hmem
      exact ⟨j, entry, hj, hname, hdate, by simp [hnone]⟩
  · intro i own hi _ _ _ hothers
    rw [← Bool.not_eq_true, isDuplicate_iff]
    rintro ⟨j, entry, hj, hname, hdate, hne⟩
    have hji : j ≠ i := by
      intro h
      apply hne
      rw [hi, h]
    exact hothers j entry hji hj ⟨hname, hdate⟩

/-- C6: from the log holding one record of product A dated 2024-01-05, the
record is deleted, a new record of A for the same date is submitted and
accepted, and the deletion is undone: the log then holds two records of A dated
2024-01-05. -/
theorem handleUndo_restores_a_duplicate :
    uniqueProductDate stockPageOneRecord.stockEntries ∧
    ((handleDelete (setConfirmDeleteIndex 0 stockPageOneRecord)).bind
        (fun st => (handleProductSubmit (stockRecord "A" 3 4 "2024-01-05") st).map
          (fun st1 => (handleUndo st1).stockEntries))) =
      some [stockRecord "A" 3 4 "2024-01-05", stockRecord "A" 10 5 "2024-01-05"] ∧
    ¬ uniqueProductDate
      [stockRecord "A" 3 4 "2024-01-05", stockRecord "A" 10 5 "2024-01-05"] := by
  refine ⟨?_, ?_, ?_⟩ <;> with_unfolding_all decide

/-! ## Printing and reading back a price -/

/-- The characters of the ten digits are digits, with their value, and are
neither white space nor a sign. -/
lemma digitChar_facts :
    ∀ d, d < 10 → isDecDigit (digitChar d) = true ∧ digitVal (digitChar d) = d ∧
      isJsWhitespace (digitChar d) = false ∧ digitChar d ≠ '-' ∧ digitChar d ≠ '+' := by
  decide

/-- The digits `lowDigits` lists are below ten. -/
lemma lowDigits_lt (fuel n : Nat) : ∀ d ∈ lowDigits fuel n, d < 10 := by
  induction fuel generalizing n with
  | zero => simp [lowDigits]
  | succ fuel ih =>
    intro d hd
    simp only [lowDigits, List.mem_cons] at hd
    rcases hd with rfl | hd
    · exact Nat.mod_lt _ (by norm_num)
    · split_ifs at hd with h0
      · simp at hd
      · exact ih _ d hd

/-- The digits `lowDigits` lists are those of the number, given enough fuel. -/
lemma foldr_lowDigits (fuel n : Nat) (h : n ≤ fuel) :
    (lowDigits (fuel + 1) n).foldr (fun d a => a * 10 + d) 0 = n := by
  induction fuel generalizing n with
  | zero =>
    have hn : n = 0 := by omega
    subst hn
    simp [lowDigits]
  | succ fuel ih =>
    rw [lowDigits]
    by_cases h0 : n / 10 = 0
    · rw [if_pos h0]
      simp only [List.foldr_cons, List.foldr_nil]
      omega
    · rw [if_neg h0]
      simp only [List.foldr_cons]
      rw [ih (n / 10) (by omega)]
      omega

/-- Reading a run of digit characters followed by something that is not a
digit. -/
lemma readDigits_map_digitChar (ds : List Nat) (hds : ∀ d ∈ ds, d < 10) (rest : List Char)
    (hrest : ∀ c ∈ rest.head?, isDecDigit c = false) (acc k : Nat) :
    readDigits (ds.map digitChar ++ rest) acc k =
      (ds.foldl (fun a d => a * 10 + d) acc, k + ds.length, rest) := by
  induction ds generalizing acc k with
  | nil =>
    cases rest with
    | nil => simp [readDigits]
    | cons c cs =>
      have hc : isDecDigit c = false := hrest c (by simp)
      simp [readDigits, hc]
  | cons d ds ih =>
    have hd := digitChar_facts d (hds d (List.mem_cons_self _ _))
    have hstep : readDigits (digitChar d :: (ds.map digitChar ++ rest)) acc k =
        readDigits (ds.map digitChar ++ rest) (acc * 10 + digitVal (digitChar d)) (k + 1) := by
      rw [readDigits, if_pos hd.1]
    simp only [List.map_cons, List.cons_append, List.foldl_cons, List.length_cons]
    rw [hstep, hd.2.1, ih (fun x hx => hds x (List.mem_cons_of_mem _ hx))]
    congr 2
    omega

/-- Reading the decimal form of `n` followed by something that is not a digit
gives `n`. -/
lemma readDigits_decimalDigits (n : Nat) (rest : List Char)
    (hrest : ∀ c ∈ rest.head?, isDecDigit c = false) :
    ∃ k, 0 < k ∧ readDigits (decimalDigits n ++ rest) 0 0 = (n, k, rest) := by
  unfold decimalDigits
  have hlt : ∀ d ∈ (lowDigits (n + 1) n).reverse, d < 10 :=
    fun d hd => lowDigits_lt _ _ d (List.mem_reverse.1 hd)
  rw [readDigits_map_digitChar _ hlt rest hrest, List.foldl_reverse]
  refine ⟨(lowDigits (n + 1) n).reverse.length, ?_, ?_⟩
  · simp [lowDigits]
  · rw [foldr_lowDigits n n le_rfl]
    simp

/-- The head of the decimal form of a number is a digit character. -/
lemma decimalDigits_eq_cons (n : Nat) :
    ∃ d cs, d < 10 ∧ decimalDigits n = digitChar d :: cs := by
  unfold decimalDigits
  cases hrev : (lowDigits (n + 1) n).reverse with
  | nil => simp [lowDigits] at hrev
  | cons d ds =>
    refine ⟨d, ds.map digitChar, ?_, rfl⟩
    exact lowDigits_lt (n + 1) n d (List.mem_reverse.1 (by rw [hrev]; simp))

/-- A price of at most two decimals, printed by `toFixed(2)`, reads back as
itself. -/
lemma parseFloat_toFixed2 (n : Nat) :
    parseFloat (JsVal.str (toFixed2 (JsNum.fin ((n : ℚ) / 100)))) = JsNum.fin ((n : ℚ) / 100) := by
  have hnonneg : (0 : ℚ) ≤ (n : ℚ) / 100 := by positivity
  have hfloor : (⌊|(n : ℚ) / 100| * 100 + 1 / 2⌋).toNat = n := by
    rw [abs_of_nonneg hnonneg]
    have h1 : (n : ℚ) / 100 * 100 + 1 / 2 = ((n : ℤ) : ℚ) + 1 / 2 := by
      push_cast
      ring
    rw [h1]
    have h2 : ⌊((n : ℤ) : ℚ) + 1 / 2⌋ = (n : ℤ) := by
      rw [Int.floor_eq_iff]
      constructor <;> push_cast <;> linarith
    rw [h2]
    simp
  have hnotneg : ¬ ((n : ℚ) / 100 < 0) := not_lt.2 hnonneg
  simp only [parseFloat, toFixed2, hfloor, if_neg hnotneg, parseFloatStr]
  obtain ⟨d, cs, hd, hcons⟩ := decimalDigits_eq_cons (n / 100)
  have hdf := digitChar_facts d hd
  have hdrop : List.dropWhile isJsWhitespace
      (decimalDigits (n / 100) ++ ['.', digitChar (n % 100 / 10), digitChar (n % 10)]) =
      decimalDigits (n / 100) ++ ['.', digitChar (n % 100 / 10), digitChar (n % 10)] := by
    rw [hcons]
    simp [List.dropWhile, hdf.2.2.1]
  have hsign : readSign
      (decimalDigits (n / 100) ++ ['.', digitChar (n % 100 / 10), digitChar (n % 10)]) =
      (false, decimalDigits (n / 100) ++ ['.', digitChar (n % 100 / 10), digitChar (n % 10)]) := by
    rw [hcons]
    simp only [List.cons_append]
    unfold readSign
    split
    · next h => exact absurd (List.cons.inj h).1 hdf.2.2.2.1
    · next h => exact absurd (List.cons.inj h).1 hdf.2.2.2.2
    · rfl
  obtain ⟨k, hk, hint⟩ := readDigits_decimalDigits (n / 100)
    ['.', digitChar (n % 100 / 10), digitChar (n % 10)] (by simp [isDecDigit])
  have hfrac : readDigits [digitChar (n % 100 / 10), digitChar (n % 10)] 0 0 =
      (n % 100 / 10 * 10 + n % 10, 2, []) := by
    have h := readDigits_map_digitChar [n % 100 / 10, n % 10]
      (by
        intro x hx
        simp only [List.mem_cons, List.mem_singleton, List.not_mem_nil, or_false] at hx
        rcases hx with rfl | rfl <;> omega) [] (by simp) 0 0
    simpa using h
  rw [hdrop, hsign]
  simp only [readUnsignedDecimal, hint, hfrac, readExponent]
  have hk0 : ¬ (k = 0) := by omega
  simp only [hk0, decide_False, Bool.false_and, Bool.false_eq_true, if_false]
  congr 1
  have hsplit : n % 100 / 10 * 10 + n % 10 = n % 100 := by omega
  rw [hsplit]
  have hdiv : ((n / 100 : ℕ) : ℚ) * 100 + ((n % 100 : ℕ) : ℚ) = (n : ℚ) := by
    have h := Nat.div_add_mod n 100
    have h2 : ((100 * (n / 100) + n % 100 : ℕ) : ℚ) = (n : ℚ) := by rw [h]
    push_cast at h2
    linarith
  field_simp
  linarith

/-! ## What the forms write -/

/-- What `ProductForm.handleSubmit` submits, when it submits. -/
lemma ProductForm.handleSubmit_eq_some {today : String} {formData : ProductFormData}
    {record : Entry} (h : ProductForm.handleSubmit today formData = some record) :
    ProductForm.validateForm formData = none ∧
    record.quantity = JsVal.num (parseFloat formData.quantity) ∧
    record.price = JsVal.num (parseFloat formData.price) ∧
    record.totalPrice =
      JsVal.num ((parseFloat formData.quantity).mul (parseFloat formData.price)) := by
  unfold ProductForm.handleSubmit at h
  cases hv : ProductForm.validateForm formData with
  | some msg => simp [hv] at h
  | none =>
    simp only [hv, Option.some.injEq] at h
    subst h
    exact ⟨rfl, rfl, rfl, rfl⟩

/-! ### What the fields of the sale form let through -/

/-- A digit is no white space, no sign, no `x` and no point. -/
lemma isDecDigit_facts {c : Char} (h : isDecDigit c = true) :
    isJsWhitespace c = false ∧ c ≠ '-' ∧ c ≠ '+' ∧ c ≠ 'x' ∧ c ≠ 'X' ∧ c ≠ '.' := by
  have h1 : 48 ≤ c.toNat ∧ c.toNat ≤ 57 := by
    simpa [isDecDigit] using h
  refine ⟨?_, ?_, ?_, ?_, ?_, ?_⟩
  · simp only [isJsWhitespace]
    simp
    omega
  all_goals
    intro hc
    subst hc
    revert h1
    decide

lemma readDigits_cases (cs : List Char) (acc k : Nat) :
    (∃ c rest, cs = c :: rest ∧ isDecDigit c = true ∧
      readDigits cs acc k = readDigits rest (acc * 10 + digitVal c) (k + 1)) ∨
    (readDigits cs acc k = (acc, k, cs) ∧ ∀ c ∈ cs.head?, isDecDigit c = false) := by
  cases cs with
  | nil => exact Or.inr ⟨rfl, by simp⟩
  | cons c rest =>
    by_cases hc : isDecDigit c = true
    · exact Or.inl ⟨c, rest, rfl, hc, by rw [readDigits, if_pos hc]⟩
    · refine Or.inr ⟨by rw [readDigits, if_neg hc], ?_⟩
      intro d hd
      simp at hd
      subst hd
      simpa using hc

lemma readDigits_count_le (cs : List Char) (acc k : Nat) :
    k ≤ (readDigits cs acc k).2.1 := by
  induction cs generalizing acc k with
  | nil => simp [readDigits]
  | cons c rest ih =>
    rw [readDigits]
    split_ifs
    · exact le_trans (Nat.le_succ k) (ih _ _)
    · exact le_refl _

/-- The rest `readDigits` leaves does not begin with a digit. -/
lemma readDigits_rest (cs : List Char) (acc k : Nat) :
    ∀ c ∈ (readDigits cs acc k).2.2.head?, isDecDigit c = false := by
  induction cs generalizing acc k with
  | nil => simp [readDigits]
  | cons c rest ih =>
    rw [readDigits]
    split_ifs with hc
    · exact ih _ _
    · intro d hd
      simp at hd
      subst hd
      simpa using hc

lemma readSign_of_digit {c : Char} (tail : List Char) (hc : isDecDigit c = true) :
    readSign (c :: tail) = (false, c :: tail) := by
  obtain ⟨-, hm, hp, -, -, -⟩ := isDecDigit_facts hc
  unfold readSign
  split
  · next heq => exact absurd (List.cons.inj heq).1 hm
  · next heq => exact absurd (List.cons.inj heq).1 hp
  · rfl

lemma parseIntStr_of_digit_first (s : String) (c : Char) (tail : List Char)
    (hs : s.data = c :: tail) (hc : isDecDigit c = true)
    (hx : ∀ c2 ∈ tail.head?, c2 ≠ 'x' ∧ c2 ≠ 'X') :
    parseIntStr s =
      if (readDigits s.data 0 0).2.1 = 0 then JsNum.nan
      else JsNum.fin ((readDigits s.data 0 0).1 : ℚ) := by
  have hws : (s.data.dropWhile isJsWhitespace) = c :: tail := by
    rw [hs, List.dropWhile_cons_of_neg]
    simp [(isDecDigit_facts hc).1]
  have hM : (match c :: tail with
      | '0' :: 'x' :: hs => let r := readRadixDigits 16 hs 0 0; (r.1, r.2.1)
      | '0' :: 'X' :: hs => let r := readRadixDigits 16 hs 0 0; (r.1, r.2.1)
      | _ => let r := readDigits (c :: tail) 0 0; (r.1, r.2.1)) =
      ((readDigits (c :: tail) 0 0).1, (readDigits (c :: tail) 0 0).2.1) := by
    split
    · next hs2 heq =>
      have h2 := (List.cons.inj heq).2
      have := (hx 'x' (by rw [h2]; rfl)).1
      exact absurd rfl this
    · next hs2 heq =>
      have h2 := (List.cons.inj heq).2
      have := (hx 'X' (by rw [h2]; rfl)).2
      exact absurd rfl this
    · rfl
  unfold parseIntStr
  rw [hws, readSign_of_digit tail hc]
  simp only []
  rw [hM, hs]
  simp

lemma parseFloatStr_of_digit_first (s : String) (c : Char) (tail : List Char)
    (hs : s.data = c :: tail) (hc : isDecDigit c = true) :
    parseFloatStr s =
      match readUnsignedDecimal s.data with
      | some (q, _) => JsNum.fin q
      | none => JsNum.nan := by
  have hws : (s.data.dropWhile isJsWhitespace) = c :: tail := by
    rw [hs, List.dropWhile_cons_of_neg]
    simp [(isDecDigit_facts hc).1]
  unfold parseFloatStr
  rw [hws, readSign_of_digit tail hc, hs]
  simp only []
  cases readUnsignedDecimal (c :: tail) with
  | none => rfl
  | some p => simp

/-- A text the quantity field accepts is read alike by `parseInt` and by
`parseFloat`, as a whole number of at least 1. -/
lemma parse_of_quantityFieldAccepts {v : JsVal} (h : quantityFieldAccepts v = true) :
    ∃ n : ℕ, 1 ≤ n ∧ parseInt v = JsNum.fin (n : ℚ) ∧ parseFloat v = JsNum.fin (n : ℚ) := by
  cases v with
  | undefined => simp [quantityFieldAccepts] at h
  | null => simp [quantityFieldAccepts] at h
  | bool b => simp [quantityFieldAccepts] at h
  | num x => simp [quantityFieldAccepts] at h
  | str s =>
    rcases hr : readDigits s.data 0 0 with ⟨n, k, rest⟩
    have hshape : 0 < k ∧ 1 ≤ n ∧
        (rest = [] ∨ ∃ fraction j, rest = '.' :: fraction ∧
          readDigits fraction 0 0 = (0, j, [])) := by
      simp only [quantityFieldAccepts] at h
      rw [hr] at h
      split at h
      · next heq =>
        simp only [Prod.mk.injEq] at heq
        obtain ⟨rfl, rfl, rfl⟩ := heq
        simp only [Bool.and_eq_true, decide_eq_true_eq] at h
        exact ⟨h.1, h.2, Or.inl rfl⟩
      · next n1 k1 fraction heq =>
        simp only [Prod.mk.injEq] at heq
        obtain ⟨rfl, rfl, rfl⟩ := heq
        rcases hf : readDigits fraction 0 0 with ⟨m, j, rest2⟩
        rw [hf] at h
        split at h
        · next heq2 =>
          simp only [Prod.mk.injEq] at heq2
          obtain ⟨rfl, rfl, rfl⟩ := heq2
          simp only [Bool.and_eq_true, decide_eq_true_eq] at h
          obtain ⟨⟨⟨h1, h2⟩, -⟩, h4⟩ := h
          subst h4
          exact ⟨h1, h2, Or.inr ⟨fraction, _, rfl, hf⟩⟩
        · exact absurd h (by simp)
      · exact absurd h (by simp)
    obtain ⟨hk, hn, hrest⟩ := hshape
    -- the text begins with a digit
    obtain ⟨c, tail, hs, hc, hstep⟩ : ∃ c tail, s.data = c :: tail ∧ isDecDigit c = true ∧
        readDigits s.data 0 0 = readDigits tail (0 * 10 + digitVal c) (0 + 1) := by
      rcases readDigits_cases s.data 0 0 with h1 | h1
      · exact h1
      · rw [hr] at h1
        have := (Prod.mk.inj (Prod.mk.inj h1.1).2).1
        omega
    have hx : ∀ c2 ∈ tail.head?, c2 ≠ 'x' ∧ c2 ≠ 'X' := by
      intro c2 hc2
      by_cases hd : isDecDigit c2 = true
      · exact ⟨(isDecDigit_facts hd).2.2.2.1, (isDecDigit_facts hd).2.2.2.2.1⟩
      · rcases readDigits_cases tail (0 * 10 + digitVal c) (0 + 1) with h1 | h1
        · obtain ⟨c3, rest3, ht, hc3, -⟩ := h1
          rw [ht] at hc2
          simp at hc2
          subst hc2
          exact absurd hc3 hd
        · rw [← hstep, hr] at h1
          have hrt : rest = tail := (Prod.mk.inj (Prod.mk.inj h1.1).2).2
          rcases hrest with hnil | ⟨fraction, j, hfr, -⟩
          · rw [← hrt, hnil] at hc2
            simp at hc2
          · rw [← hrt, hfr] at hc2
            simp at hc2
            subst hc2
            exact ⟨by decide, by decide⟩
    refine ⟨n, hn, ?_, ?_⟩
    · show parseIntStr s = _
      rw [parseIntStr_of_digit_first s c tail hs hc hx, hr]
      simp only []
      rw [if_neg (by omega)]
    · show parseFloatStr s = _
      rw [parseFloatStr_of_digit_first s c tail hs hc]
      unfold readUnsignedDecimal
      rw [hr]
      rcases hrest with hnil | ⟨fraction, j, hfr, hf⟩
      · subst hnil
        simp only []
        have hk0 : ¬ k = 0 := by omega
        simp [hk0, readExponent]
      · subst hfr
        simp only [hf]
        have hk0 : ¬ k = 0 := by omega
        simp [hk0, readExponent]

/-- A text the price field accepts reads as a whole number of hundredths. -/
lemma parse_of_priceFieldAccepts {v : JsVal} (h : priceFieldAccepts v = true) :
    ∃ cents : ℕ, 1 ≤ cents ∧ parseFloat v = JsNum.fin ((cents : ℚ) / 100) := by
  unfold priceFieldAccepts at h
  cases hq : parseFloat v with
  | nan => rw [hq] at h; simp at h
  | fin q =>
    rw [hq] at h
    simp only [Bool.and_eq_true, decide_eq_true_eq] at h
    obtain ⟨hden, hge⟩ := h
    have hnum : ((q * 100).num : ℚ) = q * 100 := by
      have := Rat.num_div_den (q * 100)
      rw [hden] at this
      simpa using this
    have hpos : 1 ≤ (q * 100).num := by
      have : (1 : ℚ) ≤ ((q * 100).num : ℚ) := by rw [hnum]; exact hge
      exact_mod_cast this
    refine ⟨(q * 100).num.toNat, ?_, ?_⟩
    · omega
    · have hcast : (((q * 100).num.toNat : ℕ) : ℚ) = q * 100 := by
        rw [← hnum]
        have : (((q * 100).num.toNat : ℕ) : ℤ) = (q * 100).num := Int.toNat_of_nonneg (by omega)
        exact_mod_cast this
      rw [hcast]
      congr 1
      field_simp

/-- The record a successful `handleSubmit` adds to the sales log is the record
built from the form. -/
lemma eq_newSale_of_handleSubmit {today : String} {st st1 : SalesPage}
    (h : handleSubmit today st = some st1) {r : Entry} (hr : r ∈ st1.salesData)
    (hnew : r ∉ st.salesData) : r = newSale st.form := by
  unfold handleSubmit at h
  cases hl : submitLimit st with
  | none => rw [hl] at h; exact absurd h (by simp)
  | some limit =>
    rw [hl] at h
    simp only [] at h
    split_ifs at h with h1 h2
    · rw [← Option.some.inj h] at hr
      exact absurd hr hnew
    · rw [← Option.some.inj h] at hr
      exact absurd hr hnew
    · rw [← Option.some.inj h] at hr
      have hr2 : r ∈ (match st.editIndex with
          | some i => st.salesData.set i (newSale st.form)
          | none => st.salesData ++ [newSale st.form]) := hr
      cases he : st.editIndex with
      | none =>
        rw [he] at hr2
        rcases List.mem_append.1 hr2 with h3 | h3
        · exact absurd h3 hnew
        · exact List.mem_singleton.1 h3
      | some i =>
        rw [he] at hr2
        rcases List.mem_or_eq_of_mem_set hr2 with h3 | h3
        · exact absurd h3 hnew
        · exact h3

/-- The handler of the sale form on its own, given a quantity the quantity
field does not let through (2.5 units at 10): it stores the truncated quantity
2 with the total 25 computed from the text. -/
lemma sale_totalPrice_ne_quantity_mul_price :
    quantityFieldAccepts pageFractionalSale.form.quantity = false ∧
    ¬ ∀ (today : String) (st st1 : SalesPage), handleSubmit today st = some st1 →
        ∀ r ∈ st1.salesData, r ∉ st.salesData →
          r.totalPrice = JsVal.num (r.quantity.toNumber.mul (parseFloat r.price)) := by
  refine ⟨by decide, ?_⟩
  intro h
  have h1 := h "2024-01-07" pageFractionalSale
    (resetForm "2024-01-07"
      { pageFractionalSale with salesData := [newSale pageFractionalSale.form] })
    (by with_unfolding_all decide) (newSale pageFractionalSale.form)
    (by with_unfolding_all decide) (by with_unfolding_all decide)
  revert h1
  with_unfolding_all decide

/-- C4: every record written by a form submission has `totalPrice` equal to
its stored quantity times its stored price, recomputed from the form.  The
stock form submits `parseFloat(quantity)`, `parseFloat(price)` and their
product.  The sale form, whose quantity field lets through whole numbers of at
least 1 and whose price field whole numbers of hundredths, stores
`parseInt(form.quantity)`, the price printed with two decimals, and
`parseFloat(form.quantity) * parseFloat(form.price)`, which is the stored
quantity times the stored price; so it is for the record `handleSubmit` adds
to the log. -/
theorem totalPrice_eq_quantity_mul_price (form : SaleForm)
    (hquantity : quantityFieldAccepts form.quantity = true)
    (hprice : priceFieldAccepts form.price = true) :
    (∀ today formData record, ProductForm.handleSubmit today formData = some record →
      record.totalPrice = JsVal.num (record.quantity.toNumber.mul record.price.toNumber)) ∧
    (newSale form).totalPrice =
      JsVal.num ((parseFloat form.quantity).mul (parseFloat form.price)) ∧
    (newSale form).totalPrice =
      JsVal.num ((newSale form).quantity.toNumber.mul (parseFloat (newSale form).price)) ∧
    (∀ (today : String) (st st1 : SalesPage), st.form = form →
      handleSubmit today st = some st1 →
      ∀ r ∈ st1.salesData, r ∉ st.salesData →
        r.totalPrice = JsVal.num (r.quantity.toNumber.mul (parseFloat r.price))) := by
  obtain ⟨n, -, hint, hfloat⟩ := parse_of_quantityFieldAccepts hquantity
  obtain ⟨cents, -, hcents⟩ := parse_of_priceFieldAccepts hprice
  have hsale : (newSale form).totalPrice =
      JsVal.num ((newSale form).quantity.toNumber.mul (parseFloat (newSale form).price)) := by
    have hq : (newSale form).quantity.toNumber = JsNum.fin (n : ℚ) := by
      show (parseInt form.quantity) = JsNum.fin (n : ℚ)
      exact hint
    have hp : parseFloat (newSale form).price = JsNum.fin ((cents : ℚ) / 100) := by
      show parseFloat (JsVal.str (toFixed2 (parseFloat form.price))) = _
      rw [hcents, parseFloat_toFixed2]
    rw [hq, hp]
    show JsVal.num ((parseFloat form.quantity).mul (parseFloat form.price)) = _
    rw [hfloat, hcents]
  refine ⟨?_, rfl, hsale, ?_⟩
  · intro today formData record h
    obtain ⟨-, hq, hp, ht⟩ := ProductForm.handleSubmit_eq_some h
    rw [ht, hq, hp]
    rfl
  · intro today st st1 hform h r hr hnew
    rw [eq_newSale_of_handleSubmit h hr hnew, hform]
    exact hsale

/-- C4 on a sale form asking for 3 units at 2.50: the record holds quantity 3,
price `2.50` and totalPrice 7.5. -/
theorem totalPrice_eq_quantity_mul_price_witness :
    quantityFieldAccepts pageThreeUnits.form.quantity = true ∧
    priceFieldAccepts pageThreeUnits.form.price = true ∧
    (newSale pageThreeUnits.form).totalPrice =
      JsVal.num ((newSale pageThreeUnits.form).quantity.toNumber.mul
        (parseFloat (newSale pageThreeUnits.form).price)) ∧
    (newSale pageThreeUnits.form).quantity = JsVal.num (JsNum.fin 3) ∧
    (newSale pageThreeUnits.form).price = JsVal.str "2.50" ∧
    (newSale pageThreeUnits.form).totalPrice = JsVal.num (JsNum.fin (15 / 2)) :=
  ⟨by decide, by with_unfolding_all decide,
   (totalPrice_eq_quantity_mul_price pageThreeUnits.form
      (by decide) (by with_unfolding_all decide)).2.2.1,
   by with_unfolding_all decide, by with_unfolding_all decide, by with_unfolding_all decide⟩

/-- The handler of the sale form on its own, given a quantity the quantity
field does not let through (0 units): it has no test on the sign of the
quantity and writes the record. -/
lemma sale_of_quantity_zero_is_written :
    quantityFieldAccepts pageZeroQuantity.form.quantity = false ∧
    ¬ ∀ (today : String) (st st1 : SalesPage), handleSubmit today st = some st1 →
        ∀ r ∈ st1.salesData, r ∉ st.salesData →
          r.quantity.toNumber.gt JsNum.zero = true := by
  refine ⟨by decide, ?_⟩
  intro h
  have h1 := h "2024-01-07" pageZeroQuantity
    (resetForm "2024-01-07" { pageZeroQuantity with salesData := [newSale pageZeroQuantity.form] })
    (by with_unfolding_all decide) (newSale pageZeroQuantity.form)
    (by with_unfolding_all decide) (by with_unfolding_all decide)
  revert h1
  with_unfolding_all decide

/-- C5: no write path persists a quantity that is not greater than zero.  The
stock form, whose quantity field holds a value that `Number` and `parseFloat`
read alike, submits only records of quantity `> 0` and submits nothing when the
quantity reads as zero or negative.  The quantity field of the sale form lets
through whole numbers of at least 1 only (a text that reads as zero or as a
negative number is refused, and the form is not submitted), and the record
`handleSubmit` then adds to the log has a quantity of at least 1. -/
theorem written_quantity_is_positive (today : String) :
    (∀ formData record,
      (parseFloat formData.quantity).isNaN = jsIsNaN formData.quantity →
      ProductForm.handleSubmit today formData = some record →
      ∃ q : ℚ, 0 < q ∧ record.quantity = JsVal.num (JsNum.fin q)) ∧
    (∀ (formData : ProductFormData) (q : ℚ), parseFloat formData.quantity = JsNum.fin q →
      q ≤ 0 → ProductForm.handleSubmit today formData = none) ∧
    (∀ (st st1 : SalesPage), quantityFieldAccepts st.form.quantity = true →
      handleSubmit today st = some st1 →
      ∀ r ∈ st1.salesData, r ∉ st.salesData →
        ∃ n : ℕ, 1 ≤ n ∧ r.quantity = JsVal.num (JsNum.fin (n : ℚ)) ∧
          r.quantity.toNumber.gt JsNum.zero = true) ∧
    (∀ (v : JsVal) (q : ℚ), parseFloat v = JsNum.fin q → q ≤ 0 →
      quantityFieldAccepts v = false) ∧
    quantityFieldAccepts (JsVal.str "0") = false ∧
    quantityFieldAccepts (JsVal.str "-1") = false ∧
    quantityFieldAccepts (JsVal.str "") = false ∧
    quantityFieldAccepts pageThreeUnits.form.quantity = true ∧
    (handleSubmit "2024-01-07" pageThreeUnits).map
        (fun st => st.salesData.map (fun r => r.quantity)) =
      some [JsVal.num (JsNum.fin 3)] := by
  refine ⟨?_, ?_, ?_, ?_, by decide, by decide, by decide, by decide,
    by with_unfolding_all decide⟩
  · intro formData record hinput h
    obtain ⟨hv, hq, -, -⟩ := ProductForm.handleSubmit_eq_some h
    unfold ProductForm.validateForm at hv
    split_ifs at hv with h1 h2 h3 h4 h5
    have hnan : jsIsNaN formData.quantity = false := by
      simp only [Bool.or_eq_true, not_or, Bool.not_eq_true] at h2
      exact h2.2
    rw [hnan] at hinput
    cases hpf : parseFloat formData.quantity with
    | nan => simp [hpf, JsNum.isNaN] at hinput
    | fin q =>
      refine ⟨q, ?_, by rw [hq, hpf]⟩
      have hle : ¬ q ≤ 0 := by simpa [hpf, JsNum.le, JsNum.zero] using h3
      exact not_le.1 hle
  · intro formData q hq hle
    have hv : ∃ msg, ProductForm.validateForm formData = some msg := by
      unfold ProductForm.validateForm
      by_cases h1 : formData.productName = ""
      · exact ⟨_, if_pos h1⟩
      · rw [if_neg h1]
        by_cases h2 : (!formData.quantity.truthy || jsIsNaN formData.quantity) = true
        · exact ⟨_, if_pos h2⟩
        · rw [if_neg h2]
          have h3 : (parseFloat formData.quantity).le JsNum.zero = true := by
            simp [hq, JsNum.le, JsNum.zero, hle]
          exact ⟨_, if_pos h3⟩
    obtain ⟨msg, hmsg⟩ := hv
    simp [ProductForm.handleSubmit, hmsg]
  · intro st st1 haccept h r hr hnew
    obtain ⟨n, hn, hint, -⟩ := parse_of_quantityFieldAccepts haccept
    rw [eq_newSale_of_handleSubmit h hr hnew]
    have hq : (newSale st.form).quantity = JsVal.num (JsNum.fin (n : ℚ)) := by
      show JsVal.num (parseInt st.form.quantity) = _
      rw [hint]
    refine ⟨n, hn, hq, ?_⟩
    rw [hq]
    have hpos : (0 : ℚ) < (n : ℚ) := by exact_mod_cast hn
    simpa [JsVal.toNumber, JsNum.gt, JsNum.lt, JsNum.zero] using hpos
  · intro v q hq hle
    by_contra hacc
    have hacc2 : quantityFieldAccepts v = true := by simpa using hacc
    obtain ⟨n, hn, -, hfloat⟩ := parse_of_quantityFieldAccepts hacc2
    rw [hq] at hfloat
    have hqn : q = (n : ℚ) := JsNum.fin.inj hfloat
    have hpos : (1 : ℚ) ≤ (n : ℚ) := by exact_mod_cast hn
    rw [hqn] at hle
    linarith

/-! ## The ranking of the best sellers -/

/-- Insertion into a sorted list keeps it sorted, the relation being total and
transitive on the elements at hand. -/
lemma sorted_orderedInsert_of {α : Type} (r : α → α → Prop) [DecidableRel r] (a : α)
    (l : List α) (htot : ∀ x ∈ a :: l, ∀ y ∈ a :: l, r x y ∨ r y x)
    (htrans : ∀ x ∈ a :: l, ∀ y ∈ a :: l, ∀ z ∈ a :: l, r x y → r y z → r x z)
    (hl : List.Sorted r l) : List.Sorted r (List.orderedInsert r a l) := by
  induction l with
  | nil => simp
  | cons b l ih =>
    obtain ⟨hbl, hsl⟩ := List.sorted_cons.1 hl
    have ha : a ∈ a :: b :: l := List.mem_cons_self _ _
    have hb : b ∈ a :: b :: l := List.mem_cons_of_mem _ (List.mem_cons_self _ _)
    have hmem : ∀ c ∈ l, c ∈ a :: b :: l :=
      fun c hc => List.mem_cons_of_mem _ (List.mem_cons_of_mem _ hc)
    by_cases hab : r a b
    · rw [List.orderedInsert, if_pos hab]
      refine List.sorted_cons.2 ⟨?_, hl⟩
      intro c hc
      rcases List.mem_cons.1 hc with rfl | hc
      · exact hab
      · exact htrans a ha b hb c (hmem c hc) hab (hbl c hc)
    · rw [List.orderedInsert, if_neg hab]
      have hba : r b a := (htot a ha b hb).resolve_left hab
      have hsub : ∀ x ∈ a :: l, x ∈ a :: b :: l := by
        intro x hx
        rcases List.mem_cons.1 hx with rfl | hx
        · exact ha
        · exact hmem x hx
      have ih2 := ih
        (fun x hx y hy => htot x (hsub x hx) y (hsub y hy))
        (fun x hx y hy z hz => htrans x (hsub x hx) y (hsub y hy) z (hsub z hz)) hsl
      refine List.sorted_cons.2 ⟨?_, ih2⟩
      intro c hc
      rcases (List.mem_orderedInsert r).1 hc with rfl | hc
      · exact hba
      · exact hbl c hc

/-- Insertion sort sorts, the relation being total and transitive on the
elements of the list. -/
lemma sorted_insertionSort_of {α : Type} (r : α → α → Prop) [DecidableRel r] (l : List α)
    (htot : ∀ x ∈ l, ∀ y ∈ l, r x y ∨ r y x)
    (htrans : ∀ x ∈ l, ∀ y ∈ l, ∀ z ∈ l, r x y → r y z → r x z) :
    List.Sorted r (List.insertionSort r l) := by
  induction l with
  | nil => simp
  | cons a l ih =>
    have hsub : ∀ x ∈ l, x ∈ a :: l := fun x hx => List.mem_cons_of_mem _ hx
    have ih2 := ih (fun x hx y hy => htot x (hsub x hx) y (hsub y hy))
      (fun x hx y hy z hz => htrans x (hsub x hx) y (hsub y hy) z (hsub z hz))
    have hins : ∀ x ∈ a :: List.insertionSort r l, x ∈ a :: l := by
      intro x hx
      rcases List.mem_cons.1 hx with rfl | hx
      · exact List.mem_cons_self _ _
      · exact hsub x ((List.mem_insertionSort r).1 hx)
    rw [List.insertionSort]
    exact sorted_orderedInsert_of r a _
      (fun x hx y hy => htot x (hins x hx) y (hins y hy))
      (fun x hx y hy z hz => htrans x (hins x hx) y (hins y hy) z (hins z hz)) ih2

/-- The function `safeParse` never returns `NaN`. -/
lemma safeParse_fin (v : JsVal) : ∃ q, safeParse v = JsNum.fin q := by
  unfold safeParse
  cases h : parseFloat v with
  | nan => exact ⟨0, by simp [JsNum.isNaN, JsNum.zero]⟩
  | fin q => exact ⟨q, by simp [JsNum.isNaN]⟩

/-- The tally of a product is a rational. -/
lemma soldTally_fin (name : String) (sales : List Entry) :
    ∃ q, soldTally name sales = JsNum.fin q :=
  foldl_add_fin (fun s => safeParse s.quantity) _ (fun e _ => safeParse_fin e.quantity) 0

/-- The tally of a product after one more sale. -/
lemma soldTally_append_singleton (name : String) (sales : List Entry) (s : Entry) :
    soldTally name (sales ++ [s]) =
      if s.productName = name then (soldTally name sales).add (safeParse s.quantity)
      else soldTally name sales := by
  unfold soldTally forProduct
  by_cases h : s.productName = name
  · simp [List.filter_append, List.filter_cons, h, List.foldl_append]
  · simp [List.filter_append, List.filter_cons, h]

/-- The tally of a product without a sale is zero. -/
lemma soldTally_eq_zero (name : String) (sales : List Entry)
    (h : name ∉ sales.map (fun s => s.productName)) : soldTally name sales = JsNum.zero := by
  unfold soldTally forProduct
  have hnil : sales.filter (fun item => decide (item.productName = name)) = [] := by
    rw [List.filter_eq_nil_iff]
    intro s hs
    have hne : s.productName ≠ name := fun hk => h (List.mem_map.2 ⟨s, hs, hk⟩)
    simp [hne]
  rw [hnil]
  rfl

/-- The dictionary the loop of `bestSelling` leaves when no product bears a
name inherited from `Object.prototype`: distinct names, and under every name
that occurs in the sales log the tally of the product. -/
lemma bestSelling_loop (sales : List Entry)
    (hnames : ∀ s ∈ sales, s.productName ∉ objectPrototypeKeys) :
    ((sales.foldl bestSellingStep []).map Prod.fst).Nodup ∧
    ∀ k, (sales.foldl bestSellingStep []).getOwn k =
      if k ∈ sales.map (fun s => s.productName) then
        some (TallyVal.num (soldTally k sales))
      else none := by
  induction sales using List.reverseRecOn with
  | nil =>
    refine ⟨by simp, fun k => ?_⟩
    simp [JsDict.getOwn]
  | append_singleton pre s ih =>
    obtain ⟨hnodup, hget⟩ := ih (fun e he => hnames e (List.mem_append_left _ he))
    have hgood : s.productName ∉ objectPrototypeKeys := hnames s (by simp)
    simp only [List.foldl_append, List.foldl_cons, List.foldl_nil]
    generalize pre.foldl bestSellingStep [] = m at hnodup hget
    have hother : ∀ k, k ≠ s.productName →
        (if k ∈ (pre ++ [s]).map (fun s => s.productName) then
          some (TallyVal.num (soldTally k (pre ++ [s]))) else none) =
        (if k ∈ pre.map (fun s => s.productName) then
          some (TallyVal.num (soldTally k pre)) else none) := by
      intro k hk
      have hk2 : ¬ s.productName = k := fun h => hk h.symm
      have hmem : k ∈ (pre ++ [s]).map (fun s => s.productName) ↔
          k ∈ pre.map (fun s => s.productName) := by simp [hk]
      rw [soldTally_append_singleton, if_neg hk2]
      by_cases hc : k ∈ pre.map (fun s => s.productName)
      · rw [if_pos hc, if_pos (hmem.2 hc)]
      · rw [if_neg hc, if_neg (fun h => hc (hmem.1 h))]
    have hlast : s.productName ∈ (pre ++ [s]).map (fun s => s.productName) := by simp
    obtain ⟨n, hn⟩ := safeParse_fin s.quantity
    have hstep : bestSellingStep m s = m.setOwn s.productName
        (TallyVal.num ((soldTally s.productName pre).add (safeParse s.quantity))) := by
      have hown := hget s.productName
      unfold bestSellingStep
      by_cases hc : s.productName ∈ pre.map (fun s => s.productName)
      · rw [if_pos hc] at hown
        obtain ⟨q, hq⟩ := soldTally_fin s.productName pre
        simp only [hown, hq, hn]
        by_cases hq0 : q = 0
        · subst hq0
          simp [JsNum.truthy, JsNum.zero]
        · simp [JsNum.truthy, hq0]
      · rw [if_neg hc] at hown
        simp only [hown, if_neg hgood, soldTally_eq_zero _ _ hc]
    rw [hstep]
    refine ⟨JsDict.nodup_keys_setOwn _ _ hnodup, fun k => ?_⟩
    by_cases hk : k = s.productName
    · subst hk
      rw [JsDict.getOwn_setOwn_self, if_pos hlast, soldTally_append_singleton, if_pos rfl]
    · rw [JsDict.getOwn_setOwn_ne _ _ hk, hget k, hother k hk]

/-- Mapping a function of the element over an indexed map whose results carry
it. -/
lemma map_mapIdx_of {α β γ : Type} (f : Nat → α → β) (g : β → γ) (h : α → γ)
    (hfg : ∀ i a, g (f i a) = h a) (l : List α) : (l.mapIdx f).map g = l.map h := by
  apply List.ext_getElem
  · simp
  · intro n h1 h2
    simp [List.getElem_mapIdx, hfg]

/-- The comparator of `bestSelling` on two numeric tallies. -/
lemma sortBefore_tally_iff (a b : String × TallyVal) (qa qb : ℚ)
    (ha : a.2 = TallyVal.num (JsNum.fin qa)) (hb : b.2 = TallyVal.num (JsNum.fin qb)) :
    sortBefore (fun a b : String × TallyVal => b.2.toNumber.sub a.2.toNumber) a b ↔ qb ≤ qa := by
  unfold sortBefore
  simp only [ha, hb, TallyVal.toNumber, JsNum.sub, JsNum.gt, JsNum.lt, JsNum.zero,
    decide_eq_false_iff_not, not_lt]
  constructor <;> intro h <;> linarith

/-- The claim about `bestSelling`, for a sales log in which no product bears a
name inherited from `Object.prototype`: the list has `min(5, n)` elements for
`n` distinct product names, each listed product occurs once with the tally of
its sales, the tallies do not increase along the list, no product left out
has a tally above a listed one, and the element at rank `i` has the colour
`COLORS[i % 5]`. -/
lemma bestSelling_of_plain_names (sales : List Entry)
    (hnames : ∀ s ∈ sales, s.productName ∉ objectPrototypeKeys) :
    (bestSelling sales).length =
      min 5 (setInsertionOrder (sales.map (fun s => s.productName))).length ∧
    ((bestSelling sales).map (fun r => r.name)).Nodup ∧
    (∀ r ∈ bestSelling sales, r.name ∈ sales.map (fun s => s.productName) ∧
      r.quantity = TallyVal.num (soldTally r.name sales)) ∧
    (bestSelling sales).Pairwise
      (fun a b => b.quantity.toNumber.le a.quantity.toNumber = true) ∧
    (∀ name ∈ sales.map (fun s => s.productName),
      name ∉ (bestSelling sales).map (fun r => r.name) →
      ∀ r ∈ bestSelling sales, (soldTally name sales).gt r.quantity.toNumber = false) ∧
    (∀ (i : Nat) (hi : i < (bestSelling sales).length),
      ((bestSelling sales).get ⟨i, hi⟩).fill = COLORS.getD (i % COLORS.length) "") := by
  obtain ⟨hnodup, hget⟩ := bestSelling_loop sales hnames
  simp only [bestSelling]
  generalize sales.foldl bestSellingStep [] = m at hnodup hget
  -- the sorted entries
  have hperm : (jsSort (fun a b : String × TallyVal => b.2.toNumber.sub a.2.toNumber)
      (JsDict.entries m)).Perm m :=
    (List.perm_insertionSort _ _).trans (JsDict.entries_perm m)
  generalize hS : jsSort (fun a b : String × TallyVal => b.2.toNumber.sub a.2.toNumber)
      (JsDict.entries m) = S at hperm
  have hentry : ∀ e ∈ S, e.1 ∈ sales.map (fun s => s.productName) ∧
      e.2 = TallyVal.num (soldTally e.1 sales) := by
    intro e he
    have h1 := JsDict.getOwn_of_mem hnodup (show (e.1, e.2) ∈ m from hperm.mem_iff.1 he)
    rw [hget] at h1
    split_ifs at h1 with hc
    exact ⟨hc, (Option.some.inj h1).symm⟩
  have hfin : ∀ e ∈ S, ∃ q, e.2 = TallyVal.num (JsNum.fin q) := by
    intro e he
    obtain ⟨q, hq⟩ := soldTally_fin e.1 sales
    exact ⟨q, by rw [(hentry e he).2, hq]⟩
  have hSnodup : (S.map Prod.fst).Nodup := (hperm.map _).nodup_iff.2 hnodup
  have hsorted : List.Sorted
      (sortBefore (fun a b : String × TallyVal => b.2.toNumber.sub a.2.toNumber)) S := by
    rw [← hS]
    have hfinE : ∀ e ∈ JsDict.entries m, ∃ q, e.2 = TallyVal.num (JsNum.fin q) := by
      intro e he
      apply hfin e
      rw [← hS]
      exact (List.mem_insertionSort _).2 he
    apply sorted_insertionSort_of
    · intro x hx y hy
      obtain ⟨qx, hqx⟩ := hfinE x hx
      obtain ⟨qy, hqy⟩ := hfinE y hy
      rw [sortBefore_tally_iff x y qx qy hqx hqy, sortBefore_tally_iff y x qy qx hqy hqx]
      exact le_total qy qx
    · intro x hx y hy z hz
      obtain ⟨qx, hqx⟩ := hfinE x hx
      obtain ⟨qy, hqy⟩ := hfinE y hy
      obtain ⟨qz, hqz⟩ := hfinE z hz
      rw [sortBefore_tally_iff x y qx qy hqx hqy, sortBefore_tally_iff y z qy qz hqy hqz,
        sortBefore_tally_iff x z qx qz hqx hqz]
      intro h1 h2
      exact le_trans h2 h1
  -- the listed elements
  have hname : (List.mapIdx (fun i (e : String × TallyVal) =>
        ({ name := e.1, quantity := e.2, fill := COLORS.getD (i % COLORS.length) "" } :
          BestSeller)) (S.take 5)).map (fun r => r.name) = (S.take 5).map Prod.fst :=
    map_mapIdx_of (fun i (e : String × TallyVal) =>
        ({ name := e.1, quantity := e.2, fill := COLORS.getD (i % COLORS.length) "" } :
          BestSeller))
      (fun r => r.name) Prod.fst (fun _ _ => rfl) (S.take 5)
  have hpair : (List.mapIdx (fun i (e : String × TallyVal) =>
        ({ name := e.1, quantity := e.2, fill := COLORS.getD (i % COLORS.length) "" } :
          BestSeller)) (S.take 5)).map (fun r => (r.name, r.quantity)) = S.take 5 :=
    (map_mapIdx_of (fun i (e : String × TallyVal) =>
        ({ name := e.1, quantity := e.2, fill := COLORS.getD (i % COLORS.length) "" } :
          BestSeller))
      (fun r => (r.name, r.quantity)) id (fun _ _ => rfl) (S.take 5)).trans (List.map_id _)
  have hlisted : ∀ r ∈ List.mapIdx (fun i (e : String × TallyVal) =>
        ({ name := e.1, quantity := e.2, fill := COLORS.getD (i % COLORS.length) "" } :
          BestSeller)) (S.take 5), (r.name, r.quantity) ∈ S.take 5 := by
    intro r hr
    rw [← hpair]
    exact List.mem_map_of_mem _ hr
  have htake : ∀ e ∈ S.take 5, e ∈ S := fun e he => List.mem_of_mem_take he
  have hsplit := hsorted
  rw [← List.take_append_drop 5 S] at hsplit
  obtain ⟨hsortedTake, -, hcross⟩ := List.pairwise_append.1 hsplit
  refine ⟨?_, ?_, ?_, ?_, ?_, ?_⟩
  · rw [List.length_mapIdx, List.length_take]
    have hlen : S.length = (setInsertionOrder (sales.map (fun s => s.productName))).length := by
      have h1 : (m.map Prod.fst).Perm (setInsertionOrder (sales.map (fun s => s.productName))) := by
        rw [List.perm_ext_iff_of_nodup hnodup (nodup_setInsertionOrder _)]
        intro k
        rw [mem_setInsertionOrder]
        constructor
        · intro hk
          by_contra hc
          have := (JsDict.getOwn_eq_none_iff m k).1 (by rw [hget, if_neg hc])
          exact this hk
        · intro hk
          by_contra hc
          have h2 := (JsDict.getOwn_eq_none_iff m k).2 hc
          rw [hget, if_pos hk] at h2
          exact absurd h2 (by simp)
      rw [← h1.length_eq, List.length_map, hperm.length_eq]
    rw [hlen]
  · rw [hname]
    exact (hSnodup.sublist ((List.take_sublist 5 S).map _))
  · intro r hr
    exact hentry (r.name, r.quantity) (htake _ (hlisted r hr))
  · have hq : (List.mapIdx (fun i (e : String × TallyVal) =>
        ({ name := e.1, quantity := e.2, fill := COLORS.getD (i % COLORS.length) "" } :
          BestSeller)) (S.take 5)).Pairwise
        (fun a b => sortBefore (fun a b : String × TallyVal => b.2.toNumber.sub a.2.toNumber)
          (a.name, a.quantity) (b.name, b.quantity)) := by
      rw [← List.pairwise_map (f := fun r : BestSeller => (r.name, r.quantity))
        (R := sortBefore (fun a b : String × TallyVal => b.2.toNumber.sub a.2.toNumber)), hpair]
      exact hsortedTake
    refine List.Pairwise.imp_of_mem ?_ hq
    intro a b ha hb hab
    obtain ⟨qa, hqa⟩ := hfin _ (htake _ (hlisted a ha))
    obtain ⟨qb, hqb⟩ := hfin _ (htake _ (hlisted b hb))
    rw [sortBefore_tally_iff _ _ qa qb hqa hqb] at hab
    simp only at hqa hqb
    simp [hqa, hqb, TallyVal.toNumber, JsNum.le, hab]
  · intro name hmem hnot r hr
    rw [hname] at hnot
    obtain ⟨e, heS, hek⟩ : ∃ e ∈ S, e.1 = name := by
      have hk : name ∈ m.map Prod.fst := by
        by_contra hc
        have h2 := (JsDict.getOwn_eq_none_iff m name).2 hc
        rw [hget, if_pos hmem] at h2
        exact absurd h2 (by simp)
      obtain ⟨e, he, hek⟩ := List.mem_map.1 hk
      exact ⟨e, hperm.mem_iff.2 he, hek⟩
    have hdrop : e ∈ S.drop 5 := by
      have h3 : e ∈ S.take 5 ++ S.drop 5 := by rw [List.take_append_drop]; exact heS
      rcases List.mem_append.1 h3 with h4 | h4
      · exact absurd (List.mem_map.2 ⟨e, h4, hek⟩) hnot
      · exact h4
    have hrel := hcross _ (hlisted r hr) e hdrop
    obtain ⟨qr, hqr⟩ := hfin _ (htake _ (hlisted r hr))
    obtain ⟨qe, hqe⟩ := hfin e heS
    rw [sortBefore_tally_iff _ _ qr qe hqr hqe] at hrel
    have he2 := (hentry e heS).2
    rw [hek, hqe] at he2
    simp only at hqr
    have hval : soldTally name sales = JsNum.fin qe := by
      injection he2 with h5
      exact h5.symm
    rw [hval, hqr]
    simp [TallyVal.toNumber, JsNum.gt, JsNum.lt, hrel]
  · intro i hi
    rw [List.get_eq_getElem, List.getElem_mapIdx]

/-! ## Sums are independent of the order of the records -/

lemma JsNum.add_right_comm (a b c : JsNum) : (a.add b).add c = (a.add c).add b := by
  cases a <;> cases b <;> cases c <;> simp only [JsNum.add, JsNum.fin.injEq]; ring

lemma foldl_add_perm {α : Type} (f : α → JsNum) {l₁ l₂ : List α} (h : l₁.Perm l₂) (a : JsNum) :
    l₁.foldl (fun acc cur => acc.add (f cur)) a = l₂.foldl (fun acc cur => acc.add (f cur)) a :=
  h.foldl_eq' (fun x _ y _ z => JsNum.add_right_comm z (f x) (f y)) a

lemma getAvailableQuantity_perm (product : String) {stock₁ stock₂ : List Entry}
    (h : stock₁.Perm stock₂) (salesData : List Entry) :
    getAvailableQuantity product stock₁ salesData =
      getAvailableQuantity product stock₂ salesData := by
  unfold getAvailableQuantity sumParseIntQuantity forProduct
  rw [foldl_add_perm (fun cur : Entry => parseInt cur.quantity) (h.filter _) JsNum.zero]

/-! ## The products on offer -/

/-- C24: `getAvailableProducts` returns the product names of the stock log
whose available quantity is greater than zero, each once; a name whose
available quantity is not greater than zero, or that no stock record bears (a
name of the sales log only), is not returned.  The list the sales page offers
is the same list, sorted. -/
theorem getAvailableProducts_are_the_stocked_names_available
    (stockData salesData : List Entry) :
    (∀ name, name ∈ getAvailableProducts stockData salesData ↔
      name ∈ stockData.map (fun i => i.productName) ∧
        (getAvailableQuantity name stockData salesData).gt JsNum.zero = true) ∧
    (getAvailableProducts stockData salesData).Nodup ∧
    (∀ name, name ∈ getAvailableProducts stockData salesData →
      (getAvailableProducts stockData salesData).count name = 1) ∧
    (∀ name, (getAvailableQuantity name stockData salesData).le JsNum.zero = true →
      name ∉ getAvailableProducts stockData salesData) ∧
    (∀ name, name ∉ stockData.map (fun i => i.productName) →
      name ∉ getAvailableProducts stockData salesData) ∧
    (∀ st : SalesPage,
      (availableProducts st).Perm (getAvailableProducts st.stockData st.salesData)) ∧
    getAvailableProducts stockThreeProducts salesThreeProducts = ["B", "C"] := by
  have hmem : ∀ name, name ∈ getAvailableProducts stockData salesData ↔
      name ∈ stockData.map (fun i => i.productName) ∧
        (getAvailableQuantity name stockData salesData).gt JsNum.zero = true := by
    intro name
    unfold getAvailableProducts
    rw [List.mem_filter, mem_setInsertionOrder]
  have hnodup : (getAvailableProducts stockData salesData).Nodup :=
    (nodup_setInsertionOrder _).filter _
  refine ⟨hmem, hnodup, ?_, ?_, ?_, ?_, ?_⟩
  · intro name hname
    exact List.count_eq_one_of_mem hnodup hname
  · intro name hle hname
    have hgt := ((hmem name).1 hname).2
    cases hq : getAvailableQuantity name stockData salesData with
    | nan => rw [hq] at hle; simp [JsNum.le] at hle
    | fin q =>
      rw [hq] at hle hgt
      simp only [JsNum.le, JsNum.gt, JsNum.lt, JsNum.zero, decide_eq_true_eq] at hle hgt
      exact absurd hgt (not_lt.2 hle)
  · intro name hname hmem2
    exact hname ((hmem name).1 hmem2).1
  · intro st
    exact List.perm_insertionSort _ _
  · with_unfolding_all decide

/-! ## Delete and undo -/

lemma perm_get_cons_eraseIdx {α : Type} (l : List α) (i : Nat) (hi : i < l.length) :
    l.Perm (l.get ⟨i, hi⟩ :: l.eraseIdx i) := by
  induction l generalizing i with
  | nil => simp at hi
  | cons x xs ih =>
    cases i with
    | zero => simp
    | succ j =>
      have hj : j < xs.length := by simpa using hi
      simp only [List.get_cons_succ, List.eraseIdx_cons_succ]
      exact ((ih j hj).cons x).trans (List.Perm.swap _ _ _)

lemma dropLast_append_singleton {α : Type} (l : List α) (x : α) : (l ++ [x]).dropLast = l := by
  simp

lemma handleUndo_of_append (s : StockPage) (stack : List Entry) (x : Entry)
    (h : s.undoStack = stack ++ [x]) :
    handleUndo s = { s with stockEntries := s.stockEntries ++ [x], undoStack := stack } := by
  simp [handleUndo, h]

/-- C30: for a valid index `i`, `handleDelete` at `i` followed by `handleUndo`
leaves the log with the entry formerly at `i` moved to the end (the log itself
when `i` is the last index), leaves the undo stack as it was, and so leaves
`getAvailableQuantity` unchanged for every product and every sales log. -/
theorem handleUndo_after_handleDelete_moves_entry_to_end (st : StockPage) (i : Nat)
    (hi : i < st.stockEntries.length) :
    ∃ st1, handleDelete (setConfirmDeleteIndex i st) = some st1 ∧
      (handleUndo st1).stockEntries =
        st.stockEntries.eraseIdx i ++ [st.stockEntries.get ⟨i, hi⟩] ∧
      (i + 1 = st.stockEntries.length → (handleUndo st1).stockEntries = st.stockEntries) ∧
      (handleUndo st1).undoStack = st.undoStack ∧
      (handleUndo st1).stockEntries.Perm st.stockEntries ∧
      ∀ product salesData,
        getAvailableQuantity product (handleUndo st1).stockEntries salesData =
          getAvailableQuantity product st.stockEntries salesData := by
  have hget : st.stockEntries.get? i = some (st.stockEntries.get ⟨i, hi⟩) :=
    List.get?_eq_get hi
  have hperm : (st.stockEntries.eraseIdx i ++ [st.stockEntries.get ⟨i, hi⟩]).Perm
      st.stockEntries :=
    (List.perm_append_singleton _ _).trans (perm_get_cons_eraseIdx st.stockEntries i hi).symm
  have hdel : handleDelete (setConfirmDeleteIndex i st) =
      some { st with
        undoStack := st.undoStack ++ [st.stockEntries.get ⟨i, hi⟩]
        stockEntries := st.stockEntries.eraseIdx i
        confirmDeleteIndex := none } := by
    simp only [handleDelete, setConfirmDeleteIndex, hget]
  refine ⟨_, hdel, ?_, ?_, ?_, ?_, ?_⟩
  · simp [handleUndo]
  · intro hlast
    have hentries : (handleUndo { st with
        undoStack := st.undoStack ++ [st.stockEntries.get ⟨i, hi⟩]
        stockEntries := st.stockEntries.eraseIdx i
        confirmDeleteIndex := none }).stockEntries =
        st.stockEntries.eraseIdx i ++ [st.stockEntries.get ⟨i, hi⟩] := by
      simp [handleUndo]
    rw [hentries]
    have hi2 : i = st.stockEntries.length - 1 := by omega
    subst hi2
    rw [List.eraseIdx_eq_take_drop_succ]
    have hdrop : List.drop (st.stockEntries.length - 1 + 1) st.stockEntries = [] :=
      List.drop_eq_nil_of_le (by omega)
    rw [hdrop, List.append_nil]
    conv_rhs => rw [← List.take_append_drop (st.stockEntries.length - 1) st.stockEntries]
    rw [List.drop_eq_getElem_cons hi, hdrop]
    rfl
  · simp [handleUndo]
  · simpa [handleUndo] using hperm
  · intro product salesData
    apply getAvailableQuantity_perm
    simpa [handleUndo] using hperm

/-- C30, on the page holding a record of A and a record of B: deleting the
record of A and undoing leaves the log `[B, A]`. -/
theorem handleUndo_after_handleDelete_moves_entry_to_end_witness :
    0 < stockPageTwoRecords.stockEntries.length ∧
    ∃ st1, handleDelete (setConfirmDeleteIndex 0 stockPageTwoRecords) = some st1 ∧
      (handleUndo st1).stockEntries =
        [stockRecord "B" 3 4 "2024-01-06", stockRecord "A" 10 5 "2024-01-05"] ∧
      (handleUndo st1).undoStack = [] :=
  ⟨by decide,
    (handleUndo_after_handleDelete_moves_entry_to_end stockPageTwoRecords 0 (by decide)).elim
      (fun st1 h => ⟨st1, h.1, h.2.1, h.2.2.2.1⟩)⟩

/-! ## The undo stack -/

/-- C23, as the claim states it, fails: on the page holding a record of A and a
record of B with nothing to undo, deleting A and then B leaves two records in
the undo buffer, and the second undo restores A. -/
theorem undoStack_holds_two_records :
    ¬ ∀ (st st1 st2 : StockPage), st.undoStack = [] →
        handleDelete (setConfirmDeleteIndex 0 st) = some st1 →
        handleDelete (setConfirmDeleteIndex 0 st1) = some st2 →
        st2.undoStack.length ≤ 1 ∧
        (handleUndo (handleUndo st2)).stockEntries = (handleUndo st2).stockEntries := by
  intro h
  have h1 := h stockPageTwoRecords
    { stockPageTwoRecords with
      stockEntries := [stockRecord "B" 3 4 "2024-01-06"]
      undoStack := [stockRecord "A" 10 5 "2024-01-05"] }
    { stockPageTwoRecords with
      stockEntries := []
      undoStack := [stockRecord "A" 10 5 "2024-01-05", stockRecord "B" 3 4 "2024-01-06"] }
    rfl rfl rfl
  exact absurd h1.1 (by decide)

/-- C23, as amended: the undo buffer is a stack.  `handleDelete` pushes the
deleted record on it, whatever it holds; `handleUndo` restores the record
deleted last among those not yet restored and takes it off; with nothing on
the stack it changes nothing.  After deleting A and then B, one undo restores
B and a second undo restores A, the stack being then as before the deletes. -/
theorem undoStack_is_a_stack (st : StockPage) (i j : Nat) (a b : Entry)
    (ha : st.stockEntries.get? i = some a)
    (hb : (st.stockEntries.eraseIdx i).get? j = some b) :
    (∀ s s1 : StockPage, handleDelete s = some s1 →
      ∃ deleted, s.confirmDeleteIndex.bind (fun k => s.stockEntries.get? k) = some deleted ∧
        s1.undoStack = s.undoStack ++ [deleted]) ∧
    (∀ s : StockPage, (handleUndo s).undoStack = s.undoStack.dropLast ∧
      (handleUndo s).stockEntries = s.stockEntries ++ s.undoStack.getLast?.toList) ∧
    (∀ s : StockPage, s.undoStack = [] → handleUndo s = s) ∧
    ∃ st1 st2,
      handleDelete (setConfirmDeleteIndex i st) = some st1 ∧
      st1.undoStack = st.undoStack ++ [a] ∧
      handleDelete (setConfirmDeleteIndex j st1) = some st2 ∧
      st2.undoStack = st.undoStack ++ [a, b] ∧
      (handleUndo st2).stockEntries = st2.stockEntries ++ [b] ∧
      (handleUndo st2).undoStack = st.undoStack ++ [a] ∧
      (handleUndo (handleUndo st2)).stockEntries = st2.stockEntries ++ [b, a] ∧
      (handleUndo (handleUndo st2)).undoStack = st.undoStack := by
  refine ⟨?_, ?_, ?_, ?_⟩
  · intro s s1 h
    unfold handleDelete at h
    cases hc : s.confirmDeleteIndex with
    | none => rw [hc] at h; simp at h
    | some k =>
      rw [hc] at h
      dsimp only at h
      cases hk : s.stockEntries.get? k with
      | none => rw [hk] at h; exact absurd h (by simp)
      | some deleted =>
        rw [hk] at h
        simp only [Option.some.injEq] at h
        exact ⟨deleted, hk, by rw [← h]⟩
  · intro s
    unfold handleUndo
    cases hl : s.undoStack.getLast? with
    | none =>
      have hnil : s.undoStack = [] := List.getLast?_eq_none_iff.1 hl
      simp [hnil]
    | some x => simp
  · intro s hs
    simp [handleUndo, hs]
  · have hdel1 : handleDelete (setConfirmDeleteIndex i st) =
        some { st with
          undoStack := st.undoStack ++ [a]
          stockEntries := st.stockEntries.eraseIdx i
          confirmDeleteIndex := none } := by
      simp only [handleDelete, setConfirmDeleteIndex, ha]
    have hdel2 : handleDelete (setConfirmDeleteIndex j { st with
          undoStack := st.undoStack ++ [a]
          stockEntries := st.stockEntries.eraseIdx i
          confirmDeleteIndex := none }) =
        some { st with
          undoStack := st.undoStack ++ [a, b]
          stockEntries := (st.stockEntries.eraseIdx i).eraseIdx j
          confirmDeleteIndex := none } := by
      simp only [handleDelete, setConfirmDeleteIndex, hb, List.append_assoc,
        List.singleton_append]
    have hundo1 := handleUndo_of_append
      { st with
          undoStack := st.undoStack ++ [a, b]
          stockEntries := (st.stockEntries.eraseIdx i).eraseIdx j
          confirmDeleteIndex := none }
      (st.undoStack ++ [a]) b (by simp)
    have hundo2 := handleUndo_of_append
      { st with
          undoStack := st.undoStack ++ [a]
          stockEntries := (st.stockEntries.eraseIdx i).eraseIdx j ++ [b]
          confirmDeleteIndex := none }
      st.undoStack a rfl
    refine ⟨_, _, hdel1, rfl, hdel2, rfl, ?_, ?_, ?_, ?_⟩
    · rw [hundo1]
    · rw [hundo1]
    · rw [hundo1]
      show (handleUndo { st with
          undoStack := st.undoStack ++ [a]
          stockEntries := (st.stockEntries.eraseIdx i).eraseIdx j ++ [b]
          confirmDeleteIndex := none }).stockEntries = _
      rw [hundo2]
      simp
    · rw [hundo1]
      show (handleUndo { st with
          undoStack := st.undoStack ++ [a]
          stockEntries := (st.stockEntries.eraseIdx i).eraseIdx j ++ [b]
          confirmDeleteIndex := none }).undoStack = _
      rw [hundo2]

/-- C23, as amended, on the page holding a record of A and a record of B:
after both are deleted, two undos bring back B and then A. -/
theorem undoStack_is_a_stack_witness :
    stockPageTwoRecords.stockEntries.get? 0 = some (stockRecord "A" 10 5 "2024-01-05") ∧
    (stockPageTwoRecords.stockEntries.eraseIdx 0).get? 0 =
      some (stockRecord "B" 3 4 "2024-01-06") ∧
    ∃ st1 st2,
      handleDelete (setConfirmDeleteIndex 0 stockPageTwoRecords) = some st1 ∧
      handleDelete (setConfirmDeleteIndex 0 st1) = some st2 ∧
      (handleUndo (handleUndo st2)).stockEntries =
        st2.stockEntries ++ [stockRecord "B" 3 4 "2024-01-06", stockRecord "A" 10 5 "2024-01-05"] :=
  ⟨rfl, rfl,
    (undoStack_is_a_stack stockPageTwoRecords 0 0 _ _ rfl rfl).2.2.2.elim
      (fun st1 h1 => h1.elim
        (fun st2 h2 => ⟨st1, st2, h2.1, h2.2.2.1, h2.2.2.2.2.2.2.1⟩))⟩

/-! ## The filtered inventory and its totals -/

lemma includes_iff (s t : String) : includes s t = true ↔ t.data <:+: s.data := by
  unfold includes
  rw [List.any_eq_true]
  constructor
  · rintro ⟨u, hu, hp⟩
    rw [List.mem_tails] at hu
    rw [List.isPrefixOf_iff_prefix] at hp
    exact List.infix_iff_prefix_suffix.2 ⟨u, hp, hu⟩
  · intro h
    obtain ⟨u, hp, hu⟩ := List.infix_iff_prefix_suffix.1 h
    exact ⟨u, (List.mem_tails _ _).2 hu, List.isPrefixOf_iff_prefix.2 hp⟩

lemma count_filter_eq {α : Type} [DecidableEq α] (p : α → Bool) (l : List α) (a : α) :
    (l.filter p).count a = if p a = true then l.count a else 0 := by
  by_cases hp : p a = true
  · rw [if_pos hp]
    exact List.count_filter hp
  · rw [if_neg hp, List.count_eq_zero]
    intro hmem
    exact hp (List.mem_filter.1 hmem).2

lemma includes_empty (s : String) : includes s "" = true :=
  (includes_iff s "").2 List.nil_infix

lemma sortBefore_totalProfit_iff (a b : InventoryRow) (qa qb : ℚ)
    (ha : a.totalProfit = JsNum.fin qa) (hb : b.totalProfit = JsNum.fin qb) :
    sortBefore (fun a b : InventoryRow => b.totalProfit.sub a.totalProfit) a b ↔ qb ≤ qa := by
  unfold sortBefore
  simp only [ha, hb, JsNum.sub, JsNum.gt, JsNum.lt, JsNum.zero, decide_eq_false_iff_not, not_lt]
  constructor <;> intro h <;> linarith

lemma JsNum.exists_fin_of_isNaN {x : JsNum} (h : x.isNaN = false) : ∃ q, x = JsNum.fin q := by
  cases x with
  | nan => simp [JsNum.isNaN] at h
  | fin q => exact ⟨q, rfl⟩

/-- C21, as the claim states it, fails: with the search term `RICE` the rows
`Rice` and `rice flour` are shown, and neither name contains `RICE`.  And a row
whose `totalProfit` is `NaN` (a sale with an unreadable quantity) is ordered
with no other row: the profits 1 and 2 stay in increasing order around it. -/
theorem filteredInventory_ignores_case :
    (¬ ∀ (inventory : List InventoryRow) (searchTerm : String) (row : InventoryRow),
        row ∈ filteredInventory inventory searchTerm ↔
          row ∈ inventory ∧ includes row.productName searchTerm = true) ∧
    (filteredInventory (fetchInventoryData stockOneOfEach salesUnreadableQuantity) "").map
        (fun row => (row.productName, row.totalProfit)) =
      [("A", JsNum.fin 1), ("B", JsNum.nan), ("C", JsNum.fin 2)] := by
  constructor
  · intro h
    have h1 := (h (fetchInventoryData stockGrains salesGrains) "RICE"
      (inventoryRow stockGrains salesGrains "Rice")).1 (by with_unfolding_all decide)
    exact absurd h1.2 (by decide)
  · with_unfolding_all decide

/-- C21, as amended: `filteredInventory` is a permutation of the inventory rows
whose name, in lower case, contains the search term in lower case (of the whole
inventory when the search term is empty), and, when every `totalProfit` of the
inventory is a number, its rows are in non-increasing order of `totalProfit`. -/
theorem filteredInventory_perm_sorted (inventory : List InventoryRow) (searchTerm : String)
    (hnum : ∀ row ∈ inventory, row.totalProfit.isNaN = false) :
    (filteredInventory inventory searchTerm).Perm
      (inventory.filter
        (fun item => includes (toLowerCase item.productName) (toLowerCase searchTerm))) ∧
    (∀ row, (filteredInventory inventory searchTerm).count row =
      if (toLowerCase searchTerm).data <:+: (toLowerCase row.productName).data then
        inventory.count row
      else 0) ∧
    (∀ row, row ∈ filteredInventory inventory searchTerm ↔
      row ∈ inventory ∧ (toLowerCase searchTerm).data <:+: (toLowerCase row.productName).data) ∧
    List.Sorted (fun a b => b.totalProfit.le a.totalProfit = true)
      (filteredInventory inventory searchTerm) ∧
    (filteredInventory inventory "").Perm inventory := by
  have hperm : (filteredInventory inventory searchTerm).Perm
      (inventory.filter
        (fun item => includes (toLowerCase item.productName) (toLowerCase searchTerm))) :=
    List.perm_insertionSort _ _
  have hmem : ∀ row, row ∈ filteredInventory inventory searchTerm ↔
      row ∈ inventory ∧
        (toLowerCase searchTerm).data <:+: (toLowerCase row.productName).data := by
    intro row
    rw [hperm.mem_iff, List.mem_filter, includes_iff]
  refine ⟨hperm, ?_, hmem, ?_, ?_⟩
  · intro row
    rw [hperm.count_eq, count_filter_eq]
    by_cases hc : (toLowerCase searchTerm).data <:+: (toLowerCase row.productName).data
    · rw [if_pos hc, if_pos ((includes_iff _ _).2 hc)]
    · rw [if_neg hc, if_neg (fun h => hc ((includes_iff _ _).1 h))]
  · have hfin : ∀ row ∈ inventory.filter
        (fun item => includes (toLowerCase item.productName) (toLowerCase searchTerm)),
        ∃ q, row.totalProfit = JsNum.fin q := by
      intro row hrow
      exact JsNum.exists_fin_of_isNaN (hnum row (List.mem_filter.1 hrow).1)
    have hsorted : List.Sorted
        (sortBefore (fun a b : InventoryRow => b.totalProfit.sub a.totalProfit))
        (filteredInventory inventory searchTerm) := by
      unfold filteredInventory jsSort
      apply sorted_insertionSort_of
      · intro x hx y hy
        obtain ⟨qx, hqx⟩ := hfin x hx
        obtain ⟨qy, hqy⟩ := hfin y hy
        rw [sortBefore_totalProfit_iff x y qx qy hqx hqy,
          sortBefore_totalProfit_iff y x qy qx hqy hqx]
        exact le_total qy qx
      · intro x hx y hy z hz
        obtain ⟨qx, hqx⟩ := hfin x hx
        obtain ⟨qy, hqy⟩ := hfin y hy
        obtain ⟨qz, hqz⟩ := hfin z hz
        rw [sortBefore_totalProfit_iff x y qx qy hqx hqy,
          sortBefore_totalProfit_iff y z qy qz hqy hqz,
          sortBefore_totalProfit_iff x z qx qz hqx hqz]
        intro h1 h2
        exact le_trans h2 h1
    refine List.Pairwise.imp_of_mem ?_ hsorted
    intro a b ha hb hab
    obtain ⟨qa, hqa⟩ := hfin a (hperm.mem_iff.1 ha)
    obtain ⟨qb, hqb⟩ := hfin b (hperm.mem_iff.1 hb)
    rw [sortBefore_totalProfit_iff a b qa qb hqa hqb] at hab
    simp only [hqa, hqb, JsNum.le, decide_eq_true_eq]
    exact hab
  · have hall : inventory.filter
        (fun item => includes (toLowerCase item.productName) (toLowerCase "")) = inventory := by
      rw [List.filter_eq_self]
      intro row _
      exact includes_empty _
    have h := (List.perm_insertionSort
      (sortBefore (fun a b : InventoryRow => b.totalProfit.sub a.totalProfit))
      (inventory.filter
        (fun item => includes (toLowerCase item.productName) (toLowerCase ""))))
    rw [hall] at h
    unfold filteredInventory jsSort
    rw [hall]
    exact h

/-- C21 on the inventory of three products: the search term `RICE` shows
`Rice` (profit 12) before `rice flour` (profit 1). -/
theorem filteredInventory_perm_sorted_witness :
    (∀ row ∈ fetchInventoryData stockGrains salesGrains, row.totalProfit.isNaN = false) ∧
    (filteredInventory (fetchInventoryData stockGrains salesGrains) "RICE").map
        (fun row => (row.productName, row.totalProfit)) =
      [("Rice", JsNum.fin 12), ("rice flour", JsNum.fin 1)] ∧
    List.Sorted (fun a b => b.totalProfit.le a.totalProfit = true)
      (filteredInventory (fetchInventoryData stockGrains salesGrains) "RICE") :=
  ⟨by with_unfolding_all decide, by with_unfolding_all decide,
    (filteredInventory_perm_sorted (fetchInventoryData stockGrains salesGrains) "RICE"
      (by with_unfolding_all decide)).2.2.2.1⟩

lemma jsSum_perm {l₁ l₂ : List JsNum} (h : l₁.Perm l₂) : jsSum l₁ = jsSum l₂ :=
  foldl_add_perm (fun x => x) h JsNum.zero

lemma jsSum_eq_sum (xs : List JsNum) (h : ∀ x ∈ xs, x.isNaN = false) :
    jsSum xs = JsNum.fin ((xs.map JsNum.toRat).sum) := by
  have key : ∀ (l : List JsNum) (a : ℚ), (∀ x ∈ l, x.isNaN = false) →
      l.foldl (fun acc x => acc.add x) (JsNum.fin a) =
        JsNum.fin (a + (l.map JsNum.toRat).sum) := by
    intro l
    induction l with
    | nil => intro a _; simp
    | cons x xs ih =>
      intro a hx
      obtain ⟨q, hq⟩ := JsNum.exists_fin_of_isNaN (hx x (List.mem_cons_self _ _))
      have hstep : (JsNum.fin a).add x = JsNum.fin (a + q) := by rw [hq]; rfl
      rw [List.foldl_cons, hstep, ih (a + q) (fun y hy => hx y (List.mem_cons_of_mem _ hy))]
      simp only [List.map_cons, List.sum_cons, hq, JsNum.toRat, add_assoc]
  have h0 := key xs 0 h
  rw [zero_add] at h0
  exact h0

lemma totals_foldl (rows : List InventoryRow) (acc : Totals) :
    rows.foldl
      (fun acc item =>
        ({ openingStock := acc.openingStock.add item.openingStock
           soldQuantity := acc.soldQuantity.add item.soldQuantity
           remainingStock := acc.remainingStock.add item.remainingStock
           totalProfit := acc.totalProfit.add item.totalProfit
           stockValue := acc.stockValue.add item.stockValue } : Totals))
      acc =
    { openingStock :=
        (rows.map (fun r => r.openingStock)).foldl (fun a x => a.add x) acc.openingStock
      soldQuantity :=
        (rows.map (fun r => r.soldQuantity)).foldl (fun a x => a.add x) acc.soldQuantity
      remainingStock :=
        (rows.map (fun r => r.remainingStock)).foldl (fun a x => a.add x) acc.remainingStock
      totalProfit :=
        (rows.map (fun r => r.totalProfit)).foldl (fun a x => a.add x) acc.totalProfit
      stockValue :=
        (rows.map (fun r => r.stockValue)).foldl (fun a x => a.add x) acc.stockValue } := by
  induction rows generalizing acc with
  | nil => rfl
  | cons r rs ih => rw [List.foldl_cons, ih]; rfl

lemma totals_eq (rows : List InventoryRow) :
    totals rows =
      { openingStock := jsSum (rows.map (fun r => r.openingStock))
        soldQuantity := jsSum (rows.map (fun r => r.soldQuantity))
        remainingStock := jsSum (rows.map (fun r => r.remainingStock))
        totalProfit := jsSum (rows.map (fun r => r.totalProfit))
        stockValue := jsSum (rows.map (fun r => r.stockValue)) } :=
  totals_foldl rows _

/-- C22: each of the five fields of `totals` is the sum of that field over the
rows of `filteredInventory`, that is over the inventory rows that pass the
name filter, whatever their order (a number when every summand is one); the
rows the filter leaves out do not count, and with no row shown the five totals
are 0.  On the inventory of three products the search term `RICE` gives the
totals of `Rice` and `rice flour`, not those of the whole inventory. -/
theorem totals_sum_the_filtered_rows (inventory : List InventoryRow) (searchTerm : String) :
    (∀ field : InventoryRow → JsNum,
      jsSum ((filteredInventory inventory searchTerm).map field) =
        jsSum ((inventory.filter
          (fun item => includes (toLowerCase item.productName) (toLowerCase searchTerm))).map
            field) ∧
      ((∀ row ∈ inventory, (field row).isNaN = false) →
        jsSum ((filteredInventory inventory searchTerm).map field) =
          JsNum.fin (((inventory.filter
            (fun item => includes (toLowerCase item.productName) (toLowerCase searchTerm))).map
              (fun row => (field row).toRat)).sum))) ∧
    (totals (filteredInventory inventory searchTerm)).openingStock =
      jsSum ((filteredInventory inventory searchTerm).map (fun row => row.openingStock)) ∧
    (totals (filteredInventory inventory searchTerm)).soldQuantity =
      jsSum ((filteredInventory inventory searchTerm).map (fun row => row.soldQuantity)) ∧
    (totals (filteredInventory inventory searchTerm)).remainingStock =
      jsSum ((filteredInventory inventory searchTerm).map (fun row => row.remainingStock)) ∧
    (totals (filteredInventory inventory searchTerm)).totalProfit =
      jsSum ((filteredInventory inventory searchTerm).map (fun row => row.totalProfit)) ∧
    (totals (filteredInventory inventory searchTerm)).stockValue =
      jsSum ((filteredInventory inventory searchTerm).map (fun row => row.stockValue)) ∧
    (filteredInventory inventory searchTerm = [] →
      totals (filteredInventory inventory searchTerm) =
        { openingStock := JsNum.fin 0, soldQuantity := JsNum.fin 0,
          remainingStock := JsNum.fin 0, totalProfit := JsNum.fin 0,
          stockValue := JsNum.fin 0 }) ∧
    totals (filteredInventory (fetchInventoryData stockGrains salesGrains) "RICE") =
      { openingStock := JsNum.fin 16, soldQuantity := JsNum.fin 5,
        remainingStock := JsNum.fin 11, totalProfit := JsNum.fin 13,
        stockValue := JsNum.fin 45 } ∧
    totals (filteredInventory (fetchInventoryData stockGrains salesGrains) "") =
      { openingStock := JsNum.fin 20, soldQuantity := JsNum.fin 7,
        remainingStock := JsNum.fin 13, totalProfit := JsNum.fin 23,
        stockValue := JsNum.fin 49 } := by
  have hperm : (filteredInventory inventory searchTerm).Perm
      (inventory.filter
        (fun item => includes (toLowerCase item.productName) (toLowerCase searchTerm))) :=
    List.perm_insertionSort _ _
  refine ⟨?_, ?_, ?_, ?_, ?_, ?_, ?_, ?_, ?_⟩
  · intro field
    have h1 := jsSum_perm (hperm.map field)
    refine ⟨h1, ?_⟩
    intro hnum
    rw [h1, jsSum_eq_sum, List.map_map]
    · rfl
    · intro x hx
      obtain ⟨row, hrow, rfl⟩ := List.mem_map.1 hx
      exact hnum row (List.mem_filter.1 hrow).1
  · rw [totals_eq]
  · rw [totals_eq]
  · rw [totals_eq]
  · rw [totals_eq]
  · rw [totals_eq]
  · intro hnil
    rw [hnil]
    rfl
  · with_unfolding_all decide
  · with_unfolding_all decide

/-! ## The average prices lie between the prices -/

lemma exists_fin_of_le_left {x y : JsNum} (h : x.le y = true) : ∃ q, x = JsNum.fin q := by
  cases x with
  | nan => simp [JsNum.le] at h
  | fin q => exact ⟨q, rfl⟩

lemma exists_fin_of_le_right {x y : JsNum} (h : x.le y = true) : ∃ q, y = JsNum.fin q := by
  cases x <;> cases y <;> simp [JsNum.le] at h ⊢

lemma sumValue_eq_sum (log : List Entry) (p q : Entry → ℚ)
    (hq : ∀ e ∈ log, parseFloatOrZero e.quantity = JsNum.fin (q e))
    (hp : ∀ e ∈ log, parseFloatOrZero e.price = JsNum.fin (p e)) :
    sumValue log = JsNum.fin ((log.map (fun e => p e * q e)).sum) := by
  unfold sumValue
  have h := foldl_add_eq_sum
    (fun cur : Entry => (parseFloatOrZero cur.price).mul (parseFloatOrZero cur.quantity))
    (fun e => p e * q e) log (fun e he => by show (parseFloatOrZero e.price).mul (parseFloatOrZero e.quantity) = _; rw [hq e he, hp e he]; rfl) 0
  rw [zero_add] at h
  exact h

lemma sumQuantity_eq_sum_of (log : List Entry) (q : Entry → ℚ)
    (hq : ∀ e ∈ log, parseFloatOrZero e.quantity = JsNum.fin (q e)) :
    sumQuantity log = JsNum.fin ((log.map q).sum) := by
  unfold sumQuantity
  have h := foldl_add_eq_sum (fun cur : Entry => parseFloatOrZero cur.quantity) q log hq 0
  rw [zero_add] at h
  exact h

lemma sum_mul_le_of_le (log : List Entry) (p q : Entry → ℚ) (hi : ℚ)
    (hq : ∀ e ∈ log, 0 ≤ q e) (hp : ∀ e ∈ log, p e ≤ hi) :
    (log.map (fun e => p e * q e)).sum ≤ hi * (log.map q).sum := by
  induction log with
  | nil => simp
  | cons e es ih =>
    simp only [List.map_cons, List.sum_cons]
    have h1 := ih (fun x hx => hq x (List.mem_cons_of_mem _ hx))
      (fun x hx => hp x (List.mem_cons_of_mem _ hx))
    have h2 : p e * q e ≤ hi * q e :=
      mul_le_mul_of_nonneg_right (hp e (List.mem_cons_self _ _)) (hq e (List.mem_cons_self _ _))
    linarith

lemma le_sum_mul_of_le (log : List Entry) (p q : Entry → ℚ) (lo : ℚ)
    (hq : ∀ e ∈ log, 0 ≤ q e) (hp : ∀ e ∈ log, lo ≤ p e) :
    lo * (log.map q).sum ≤ (log.map (fun e => p e * q e)).sum := by
  induction log with
  | nil => simp
  | cons e es ih =>
    simp only [List.map_cons, List.sum_cons]
    have h1 := ih (fun x hx => hq x (List.mem_cons_of_mem _ hx))
      (fun x hx => hp x (List.mem_cons_of_mem _ hx))
    have h2 : lo * q e ≤ p e * q e :=
      mul_le_mul_of_nonneg_right (hp e (List.mem_cons_self _ _)) (hq e (List.mem_cons_self _ _))
    linarith

lemma sum_pos_of_exists (log : List Entry) (q : Entry → ℚ) (hq : ∀ e ∈ log, 0 ≤ q e)
    (hpos : ∃ e ∈ log, 0 < q e) : 0 < (log.map q).sum := by
  induction log with
  | nil => obtain ⟨e, he, _⟩ := hpos; simp at he
  | cons x xs ih =>
    simp only [List.map_cons, List.sum_cons]
    have hxs : 0 ≤ (xs.map q).sum :=
      List.sum_nonneg (fun y hy => by
        obtain ⟨e, he, rfl⟩ := List.mem_map.1 hy
        exact hq e (List.mem_cons_of_mem _ he))
    obtain ⟨e, he, hepos⟩ := hpos
    rcases List.mem_cons.1 he with rfl | he2
    · linarith
    · have := ih (fun y hy => hq y (List.mem_cons_of_mem _ hy)) ⟨e, he2, hepos⟩
      have := hq x (List.mem_cons_self _ _)
      linarith

/-- The quotient of the value of a log by its quantity lies between any lower
and any upper bound of its prices, the quantities being non-negative and not
all zero. -/
lemma average_between (log : List Entry)
    (hqty : ∀ e ∈ log, JsNum.zero.le (parseFloatOrZero e.quantity) = true)
    (hprice : ∀ e ∈ log, (parseFloatOrZero e.price).isNaN = false)
    (hpos : ∃ e ∈ log, (parseFloatOrZero e.quantity).gt JsNum.zero = true) :
    (sumQuantity log).gt JsNum.zero = true ∧
    ∃ c, (sumValue log).div (sumQuantity log) = JsNum.fin c ∧
      (∀ lo : ℚ, (∀ e ∈ log, (JsNum.fin lo).le (parseFloatOrZero e.price) = true) → lo ≤ c) ∧
      (∀ hi : ℚ, (∀ e ∈ log, (parseFloatOrZero e.price).le (JsNum.fin hi) = true) → c ≤ hi) := by
  have hq : ∀ e ∈ log, parseFloatOrZero e.quantity =
      JsNum.fin (parseFloatOrZero e.quantity).toRat := by
    intro e he
    obtain ⟨q, hq⟩ := exists_fin_of_le_right (hqty e he)
    rw [hq]; rfl
  have hp : ∀ e ∈ log, parseFloatOrZero e.price =
      JsNum.fin (parseFloatOrZero e.price).toRat := by
    intro e he
    obtain ⟨q, hq⟩ := JsNum.exists_fin_of_isNaN (hprice e he)
    rw [hq]; rfl
  have hq0 : ∀ e ∈ log, 0 ≤ (parseFloatOrZero e.quantity).toRat := by
    intro e he
    have h := hqty e he
    rw [hq e he] at h
    simpa [JsNum.le, JsNum.zero] using h
  have hsum : 0 < (log.map (fun e => (parseFloatOrZero e.quantity).toRat)).sum := by
    apply sum_pos_of_exists log _ hq0
    obtain ⟨e, he, hgt⟩ := hpos
    refine ⟨e, he, ?_⟩
    rw [hq e he] at hgt
    simpa [JsNum.gt, JsNum.lt, JsNum.zero] using hgt
  rw [sumQuantity_eq_sum_of log _ hq, sumValue_eq_sum log _ _ hq hp]
  refine ⟨by simpa [JsNum.gt, JsNum.lt, JsNum.zero] using hsum,
    (log.map (fun e => (parseFloatOrZero e.price).toRat *
        (parseFloatOrZero e.quantity).toRat)).sum /
      (log.map (fun e => (parseFloatOrZero e.quantity).toRat)).sum, ?_, ?_, ?_⟩
  · simp only [JsNum.div]
    rw [if_neg (ne_of_gt hsum)]
  · intro lo hlo
    rw [le_div_iff₀ hsum]
    apply le_sum_mul_of_le log _ _ lo hq0
    intro e he
    have h := hlo e he
    rw [hp e he] at h
    simpa [JsNum.le] using h
  · intro hi hhi
    rw [div_le_iff₀ hsum]
    apply sum_mul_le_of_le log _ _ hi hq0
    intro e he
    have h := hhi e he
    rw [hp e he] at h
    simpa [JsNum.le] using h

lemma exists_le_all (log : List Entry) (f : Entry → ℚ) (hne : log ≠ []) :
    ∃ m ∈ log, ∀ e ∈ log, f m ≤ f e := by
  induction log with
  | nil => exact absurd rfl hne
  | cons x xs ih =>
    by_cases hxs : xs = []
    · subst hxs
      exact ⟨x, List.mem_cons_self _ _, fun e he => by
        rw [List.mem_singleton.1 he]⟩
    · obtain ⟨m, hm, hmin⟩ := ih hxs
      by_cases hle : f x ≤ f m
      · refine ⟨x, List.mem_cons_self _ _, fun e he => ?_⟩
        rcases List.mem_cons.1 he with rfl | he2
        · exact le_refl _
        · exact le_trans hle (hmin e he2)
      · refine ⟨m, List.mem_cons_of_mem _ hm, fun e he => ?_⟩
        rcases List.mem_cons.1 he with rfl | he2
        · exact le_of_lt (not_le.1 hle)
        · exact hmin e he2

/-- The average of `average_between` lies between the smallest and the largest
price of the log. -/
lemma average_between_extremes (log : List Entry)
    (hqty : ∀ e ∈ log, JsNum.zero.le (parseFloatOrZero e.quantity) = true)
    (hprice : ∀ e ∈ log, (parseFloatOrZero e.price).isNaN = false)
    (hpos : ∃ e ∈ log, (parseFloatOrZero e.quantity).gt JsNum.zero = true) :
    (sumQuantity log).gt JsNum.zero = true ∧
    ∃ c, (sumValue log).div (sumQuantity log) = JsNum.fin c ∧
      (∃ lowest ∈ log,
        (∀ e ∈ log, (parseFloatOrZero lowest.price).le (parseFloatOrZero e.price) = true) ∧
        (parseFloatOrZero lowest.price).le (JsNum.fin c) = true) ∧
      (∃ highest ∈ log,
        (∀ e ∈ log, (parseFloatOrZero e.price).le (parseFloatOrZero highest.price) = true) ∧
        (JsNum.fin c).le (parseFloatOrZero highest.price) = true) := by
  obtain ⟨hgt, c, hc, hlo, hhi⟩ := average_between log hqty hprice hpos
  have hne : log ≠ [] := by
    obtain ⟨e, he, _⟩ := hpos
    exact List.ne_nil_of_mem he
  have hp : ∀ e ∈ log, parseFloatOrZero e.price =
      JsNum.fin (parseFloatOrZero e.price).toRat := by
    intro e he
    obtain ⟨q, hq⟩ := JsNum.exists_fin_of_isNaN (hprice e he)
    rw [hq]; rfl
  refine ⟨hgt, c, hc, ?_, ?_⟩
  · obtain ⟨m, hm, hmin⟩ := exists_le_all log (fun e => (parseFloatOrZero e.price).toRat) hne
    have hall : ∀ e ∈ log,
        (parseFloatOrZero m.price).le (parseFloatOrZero e.price) = true := by
      intro e he
      rw [hp m hm, hp e he]
      simpa [JsNum.le] using hmin e he
    refine ⟨m, hm, hall, ?_⟩
    have h1 := hlo (parseFloatOrZero m.price).toRat (fun e he => by
      have := hall e he
      rwa [hp m hm] at this)
    rw [hp m hm]
    simpa [JsNum.le] using h1
  · obtain ⟨m, hm, hmax⟩ := exists_le_all log (fun e => -(parseFloatOrZero e.price).toRat) hne
    have hall : ∀ e ∈ log,
        (parseFloatOrZero e.price).le (parseFloatOrZero m.price) = true := by
      intro e he
      rw [hp m hm, hp e he]
      have := hmax e he
      simp only [neg_le_neg_iff] at this
      simpa [JsNum.le] using this
    refine ⟨m, hm, hall, ?_⟩
    have h1 := hhi (parseFloatOrZero m.price).toRat (fun e he => by
      have := hall e he
      rwa [hp m hm] at this)
    rw [hp m hm]
    simpa [JsNum.le] using h1

/-- C29: for a product that has stock entries, all of quantity greater than
zero and of price at least zero, `avgCostPrice` is a number that lies between
the smallest and the largest unit price of the product's stock entries, both
included.  Likewise `avgSellPrice` lies between the smallest and the largest
price of the product's sales, when these have quantities that are not negative,
one at least greater than zero, and prices at least zero. -/
theorem avgCostPrice_between_smallest_and_largest_price
    (stockEntries salesEntries : List Entry) (product : String)
    (hstock : ∀ e ∈ forProduct product stockEntries,
      (parseFloatOrZero e.quantity).gt JsNum.zero = true ∧
        JsNum.zero.le (parseFloatOrZero e.price) = true)
    (hne : forProduct product stockEntries ≠ []) :
    (∃ c, (inventoryRow stockEntries salesEntries product).avgCostPrice = JsNum.fin c ∧
      (∃ lowest ∈ forProduct product stockEntries,
        (∀ e ∈ forProduct product stockEntries,
          (parseFloatOrZero lowest.price).le (parseFloatOrZero e.price) = true) ∧
        (parseFloatOrZero lowest.price).le (JsNum.fin c) = true) ∧
      (∃ highest ∈ forProduct product stockEntries,
        (∀ e ∈ forProduct product stockEntries,
          (parseFloatOrZero e.price).le (parseFloatOrZero highest.price) = true) ∧
        (JsNum.fin c).le (parseFloatOrZero highest.price) = true)) ∧
    ((∀ e ∈ forProduct product salesEntries,
        JsNum.zero.le (parseFloatOrZero e.quantity) = true ∧
          JsNum.zero.le (parseFloatOrZero e.price) = true) →
      (∃ e ∈ forProduct product salesEntries,
        (parseFloatOrZero e.quantity).gt JsNum.zero = true) →
      ∃ c, (inventoryRow stockEntries salesEntries product).avgSellPrice = JsNum.fin c ∧
        (∃ lowest ∈ forProduct product salesEntries,
          (∀ e ∈ forProduct product salesEntries,
            (parseFloatOrZero lowest.price).le (parseFloatOrZero e.price) = true) ∧
          (parseFloatOrZero lowest.price).le (JsNum.fin c) = true) ∧
        (∃ highest ∈ forProduct product salesEntries,
          (∀ e ∈ forProduct product salesEntries,
            (parseFloatOrZero e.price).le (parseFloatOrZero highest.price) = true) ∧
          (JsNum.fin c).le (parseFloatOrZero highest.price) = true)) := by
  have hnan : ∀ {x : JsNum}, JsNum.zero.le x = true → x.isNaN = false := by
    intro x hx
    obtain ⟨q, hq⟩ := exists_fin_of_le_right hx
    rw [hq]; rfl
  have hge : ∀ {x : JsNum}, x.gt JsNum.zero = true → JsNum.zero.le x = true := by
    intro x hx
    cases x with
    | nan => simp [JsNum.gt, JsNum.lt, JsNum.zero] at hx
    | fin q =>
      simp only [JsNum.gt, JsNum.lt, JsNum.zero, decide_eq_true_eq] at hx
      simp only [JsNum.le, JsNum.zero, decide_eq_true_eq]
      exact le_of_lt hx
  constructor
  · obtain ⟨e0, he0⟩ := List.exists_mem_of_ne_nil _ hne
    obtain ⟨hgt, c, hc, hlow, hhigh⟩ := average_between_extremes (forProduct product stockEntries)
      (fun e he => hge (hstock e he).1) (fun e he => hnan (hstock e he).2)
      ⟨e0, he0, (hstock e0 he0).1⟩
    refine ⟨c, ?_, hlow, hhigh⟩
    show (if (sumQuantity (forProduct product stockEntries)).gt JsNum.zero then
        (sumValue (forProduct product stockEntries)).div
          (sumQuantity (forProduct product stockEntries))
      else JsNum.zero) = JsNum.fin c
    rw [if_pos hgt, hc]
  · intro hsales hsold
    obtain ⟨hgt, c, hc, hlow, hhigh⟩ := average_between_extremes (forProduct product salesEntries)
      (fun e he => (hsales e he).1) (fun e he => hnan (hsales e he).2) hsold
    refine ⟨c, ?_, hlow, hhigh⟩
    show (if (sumQuantity (forProduct product salesEntries)).gt JsNum.zero then
        (sumValue (forProduct product salesEntries)).div
          (sumQuantity (forProduct product salesEntries))
      else JsNum.zero) = JsNum.fin c
    rw [if_pos hgt, hc]

/-- C29 on product A bought at 4 (ten units) and at 8 (thirty units) and sold
at 9 (one unit) and at 13 (three units): the average cost is 7 and the average
selling price 12. -/
theorem avgCostPrice_between_smallest_and_largest_price_witness :
    (∀ e ∈ forProduct "A" stockTwoPrices,
      (parseFloatOrZero e.quantity).gt JsNum.zero = true ∧
        JsNum.zero.le (parseFloatOrZero e.price) = true) ∧
    forProduct "A" stockTwoPrices ≠ [] ∧
    (inventoryRow stockTwoPrices salesTwoPrices "A").avgCostPrice = JsNum.fin 7 ∧
    (inventoryRow stockTwoPrices salesTwoPrices "A").avgSellPrice = JsNum.fin 12 ∧
    ∃ c, (inventoryRow stockTwoPrices salesTwoPrices "A").avgCostPrice = JsNum.fin c ∧
      (∃ lowest ∈ forProduct "A" stockTwoPrices,
        (∀ e ∈ forProduct "A" stockTwoPrices,
          (parseFloatOrZero lowest.price).le (parseFloatOrZero e.price) = true) ∧
        (parseFloatOrZero lowest.price).le (JsNum.fin c) = true) ∧
      (∃ highest ∈ forProduct "A" stockTwoPrices,
        (∀ e ∈ forProduct "A" stockTwoPrices,
          (parseFloatOrZero e.price).le (parseFloatOrZero highest.price) = true) ∧
        (JsNum.fin c).le (parseFloatOrZero highest.price) = true) :=
  ⟨by with_unfolding_all decide, by with_unfolding_all decide, by with_unfolding_all decide,
    by with_unfolding_all decide,
    (avgCostPrice_between_smallest_and_largest_price stockTwoPrices salesTwoPrices "A"
      (by with_unfolding_all decide) (by with_unfolding_all decide)).1⟩

/-! ## Bucketing conserves the totals -/

lemma sum_map_ite_of_nodup (K : List String) (a : String) (c : ℚ) (hK : K.Nodup)
    (ha : a ∈ K) : (K.map (fun k => if a = k then c else 0)).sum = c := by
  induction K with
  | nil => simp at ha
  | cons k ks ih =>
    rw [List.nodup_cons] at hK
    simp only [List.map_cons, List.sum_cons]
    by_cases hak : a = k
    · subst hak
      have hzero : (ks.map (fun k => if a = k then c else 0)) = ks.map (fun _ => (0 : ℚ)) := by
        apply List.map_congr_left
        intro k hk
        rw [if_neg (fun h : a = k => hK.1 (h ▸ hk))]
      rw [if_pos rfl, hzero]
      simp
    · rw [if_neg hak, zero_add]
      rcases List.mem_cons.1 ha with h | h
      · exact absurd h hak
      · exact ih hK.2 h

lemma sum_sum_filter_key (key : Entry → String) (g : Entry → ℚ) (K : List String)
    (hK : K.Nodup) (log : List Entry) (hlog : ∀ e ∈ log, key e ∈ K) :
    (K.map (fun k => ((log.filter (fun e => decide (key e = k))).map g).sum)).sum =
      (log.map g).sum := by
  induction log with
  | nil => simp
  | cons e es ih =>
    have hstep : ∀ k, (((e :: es).filter (fun x => decide (key x = k))).map g).sum =
        (if key e = k then g e else 0) +
          ((es.filter (fun x => decide (key x = k))).map g).sum := by
      intro k
      by_cases hk : key e = k
      · simp [List.filter_cons, hk]
      · simp [List.filter_cons, hk]
    simp only [hstep, List.sum_map_add]
    rw [sum_map_ite_of_nodup K (key e) (g e) hK (hlog e (List.mem_cons_self _ _)),
      ih (fun x hx => hlog x (List.mem_cons_of_mem _ hx))]
    simp

lemma sumTotalPrice_eq_fin (log : List Entry) :
    sumTotalPrice log = JsNum.fin ((log.map (fun e => (safeParse e.totalPrice).toRat)).sum) := by
  unfold sumTotalPrice
  have h := foldl_add_eq_sum (fun s : Entry => safeParse s.totalPrice)
    (fun e => (safeParse e.totalPrice).toRat) log
    (fun e _ => by
      obtain ⟨q, hq⟩ := safeParse_fin e.totalPrice
      show safeParse e.totalPrice = JsNum.fin (safeParse e.totalPrice).toRat
      rw [hq]; rfl) 0
  rw [zero_add] at h
  exact h

lemma jsSum_sumTotalPrice_filter (key : Entry → String) (K : List String) (hK : K.Nodup)
    (log : List Entry) (hlog : ∀ e ∈ log, key e ∈ K) :
    jsSum (K.map (fun k => sumTotalPrice (log.filter (fun e => decide (key e = k))))) =
      sumTotalPrice log := by
  rw [jsSum_eq_sum, List.map_map, sumTotalPrice_eq_fin log]
  · congr 1
    rw [← sum_sum_filter_key key (fun e => (safeParse e.totalPrice).toRat) K hK log hlog]
    congr 1
    apply List.map_congr_left
    intro k _
    simp only [Function.comp_apply, sumTotalPrice_eq_fin, JsNum.toRat]
  · intro x hx
    obtain ⟨k, _, rfl⟩ := List.mem_map.1 hx
    rw [sumTotalPrice_eq_fin]
    rfl

/-- The buckets filled by the loop and sorted by name add up, field by field,
to the totals of the two logs, no bucket name being inherited from
`Object.prototype`. -/
lemma sum_of_buckets_eq_totals (key : Entry → String) (stocks sales : List Entry)
    (hkeys : ∀ e ∈ stocks ++ sales, key e ∉ objectPrototypeKeys) :
    jsSum ((jsSort (fun a b : Bucket => localeCompare a.key b.key)
        ((JsDict.entries ((taggedEntries stocks sales).foldl
          (fun m te => bucketStep (key te.2) m te) [])).map (fun kv => kv.2))).map
            (fun b => b.stock)) = sumTotalPrice stocks ∧
    jsSum ((jsSort (fun a b : Bucket => localeCompare a.key b.key)
        ((JsDict.entries ((taggedEntries stocks sales).foldl
          (fun m te => bucketStep (key te.2) m te) [])).map (fun kv => kv.2))).map
            (fun b => b.sales)) = sumTotalPrice sales := by
  obtain ⟨hmem, hsorted⟩ := sorted_buckets key (taggedEntries stocks sales)
  generalize jsSort (fun a b : Bucket => localeCompare a.key b.key)
      ((JsDict.entries ((taggedEntries stocks sales).foldl
        (fun m te => bucketStep (key te.2) m te) [])).map (fun kv => kv.2)) = B at hmem hsorted
  have hK : (B.map (fun b => b.key)).Nodup := hsorted.nodup
  have hbucket : ∀ b ∈ B,
      b.stock = sumTotalPrice (stocks.filter (fun e => decide (key e = b.key))) ∧
      b.sales = sumTotalPrice (sales.filter (fun e => decide (key e = b.key))) := by
    intro b hb
    have h := (hmem b).1 hb
    rw [expectedBucket_taggedEntries] at h
    split_ifs at h with hc
    have hb2 := Option.some.inj h
    rw [← hb2]
    exact ⟨rfl, rfl⟩
  have hall : ∀ e ∈ stocks ++ sales, key e ∈ B.map (fun b => b.key) := by
    intro e he
    have hexp : expectedBucket key (taggedEntries stocks sales) (key e) =
        some { key := key e
               stock := sumTotalPrice (stocks.filter (fun x => decide (key x = key e)))
               sales := sumTotalPrice (sales.filter (fun x => decide (key x = key e))) } := by
      rw [expectedBucket_taggedEntries, if_pos ⟨List.mem_map.2 ⟨e, he, rfl⟩, hkeys e he⟩]
    exact List.mem_map.2
      ⟨{ key := key e
         stock := sumTotalPrice (stocks.filter (fun x => decide (key x = key e)))
         sales := sumTotalPrice (sales.filter (fun x => decide (key x = key e))) },
        (hmem _).2 hexp, rfl⟩
  have hstock : B.map (fun b => b.stock) = (B.map (fun b => b.key)).map
      (fun k => sumTotalPrice (stocks.filter (fun e => decide (key e = k)))) := by
    rw [List.map_map]
    apply List.map_congr_left
    intro b hb
    exact (hbucket b hb).1
  have hsales : B.map (fun b => b.sales) = (B.map (fun b => b.key)).map
      (fun k => sumTotalPrice (sales.filter (fun e => decide (key e = k)))) := by
    rw [List.map_map]
    apply List.map_congr_left
    intro b hb
    exact (hbucket b hb).2
  rw [hstock, hsales]
  exact ⟨jsSum_sumTotalPrice_filter key _ hK stocks
      (fun e he => hall e (List.mem_append_left _ he)),
    jsSum_sumTotalPrice_filter key _ hK sales
      (fun e he => hall e (List.mem_append_right _ he))⟩

/-! ## Whole numbers in double precision -/

lemma two_pow_log2Floor_le (fuel n : Nat) (hn : 1 ≤ n) : 2 ^ log2Floor fuel n ≤ n := by
  induction fuel generalizing n with
  | zero => simpa [log2Floor] using hn
  | succ fuel ih =>
    rw [log2Floor]
    split_ifs with h
    · simpa using hn
    · have h2 : 1 ≤ n / 2 := by omega
      have := ih (n / 2) h2
      rw [pow_succ]
      omega

lemma binaryExponent_natCast_le (n : Nat) (hn : 1 ≤ n) (hlt : n < 2 ^ 53) :
    binaryExponent (n : ℚ) ≤ 52 := by
  have hL : log2Floor n n ≤ 52 := by
    by_contra hcon
    have h53 : 53 ≤ log2Floor n n := by omega
    have h1 : 2 ^ 53 ≤ 2 ^ log2Floor n n := Nat.pow_le_pow_right (by norm_num) h53
    have h2 := two_pow_log2Floor_le n n hn
    omega
  have hone : log2Floor 1 1 = 0 := by decide
  unfold binaryExponent
  simp only [Rat.num_natCast, Rat.den_natCast, Int.natAbs_ofNat, hone]
  split_ifs <;> omega

lemma roundToDouble_of_scaled_int {q : ℚ} (hq : 0 < q) {N : ℤ}
    (hN : q / (2 : ℚ) ^ (binaryExponent q - 52) = (N : ℚ)) : roundToDouble q = q := by
  have hulp : (2 : ℚ) ^ (binaryExponent q - 52) ≠ 0 := zpow_ne_zero _ (by norm_num)
  have habs : |q| = q := abs_of_pos hq
  unfold roundToDouble
  rw [if_neg (ne_of_gt hq), habs]
  simp only [hN, Int.floor_intCast, sub_self]
  have h1 : (0 : ℚ) < 1 / 2 := by norm_num
  have h2 : ¬ q < 0 := not_lt.2 (le_of_lt hq)
  simp only [h1, h2, if_true, if_false]
  rw [← hN]
  field_simp

/-- A whole number below `2 ^ 53` is a double. -/
lemma roundToDouble_natCast (n : Nat) (hlt : n < 2 ^ 53) : roundToDouble (n : ℚ) = (n : ℚ) := by
  rcases Nat.eq_zero_or_pos n with h0 | hpos
  · subst h0
    simp [roundToDouble]
  · have he := binaryExponent_natCast_le n hpos hlt
    have hq : (0 : ℚ) < (n : ℚ) := by exact_mod_cast hpos
    obtain ⟨k, hk⟩ : ∃ k : ℕ, binaryExponent (n : ℚ) - 52 = -(k : ℤ) :=
      ⟨(52 - binaryExponent (n : ℚ)).toNat, by omega⟩
    apply roundToDouble_of_scaled_int hq (N := ((n * 2 ^ k : ℕ) : ℤ))
    rw [hk, zpow_neg, zpow_natCast]
    push_cast
    field_simp

lemma roundToDouble_neg (q : ℚ) : roundToDouble (-q) = -roundToDouble q := by
  unfold roundToDouble
  by_cases h0 : q = 0
  · subst h0
    simp
  · have h0n : -q ≠ 0 := neg_ne_zero.2 h0
    rw [if_neg h0, if_neg h0n, abs_neg]
    simp only []
    rcases lt_or_gt_of_ne h0 with hneg | hpos
    · have h1 : ¬ -q < 0 := by linarith
      simp only [hneg, h1, if_true, if_false, neg_neg]
    · have h1 : -q < 0 := by linarith
      have h2 : ¬ q < 0 := by linarith
      simp only [h1, h2, if_true, if_false]

/-- A whole number of magnitude below `2 ^ 53` is a double. -/
lemma roundToDouble_intCast (z : Int) (hlt : z.natAbs < 2 ^ 53) :
    roundToDouble (z : ℚ) = (z : ℚ) := by
  obtain ⟨n, rfl | rfl⟩ := Int.eq_nat_or_neg z
  · have hn : n < 2 ^ 53 := by simpa using hlt
    exact_mod_cast roundToDouble_natCast n hn
  · have hn : n < 2 ^ 53 := by simpa using hlt
    push_cast
    rw [roundToDouble_neg]
    congr 1
    exact roundToDouble_natCast n hn

lemma addDouble_natCast (a b : Nat) (h : a + b < 2 ^ 53) :
    (JsNum.fin (a : ℚ)).addDouble (JsNum.fin (b : ℚ)) = JsNum.fin ((a + b : ℕ) : ℚ) := by
  unfold JsNum.addDouble JsNum.toDouble
  simp only [JsNum.add]
  rw [roundToDouble_natCast a (by omega), roundToDouble_natCast b (by omega)]
  have : ((a : ℚ) + (b : ℚ)) = ((a + b : ℕ) : ℚ) := by push_cast; rfl
  rw [this, roundToDouble_natCast (a + b) h]

lemma subDouble_natCast (a b : Nat) (ha : a < 2 ^ 53) (hb : b < 2 ^ 53) :
    (JsNum.fin (a : ℚ)).subDouble (JsNum.fin (b : ℚ)) = JsNum.fin ((a : ℚ) - (b : ℚ)) := by
  unfold JsNum.subDouble JsNum.toDouble
  simp only [JsNum.sub]
  rw [roundToDouble_natCast a ha, roundToDouble_natCast b hb]
  have hcast : ((a : ℚ) - (b : ℚ)) = (((a : ℤ) - (b : ℤ) : ℤ) : ℚ) := by push_cast; rfl
  rw [hcast, roundToDouble_intCast]
  omega

/-! ## Bucketing conserves whole totals -/

/-- The whole number a `totalPrice` stands for. -/
lemma safeParse_of_isNatural {v : JsVal} (h : v.isNatural = true) :
    safeParse v = JsNum.fin ((v.toRat.num.toNat : ℕ) : ℚ) ∧
    v.toRat = ((v.toRat.num.toNat : ℕ) : ℚ) := by
  unfold JsVal.isNatural at h
  simp only [Bool.and_eq_true, decide_eq_true_eq] at h
  obtain ⟨hint, hnn⟩ := h
  cases v with
  | num x =>
    cases x with
    | nan => simp [JsVal.isInteger] at hint
    | fin q =>
      have hden : q.den = 1 := by simpa [JsVal.isInteger] using hint
      have hq0 : 0 ≤ q := by simpa [JsVal.toRat] using hnn
      have hnum : ((q.num.toNat : ℕ) : ℚ) = q := by
        have h1 : (q.num : ℚ) = q := Rat.coe_int_num_of_den_eq_one hden
        have h2 : 0 ≤ q.num := Rat.num_nonneg.2 hq0
        have h3 : ((q.num.toNat : ℕ) : ℤ) = q.num := Int.toNat_of_nonneg h2
        rw [← h1]
        exact_mod_cast h3
      constructor
      · show safeParse (JsVal.num (JsNum.fin q)) = JsNum.fin ((q.num.toNat : ℕ) : ℚ)
        rw [hnum]
        rfl
      · show q = ((q.num.toNat : ℕ) : ℚ)
        exact hnum.symm
  | undefined => simp [JsVal.isInteger] at hint
  | null => simp [JsVal.isInteger] at hint
  | bool b => simp [JsVal.isInteger] at hint
  | str s => simp [JsVal.isInteger] at hint

lemma sum_toRat_eq_cast (log : List Entry) (h : ∀ e ∈ log, e.totalPrice.isNatural = true) :
    (log.map (fun e => e.totalPrice.toRat)).sum =
      (((log.map (fun e => e.totalPrice.toRat.num.toNat)).sum : ℕ) : ℚ) := by
  induction log with
  | nil => simp
  | cons e es ih =>
    simp only [List.map_cons, List.sum_cons]
    rw [ih (fun x hx => h x (List.mem_cons_of_mem _ hx))]
    have := (safeParse_of_isNatural (h e (List.mem_cons_self _ _))).2
    push_cast
    rw [← this]

/-- The sum of `safeParse(totalPrice)` over records of whole totals. -/
lemma sumTotalPrice_natural (log : List Entry)
    (h : ∀ e ∈ log, e.totalPrice.isNatural = true) :
    sumTotalPrice log =
      JsNum.fin (((log.map (fun e => e.totalPrice.toRat.num.toNat)).sum : ℕ) : ℚ) := by
  rw [sumTotalPrice_eq_fin]
  congr 1
  rw [← sum_toRat_eq_cast log h]
  congr 1
  apply List.map_congr_left
  intro e he
  rw [(safeParse_of_isNatural (h e he)).1]
  exact ((safeParse_of_isNatural (h e he)).2).symm

lemma foldl_addDouble_natural (log : List Entry) (h : ∀ e ∈ log, e.totalPrice.isNatural = true)
    (acc : ℕ)
    (hlt : acc + (log.map (fun e => e.totalPrice.toRat.num.toNat)).sum < 2 ^ 53) :
    log.foldl (fun acc s => acc.addDouble (safeParse s.totalPrice)) (JsNum.fin (acc : ℚ)) =
      JsNum.fin ((acc + (log.map (fun e => e.totalPrice.toRat.num.toNat)).sum : ℕ) : ℚ) := by
  induction log generalizing acc with
  | nil => simp
  | cons e es ih =>
    simp only [List.map_cons, List.sum_cons] at hlt
    rw [List.foldl_cons, (safeParse_of_isNatural (h e (List.mem_cons_self _ _))).1,
      addDouble_natCast _ _ (by omega),
      ih (fun x hx => h x (List.mem_cons_of_mem _ hx)) _ (by omega)]
    simp only [List.map_cons, List.sum_cons, Nat.add_assoc]

/-- In double precision the sum of whole totals that add up to less than
`2 ^ 53` is their exact sum. -/
lemma sumTotalPrice_double_eq (log : List Entry) (h : ∀ e ∈ log, e.totalPrice.isNatural = true)
    (hlt : (log.map (fun e => e.totalPrice.toRat.num.toNat)).sum < 2 ^ 53) :
    IEEE.sumTotalPrice log = sumTotalPrice log := by
  rw [sumTotalPrice_natural log h]
  have := foldl_addDouble_natural log h 0 (by omega)
  simp only [Nat.zero_add, Nat.cast_zero] at this
  exact this

lemma side_of_taggedEntries (stocks sales : List Entry) (isStock : Bool) :
    ((taggedEntries stocks sales).filter (fun te => decide (te.1 = isStock))).map Prod.snd =
      if isStock then stocks else sales := by
  cases isStock <;>
    simp [taggedEntries, List.filter_append, List.filter_map, Function.comp_def]

lemma snd_mem_of_mem_taggedEntries {stocks sales : List Entry} {te : Bool × Entry}
    (h : te ∈ taggedEntries stocks sales) : te.2 ∈ stocks ++ sales := by
  unfold taggedEntries at h
  rcases List.mem_append.1 h with h1 | h1
  · obtain ⟨e, he, rfl⟩ := List.mem_map.1 h1
    exact List.mem_append_left _ he
  · obtain ⟨e, he, rfl⟩ := List.mem_map.1 h1
    exact List.mem_append_right _ he

lemma sum_prefix_bound (stocks sales : List Entry) (isStock : Bool)
    (pre post : List (Bool × Entry)) (te : Bool × Entry)
    (htes : taggedEntries stocks sales = pre ++ te :: post) (hte : te.1 = isStock)
    (A : List Entry)
    (hA : A.Sublist ((pre.filter (fun te => decide (te.1 = isStock))).map Prod.snd))
    (nv : Entry → ℕ) :
    (A.map nv).sum + nv te.2 ≤ ((if isStock then stocks else sales).map nv).sum := by
  have h1 : (A ++ [te.2]).Sublist
      (((pre ++ te :: post).filter (fun te => decide (te.1 = isStock))).map Prod.snd) := by
    rw [List.filter_append, List.map_append, List.filter_cons_of_pos (by simpa using hte),
      List.map_cons]
    exact List.Sublist.append hA (List.Sublist.cons₂ _ (List.nil_sublist _))
  rw [← htes, side_of_taggedEntries] at h1
  have h2 := (h1.map nv).sum_le_sum (fun _ _ => Nat.zero_le _)
  simpa using h2

lemma bucketEntries_sublist (key : Entry → String) (isStock : Bool) (k : String)
    (pre : List (Bool × Entry)) :
    (bucketEntries key isStock k pre).Sublist
      ((pre.filter (fun te => decide (te.1 = isStock))).map Prod.snd) := by
  unfold bucketEntries
  apply List.Sublist.map
  apply List.monotone_filter_right
  intro te h
  simp only [Bool.and_eq_true, decide_eq_true_eq] at h
  simpa using h.1

lemma bucketStep_double_eq (k : String) (map : JsDict Bucket) (te : Bool × Entry) (x : ℕ)
    (hx : safeParse te.2.totalPrice = JsNum.fin (x : ℚ)) (hx0 : x < 2 ^ 53)
    (hb : ∀ b, map.getOwn k = some b →
      ∃ s t : ℕ, b.stock = JsNum.fin (s : ℚ) ∧ b.sales = JsNum.fin (t : ℚ) ∧
        (te.1 = true → s + x < 2 ^ 53) ∧ (te.1 = false → t + x < 2 ^ 53)) :
    IEEE.bucketStep k map te = bucketStep k map te := by
  have hadd : ∀ s : ℕ, s + x < 2 ^ 53 →
      (JsNum.fin (s : ℚ)).addDouble (JsNum.fin (x : ℚ)) =
        (JsNum.fin (s : ℚ)).add (JsNum.fin (x : ℚ)) := by
    intro s hs
    rw [addDouble_natCast s x hs]
    simp [JsNum.add]
  have hzero : JsNum.zero = JsNum.fin ((0 : ℕ) : ℚ) := by simp [JsNum.zero]
  unfold IEEE.bucketStep bucketStep
  simp only [hx]
  cases hg : map.getOwn k with
  | none =>
    simp only []
    rw [hzero, hadd 0 (by omega)]
  | some b =>
    obtain ⟨s, t, hs, ht, h1, h2⟩ := hb b hg
    simp only []
    cases hte : te.1 with
    | true => simp only [if_true, hs, hadd s (h1 hte)]
    | false =>
      simp only [Bool.false_eq_true, if_false, ht, hadd t (h2 hte)]

/-- On whole totals that add up to less than `2 ^ 53` in each log, the bucket
loop in double precision is the exact one. -/
lemma bucket_loop_double (key : Entry → String) (stocks sales : List Entry)
    (hnat : ∀ e ∈ stocks ++ sales, e.totalPrice.isNatural = true)
    (hstock : (stocks.map (fun e => e.totalPrice.toRat.num.toNat)).sum < 2 ^ 53)
    (hsales : (sales.map (fun e => e.totalPrice.toRat.num.toNat)).sum < 2 ^ 53) :
    ∀ pre post, taggedEntries stocks sales = pre ++ post →
      pre.foldl (fun m te => IEEE.bucketStep (key te.2) m te) [] =
        pre.foldl (fun m te => bucketStep (key te.2) m te) [] := by
  have hside : ∀ isStock : Bool,
      ((if isStock then stocks else sales).map (fun e => e.totalPrice.toRat.num.toNat)).sum <
        2 ^ 53 := by
    intro isStock
    cases isStock
    · simpa using hsales
    · simpa using hstock
  intro pre
  induction pre using List.reverseRecOn with
  | nil => intro post _; rfl
  | append_singleton pre te ih =>
    intro post htes
    have htes2 : taggedEntries stocks sales = pre ++ te :: post := by
      rw [htes, List.append_assoc]
      rfl
    rw [List.foldl_append, List.foldl_append, ih (te :: post) htes2]
    simp only [List.foldl_cons, List.foldl_nil]
    have hmem : ∀ t ∈ pre ++ [te], t.2 ∈ stocks ++ sales := by
      intro t ht
      apply snd_mem_of_mem_taggedEntries
      rw [htes]
      exact List.mem_append_left _ ht
    have hx := (safeParse_of_isNatural (hnat te.2 (hmem te (by simp)))).1
    have hbound : ∀ A : List Entry,
        A.Sublist ((pre.filter (fun t => decide (t.1 = te.1))).map Prod.snd) →
        (A.map (fun e => e.totalPrice.toRat.num.toNat)).sum + te.2.totalPrice.toRat.num.toNat <
          2 ^ 53 := by
      intro A hA
      exact lt_of_le_of_lt
        (sum_prefix_bound stocks sales te.1 pre post te htes2 rfl A hA
          (fun e => e.totalPrice.toRat.num.toNat))
        (hside te.1)
    apply bucketStep_double_eq _ _ _ _ hx
    · have := hbound [] (List.nil_sublist _)
      simpa using this
    · intro b hb
      rw [(bucket_loop key pre).2 (key te.2)] at hb
      unfold expectedBucket at hb
      split_ifs at hb with hc
      have hb2 := Option.some.inj hb
      have hnatB : ∀ isStock : Bool, ∀ e ∈ bucketEntries key isStock (key te.2) pre,
          e.totalPrice.isNatural = true := by
        intro isStock e he
        unfold bucketEntries at he
        obtain ⟨t, ht, rfl⟩ := List.mem_map.1 he
        exact hnat t.2 (hmem t (List.mem_append_left _ (List.mem_filter.1 ht).1))
      refine ⟨((bucketEntries key true (key te.2) pre).map
            (fun e => e.totalPrice.toRat.num.toNat)).sum,
          ((bucketEntries key false (key te.2) pre).map
            (fun e => e.totalPrice.toRat.num.toNat)).sum, ?_, ?_, ?_, ?_⟩
      · rw [← hb2]
        exact sumTotalPrice_natural _ (hnatB true)
      · rw [← hb2]
        exact sumTotalPrice_natural _ (hnatB false)
      · intro h1
        have := hbound (bucketEntries key true (key te.2) pre)
          (by rw [h1]; exact bucketEntries_sublist key true (key te.2) pre)
        exact this
      · intro h1
        have := hbound (bucketEntries key false (key te.2) pre)
          (by rw [h1]; exact bucketEntries_sublist key false (key te.2) pre)
        exact this

/-- A sum of whole numbers below `2 ^ 53`, added exactly or in double
precision from a whole number. -/
lemma foldl_add_natCast (ns : List ℕ) (acc : ℕ) (hlt : acc + ns.sum < 2 ^ 53) :
    (ns.map (fun n : ℕ => JsNum.fin (n : ℚ))).foldl (fun a x => a.add x) (JsNum.fin (acc : ℚ)) =
      JsNum.fin ((acc + ns.sum : ℕ) : ℚ) ∧
    (ns.map (fun n : ℕ => JsNum.fin (n : ℚ))).foldl (fun a x => a.addDouble x)
        (JsNum.fin (acc : ℚ)) = JsNum.fin ((acc + ns.sum : ℕ) : ℚ) := by
  induction ns generalizing acc with
  | nil => simp
  | cons n ns ih =>
    simp only [List.sum_cons] at hlt
    simp only [List.map_cons, List.foldl_cons, List.sum_cons]
    rw [addDouble_natCast acc n (by omega)]
    have hadd : (JsNum.fin (acc : ℚ)).add (JsNum.fin (n : ℚ)) = JsNum.fin ((acc + n : ℕ) : ℚ) := by
      simp [JsNum.add]
    rw [hadd, ← Nat.add_assoc]
    exact ih (acc + n) (by omega)

/-- A sum of whole numbers, added exactly from a whole number. -/
lemma foldl_add_natCast_exact (ns : List ℕ) (acc : ℕ) :
    (ns.map (fun n : ℕ => JsNum.fin (n : ℚ))).foldl (fun a x => a.add x) (JsNum.fin (acc : ℚ)) =
      JsNum.fin ((acc + ns.sum : ℕ) : ℚ) := by
  induction ns generalizing acc with
  | nil => simp
  | cons n ns ih =>
    simp only [List.map_cons, List.foldl_cons, List.sum_cons]
    have hadd : (JsNum.fin (acc : ℚ)).add (JsNum.fin (n : ℚ)) =
        JsNum.fin ((acc + n : ℕ) : ℚ) := by simp [JsNum.add]
    rw [hadd, ← Nat.add_assoc]
    exact ih (acc + n)

/-- The values of a list of whole numbers below `2 ^ 53` in total add up to the
same number exactly and in double precision. -/
lemma jsSumDouble_eq_jsSum (xs : List JsNum) (N : ℕ) (hN : N < 2 ^ 53)
    (hxs : ∀ x ∈ xs, ∃ n : ℕ, x = JsNum.fin (n : ℚ))
    (hsum : jsSum xs = JsNum.fin (N : ℚ)) : jsSumDouble xs = jsSum xs := by
  obtain ⟨ns, hmap⟩ : ∃ ns : List ℕ, xs = ns.map (fun n : ℕ => JsNum.fin (n : ℚ)) := by
    refine ⟨xs.map (fun x => x.toRat.num.toNat), ?_⟩
    rw [List.map_map]
    conv_lhs => rw [← List.map_id xs]
    apply List.map_congr_left
    intro x hx
    obtain ⟨n, rfl⟩ := hxs x hx
    simp [JsNum.toRat]
  subst hmap
  have hzero : JsNum.zero = JsNum.fin ((0 : ℕ) : ℚ) := by simp [JsNum.zero]
  have hexact := fun acc : ℕ => foldl_add_natCast_exact ns acc
  unfold jsSum at hsum
  rw [hzero, hexact 0] at hsum
  have hlt : 0 + ns.sum < 2 ^ 53 := by
    have h1 : ((0 + ns.sum : ℕ) : ℚ) = (N : ℚ) := JsNum.fin.inj hsum
    have h2 : 0 + ns.sum = N := by exact_mod_cast h1
    omega
  unfold jsSumDouble jsSum
  rw [hzero, (foldl_add_natCast ns 0 hlt).1, (foldl_add_natCast ns 0 hlt).2]

/-- Every bucket of the exact loop over whole totals holds whole numbers. -/
lemma bucket_fields_natural (key : Entry → String) (stocks sales : List Entry)
    (hnat : ∀ e ∈ stocks ++ sales, e.totalPrice.isNatural = true) :
    ∀ b ∈ jsSort (fun a b : Bucket => localeCompare a.key b.key)
        ((JsDict.entries ((taggedEntries stocks sales).foldl
          (fun m te => bucketStep (key te.2) m te) [])).map (fun kv => kv.2)),
      (∃ n : ℕ, b.stock = JsNum.fin (n : ℚ)) ∧ (∃ n : ℕ, b.sales = JsNum.fin (n : ℚ)) := by
  intro b hb
  have h := ((sorted_buckets key (taggedEntries stocks sales)).1 b).1 hb
  rw [expectedBucket_taggedEntries] at h
  split_ifs at h with hc
  have hb2 := Option.some.inj h
  rw [← hb2]
  exact ⟨⟨_, sumTotalPrice_natural _ (fun e he =>
      hnat e (List.mem_append_left _ (List.mem_filter.1 he).1))⟩,
    ⟨_, sumTotalPrice_natural _ (fun e he =>
      hnat e (List.mem_append_right _ (List.mem_filter.1 he).1))⟩⟩

/-- The sums of the bucket fields over whole totals, for either bucket name. -/
lemma sum_of_double_buckets (key : Entry → String) (stocks sales : List Entry)
    (hkeys : ∀ e ∈ stocks ++ sales, key e ∉ objectPrototypeKeys)
    (hnat : ∀ e ∈ stocks ++ sales, e.totalPrice.isNatural = true)
    (hstock : (stocks.map (fun e => e.totalPrice.toRat.num.toNat)).sum < 2 ^ 53)
    (hsales : (sales.map (fun e => e.totalPrice.toRat.num.toNat)).sum < 2 ^ 53)
    (B : List Bucket)
    (hB : B = jsSort (fun a b : Bucket => localeCompare a.key b.key)
        ((JsDict.entries ((taggedEntries stocks sales).foldl
          (fun m te => IEEE.bucketStep (key te.2) m te) [])).map (fun kv => kv.2))) :
    jsSum (B.map (fun b => b.stock)) = IEEE.totalStock stocks ∧
    jsSum (B.map (fun b => b.sales)) = IEEE.totalSales sales ∧
    jsSumDouble (B.map (fun b => b.stock)) = IEEE.totalStock stocks ∧
    jsSumDouble (B.map (fun b => b.sales)) = IEEE.totalSales sales := by
  rw [bucket_loop_double key stocks sales hnat hstock hsales (taggedEntries stocks sales) []
    (by simp)] at hB
  have hnatS : ∀ e ∈ stocks, e.totalPrice.isNatural = true :=
    fun e he => hnat e (List.mem_append_left _ he)
  have hnatT : ∀ e ∈ sales, e.totalPrice.isNatural = true :=
    fun e he => hnat e (List.mem_append_right _ he)
  have hsum := sum_of_buckets_eq_totals key stocks sales hkeys
  have hfields := bucket_fields_natural key stocks sales hnat
  rw [← hB] at hsum hfields
  have h1 : IEEE.totalStock stocks = sumTotalPrice stocks :=
    sumTotalPrice_double_eq stocks hnatS hstock
  have h2 : IEEE.totalSales sales = sumTotalPrice sales :=
    sumTotalPrice_double_eq sales hnatT hsales
  have h3 : jsSumDouble (B.map (fun b => b.stock)) = jsSum (B.map (fun b => b.stock)) := by
    apply jsSumDouble_eq_jsSum _ _ hstock
    · intro x hx
      obtain ⟨b, hb, rfl⟩ := List.mem_map.1 hx
      exact (hfields b hb).1
    · rw [hsum.1, sumTotalPrice_natural stocks hnatS]
  have h4 : jsSumDouble (B.map (fun b => b.sales)) = jsSum (B.map (fun b => b.sales)) := by
    apply jsSumDouble_eq_jsSum _ _ hsales
    · intro x hx
      obtain ⟨b, hb, rfl⟩ := List.mem_map.1 hx
      exact (hfields b hb).2
    · rw [hsum.2, sumTotalPrice_natural sales hnatT]
  rw [h3, h4, h1, h2]
  exact ⟨hsum.1, hsum.2, hsum.1, hsum.2⟩

/-- A bound on the sum of whole totals, from the bound on their values. -/
lemma natural_sum_lt (log : List Entry) (h : ∀ e ∈ log, e.totalPrice.isNatural = true)
    (hlt : (log.map (fun e => e.totalPrice.toRat)).sum < 2 ^ 53) :
    (log.map (fun e => e.totalPrice.toRat.num.toNat)).sum < 2 ^ 53 := by
  rw [sum_toRat_eq_cast log h] at hlt
  exact_mod_cast hlt

/-- C25, as amended: for logs whose dates are calendar dates `YYYY-MM-DD` and
whose `totalPrice` values are whole numbers, not negative, that add up to less
than `2 ^ 53` in each log, with every addition and the subtraction rounded to a
double as the engine does: `totalStock` and `totalSales` are the sums of
`totalPrice` over the stock log and over the sales log, `profit` is their
difference, and the `stock` fields of the daily buckets, and of the monthly
buckets, add up to `totalStock` and their `sales` fields to `totalSales`,
whether the fields are added exactly or in double precision. -/
theorem buckets_conserve_kpi_totals (stocks sales : List Entry)
    (hdate : ∀ e ∈ stocks ++ sales, isIsoDate e.date = true)
    (hwhole : ∀ e ∈ stocks ++ sales, e.totalPrice.isNatural = true)
    (hstock : (stocks.map (fun e => e.totalPrice.toRat)).sum < 2 ^ 53)
    (hsales : (sales.map (fun e => e.totalPrice.toRat)).sum < 2 ^ 53) :
    IEEE.totalStock stocks = JsNum.fin ((stocks.map (fun e => e.totalPrice.toRat)).sum) ∧
    IEEE.totalSales sales = JsNum.fin ((sales.map (fun e => e.totalPrice.toRat)).sum) ∧
    IEEE.profit sales stocks =
      JsNum.fin ((sales.map (fun e => e.totalPrice.toRat)).sum -
        (stocks.map (fun e => e.totalPrice.toRat)).sum) ∧
    (jsSum ((IEEE.timeSeriesData stocks sales).map (fun b => b.stock)) = IEEE.totalStock stocks ∧
     jsSum ((IEEE.timeSeriesData stocks sales).map (fun b => b.sales)) = IEEE.totalSales sales ∧
     jsSumDouble ((IEEE.timeSeriesData stocks sales).map (fun b => b.stock)) =
       IEEE.totalStock stocks ∧
     jsSumDouble ((IEEE.timeSeriesData stocks sales).map (fun b => b.sales)) =
       IEEE.totalSales sales) ∧
    (jsSum ((IEEE.monthlySummary stocks sales).map (fun b => b.stock)) = IEEE.totalStock stocks ∧
     jsSum ((IEEE.monthlySummary stocks sales).map (fun b => b.sales)) = IEEE.totalSales sales ∧
     jsSumDouble ((IEEE.monthlySummary stocks sales).map (fun b => b.stock)) =
       IEEE.totalStock stocks ∧
     jsSumDouble ((IEEE.monthlySummary stocks sales).map (fun b => b.sales)) =
       IEEE.totalSales sales) := by
  have hnatS : ∀ e ∈ stocks, e.totalPrice.isNatural = true :=
    fun e he => hwhole e (List.mem_append_left _ he)
  have hnatT : ∀ e ∈ sales, e.totalPrice.isNatural = true :=
    fun e he => hwhole e (List.mem_append_right _ he)
  have hS := natural_sum_lt stocks hnatS hstock
  have hT := natural_sum_lt sales hnatT hsales
  have hdays : ∀ e ∈ stocks ++ sales, e.date ∉ objectPrototypeKeys :=
    fun e he => not_mem_objectPrototypeKeys_of_isIsoDate (hdate e he)
  have hmonths : ∀ e ∈ stocks ++ sales, monthOf e.date ∉ objectPrototypeKeys := by
    intro e he hmem
    obtain ⟨hlen, hne⟩ := isIsoDate_month (hdate e he)
    exact hne (eq_valueOf_of_mem_objectPrototypeKeys hmem (length_monthOf hlen))
  have h1 : IEEE.totalStock stocks =
      JsNum.fin ((stocks.map (fun e => e.totalPrice.toRat)).sum) := by
    unfold IEEE.totalStock
    rw [sumTotalPrice_double_eq stocks hnatS hS, sumTotalPrice_natural stocks hnatS,
      sum_toRat_eq_cast stocks hnatS]
  have h2 : IEEE.totalSales sales =
      JsNum.fin ((sales.map (fun e => e.totalPrice.toRat)).sum) := by
    unfold IEEE.totalSales
    rw [sumTotalPrice_double_eq sales hnatT hT, sumTotalPrice_natural sales hnatT,
      sum_toRat_eq_cast sales hnatT]
  refine ⟨h1, h2, ?_,
    sum_of_double_buckets (fun e => e.date) stocks sales hdays hwhole hS hT _ rfl,
    sum_of_double_buckets (fun e => monthOf e.date) stocks sales hmonths hwhole hS hT _ rfl⟩
  unfold IEEE.profit
  rw [h1, h2, sum_toRat_eq_cast stocks hnatS, sum_toRat_eq_cast sales hnatT]
  exact subDouble_natCast _ _ hT hS

/-- C25 on stock and sales over three months: the totals are 150 and 3, the
profit is -147, and the daily and the monthly buckets add up to the totals. -/
theorem buckets_conserve_kpi_totals_witness :
    (∀ e ∈ stockTwoMonths ++ salesTwoMonths, isIsoDate e.date = true) ∧
    (∀ e ∈ stockTwoMonths ++ salesTwoMonths, e.totalPrice.isNatural = true) ∧
    IEEE.totalStock stockTwoMonths = JsNum.fin 150 ∧
    IEEE.totalSales salesTwoMonths = JsNum.fin 3 ∧
    IEEE.profit salesTwoMonths stockTwoMonths = JsNum.fin (-147) ∧
    jsSumDouble ((IEEE.monthlySummary stockTwoMonths salesTwoMonths).map (fun b => b.stock)) =
      IEEE.totalStock stockTwoMonths :=
  ⟨by with_unfolding_all decide, by with_unfolding_all decide, by decide!, by decide!,
    by decide!,
    (buckets_conserve_kpi_totals stockTwoMonths salesTwoMonths (by with_unfolding_all decide)
      (by with_unfolding_all decide) (by with_unfolding_all decide)
      (by with_unfolding_all decide)).2.2.2.2.2.2.1⟩

/-- C25: three stock records with the totals `0.1`, `0.3` and `0.7`, the first
and the third of 5 January, the second of 6 February.  `totalStock` adds them
in log order, `(0.1 + 0.3) + 0.7`, the double `1.1`.  The bucket of 5 January
(of January) holds `0.1 + 0.7`, the double `0.7999999999999999`, and with the
other bucket, `0.3`, the buckets add up to `1.0999999999999999` in double
precision, and exactly to a number below `totalStock` as well. -/
theorem buckets_of_tenths_differ_from_totalStock :
    (∀ e ∈ stockTenths, isIsoDate e.date = true ∧ e.totalPrice.isNumber = true) ∧
    IEEE.totalStock stockTenths = JsNum.fin (roundToDouble (11 / 10)) ∧
    (IEEE.timeSeriesData stockTenths []).map (fun b => (b.date, b.stock)) =
      [("2024-01-05", JsNum.fin (roundToDouble (roundToDouble (1 / 10) + roundToDouble (7 / 10)))),
       ("2024-02-06", JsNum.fin (roundToDouble (3 / 10)))] ∧
    (IEEE.monthlySummary stockTenths []).map (fun b => (b.month, b.stock)) =
      [("2024-01", JsNum.fin (roundToDouble (roundToDouble (1 / 10) + roundToDouble (7 / 10)))),
       ("2024-02", JsNum.fin (roundToDouble (3 / 10)))] ∧
    roundToDouble (roundToDouble (1 / 10) + roundToDouble (7 / 10)) < roundToDouble (8 / 10) ∧
    jsSumDouble ((IEEE.timeSeriesData stockTenths []).map (fun b => b.stock)) =
      JsNum.fin (4953959590107545 / 4503599627370496) ∧
    jsSumDouble ((IEEE.timeSeriesData stockTenths []).map (fun b => b.stock)) ≠
      IEEE.totalStock stockTenths ∧
    jsSum ((IEEE.timeSeriesData stockTenths []).map (fun b => b.stock)) ≠
      IEEE.totalStock stockTenths ∧
    jsSumDouble ((IEEE.monthlySummary stockTenths []).map (fun b => b.stock)) ≠
      IEEE.totalStock stockTenths ∧
    jsSum ((IEEE.monthlySummary stockTenths []).map (fun b => b.stock)) ≠
      IEEE.totalStock stockTenths := by
  refine ⟨?_, ?_, ?_, ?_, ?_, ?_, ?_, ?_, ?_, ?_⟩ <;> decide!

/-! ## The dashboard's stock remaining -/

/-- C26: five units of product A in stock and two sales of A, of five units
and then of three (a state the pages reach when a stock entry of three units
is deleted after the sales).  The first sale brings the balance of A to `0`,
which is falsy, so the second sale is skipped: `stockLeftQuantity` is 0, while
the `remainingStock` of A, the only stocked product, is -3.  With the two sales
in the other order the dashboard shows -3.  For a stocked product named
`constructor` the metric is text. -/
theorem stockLeftQuantity_skips_sales_after_zero_balance :
    (handleDelete (setConfirmDeleteIndex 1 stockPageRestocked)).map
      (fun st => st.stockEntries) = some stockFiveOfA ∧
    stockLeftQuantity stockFiveOfA salesFiveThenThree = TallyVal.num (JsNum.fin 0) ∧
    remainingOfStockedProducts stockFiveOfA salesFiveThenThree = JsNum.fin (-3) ∧
    (inventoryRow stockFiveOfA salesFiveThenThree "A").remainingStock = JsNum.fin (-3) ∧
    stockLeftQuantity stockFiveOfA salesFiveThenThree.reverse = TallyVal.num (JsNum.fin (-3)) ∧
    stockLeftQuantity stockConstructor [] = TallyVal.builtinText ∧
    remainingOfStockedProducts stockConstructor [] = JsNum.fin 5 := by
  refine ⟨?_, ?_, ?_, ?_, ?_, ?_, ?_⟩ <;> with_unfolding_all decide

/-! ## The row a button acts on -/

/-- C27: the stock page in its initial view (no filter, latest date first, ten
rows a page) over the log `[A of 2024-01-05, B of 2024-01-06]` shows B in its
first row and A in its second.  The buttons of the first row pass the index 0
of the row: `handleDelete` then removes A, the entry at index 0 of the log, and
keeps B, the entry shown in the row; the edit form is filled with A, and the
submission replaces A.  On the second page of five rows, over six records
sorted by ascending date, the first row shows the sixth record and its delete
button removes the first. -/
theorem stock_row_buttons_act_on_log_index_of_page_position :
    paginatedEntries
        (processedEntries stockPageTwoRecords.stockEntries initialFilters initialSortConfig)
        initialPagination =
      [stockRecord "B" 3 4 "2024-01-06", stockRecord "A" 10 5 "2024-01-05"] ∧
    (handleDelete (setConfirmDeleteIndex 0 stockPageTwoRecords)).map
        (fun st => st.stockEntries) = some [stockRecord "B" 3 4 "2024-01-06"] ∧
    editData (setEditIndex (some 0) stockPageTwoRecords) =
      some (stockRecord "A" 10 5 "2024-01-05") ∧
    (handleProductSubmit (stockRecord "A" 7 5 "2024-01-05")
        (setEditIndex (some 0) stockPageTwoRecords)).map (fun st => st.stockEntries) =
      some [stockRecord "A" 7 5 "2024-01-05", stockRecord "B" 3 4 "2024-01-06"] ∧
    paginatedEntries
        (processedEntries stockPageSixDays.stockEntries initialFilters
          { key := SortKey.date, direction := SortDirection.asc })
        { page := 1, rowsPerPage := 5 } =
      [stockRecord "A" 6 5 "2024-01-06"] ∧
    (handleDelete (setConfirmDeleteIndex 0 stockPageSixDays)).map
        (fun st => st.stockEntries) = some stockSixDays.tail := by
  refine ⟨?_, ?_, ?_, ?_, ?_, ?_⟩ <;> with_unfolding_all decide

/-- C28: the sales page holds a sale of A (four units) and a sale of B (one
unit), and `B` is typed in the search field.  The table shows the sale of B in
its first row, whose buttons pass the index 0, the position of the row in the
filtered list: `salesData[0]` is the sale of A.  `confirmDelete` removes the
sale of A and keeps the sale shown; `handleEdit` loads the sale of A, and the
limit of the validator adds back its four units. -/
theorem sales_row_buttons_act_on_index_in_filtered_list :
    StockSalesPage.filteredSales salesPageTwoSales.salesData salesTableSearchB.filter =
      some [saleRecord "B" 1 "9.00" 9 "2024-01-07"] ∧
    StockSalesPage.displayedSales [saleRecord "B" 1 "9.00" 9 "2024-01-07"] salesTableSearchB =
      [saleRecord "B" 1 "9.00" 9 "2024-01-07"] ∧
    StockSalesPage.rowIndex salesTableSearchB 0 = 0 ∧
    StockSalesPage.salesAt salesPageTwoSales.salesData
        (StockSalesPage.rowIndex salesTableSearchB 0) =
      some (saleRecord "A" 4 "8.00" 32 "2024-01-06") ∧
    (StockSalesPage.confirmDelete salesPageTwoSales
        (StockSalesPage.handleDelete (StockSalesPage.rowIndex salesTableSearchB 0)
          salesTableSearchB)).1.salesData =
      [saleRecord "B" 1 "9.00" 9 "2024-01-07"] ∧
    (StockSalesPage.handleEdit (StockSalesPage.rowIndex salesTableSearchB 0)
        salesPageTwoSales).map (fun st => (st.form.productName, st.form.quantity, st.editIndex)) =
      some ("A", JsVal.str "4", some 0) ∧
    (StockSalesPage.handleEdit (StockSalesPage.rowIndex salesTableSearchB 0)
        salesPageTwoSales).bind submitLimit = some (JsNum.fin 10) ∧
    getAvailableQuantity "B" salesPageTwoSales.stockData salesPageTwoSales.salesData =
      JsNum.fin 4 := by
  refine ⟨?_, ?_, ?_, ?_, ?_, ?_, ?_, ?_⟩ <;> with_unfolding_all decide

lemma StockSalesPage.filteredSales_empty_filter (salesData : List Entry) :
    StockSalesPage.filteredSales salesData "" = some salesData := by
  induction salesData with
  | nil => rfl
  | cons sale rest ih =>
    have hm : StockSalesPage.matchesSale "" sale = some true := by
      have hlow : toLowerCase "" = "" := by decide
      unfold StockSalesPage.matchesSale
      rw [hlow, if_pos (includes_empty _)]
    rw [StockSalesPage.filteredSales, hm, ih]
    rfl

/-- With an empty search text and a positive number of rows per page, the index
a row passes is the index in `salesData` of the record the row shows. -/
lemma StockSalesPage.rowIndex_of_empty_filter (salesData : List Entry) (table : SalesTable)
    (i : Nat) (e : Entry) (hrows : 0 < table.rowsPerPage)
    (h : (StockSalesPage.displayedSales salesData table).get? i = some e) :
    StockSalesPage.filteredSales salesData "" = some salesData ∧
    StockSalesPage.salesAt salesData (StockSalesPage.rowIndex table i) = some e := by
  refine ⟨StockSalesPage.filteredSales_empty_filter salesData, ?_⟩
  unfold StockSalesPage.displayedSales at h
  rw [if_pos hrows] at h
  obtain ⟨r, hr⟩ : ∃ r : Nat, table.rowsPerPage = (r : Int) :=
    ⟨table.rowsPerPage.toNat, (Int.toNat_of_nonneg (le_of_lt hrows)).symm⟩
  rw [hr, Int.toNat_ofNat] at h
  have hi : i < r := by
    by_contra hcon
    rw [List.get?_eq_getElem?, List.getElem?_take_eq_none (not_lt.1 hcon)] at h
    cases h
  rw [List.get?_eq_getElem?, List.getElem?_take_of_lt hi, List.getElem?_drop] at h
  unfold StockSalesPage.salesAt StockSalesPage.rowIndex
  rw [hr]
  have hnn : ¬ ((table.page : Int) * (r : Int) + (i : Int) < 0) := by
    have : (0 : Int) ≤ (table.page : Int) * (r : Int) + (i : Int) := by positivity
    omega
  rw [if_neg hnn]
  have hnat : ((table.page : Int) * (r : Int) + (i : Int)).toNat = table.page * r + i := by
    have : ((table.page : Int) * (r : Int) + (i : Int)) = ((table.page * r + i : Nat) : Int) := by
      push_cast; ring
    rw [this, Int.toNat_ofNat]
  rw [hnat, List.get?_eq_getElem?]
  exact h

end StockMaintain
